import Mathlib

/-!
# Video render service: job queue and encoder command synthesis

A shallow embedding of `worker/src/ffmpeg.js`, `worker/src/worker.js`,
`worker/src/webhook.js`, `render-api/src/queue.js` and the job-creation handler of
`render-api/src/server.js`.

Conventions of the embedding:

* a JavaScript object field that may be absent is an `Option`;
* `a || b` on strings and numbers is `strOr` / `numOr` (the empty string and `0` are falsy);
* numbers of a job (durations, sizes, frame rates) are natural numbers; the times read from
  the encoder's diagnostic text are doubles (`JsNumber`), with the arithmetic of the code;
* the file system is a predicate `existsSync : String → Bool`;
* `throw` is `Except.error`; a thrown `Error(msg)` and a runtime `TypeError` are kept apart.
-/

namespace VideoEditor

set_option maxRecDepth 100000

/-! ## JavaScript helpers -/

/-- A thrown JavaScript exception. -/
inductive JsError where
  /-- Raised by `throw new Error(message)`. -/
  | error (message : String)
  /-- a `TypeError` raised by the runtime (method call on `undefined`, bad argument type) -/
  | typeError (message : String)
  deriving DecidableEq, Repr

deriving instance DecidableEq for Except

/-- Truthiness of an optional string: `undefined` and `''` are falsy. -/
def strTruthy : Option String → Bool
  | some s => s != ""
  | none => false

/-- JavaScript `a || b` on optional strings. -/
def strOr (a b : Option String) : Option String :=
  if strTruthy a then a else b

/-- JavaScript `a || d` on an optional number with a literal default: `undefined` and `0` are falsy. -/
def numOr (a : Option Nat) (d : Nat) : Nat :=
  match a with
  | some n => if n = 0 then d else n
  | none => d

/-- Template-literal rendering of an optional number: a missing value prints as `undefined`. -/
def renderNum : Option Nat → String
  | some n => toString n
  | none => "undefined"

/-- JavaScript `s.startsWith(p)`. -/
def startsWith (s p : String) : Bool :=
  p.data.isPrefixOf s.data

/-- Whether `pat` occurs as a contiguous block of `s`. -/
def infixOf (pat : List Char) : List Char → Bool
  | [] => pat.isEmpty
  | c :: cs => pat.isPrefixOf (c :: cs) || infixOf pat cs

/-- JavaScript `s.includes(p)`. -/
def includes (s p : String) : Bool :=
  infixOf p.data s.data

/-! ## `path.join` (Node, POSIX flavour) -/

/-- The pieces of a path between its `/` separators. -/
def splitSlash : List Char → List (List Char)
  | [] => [[]]
  | c :: cs =>
    match splitSlash cs with
    | [] => [[]]
    | seg :: segs => if c = '/' then [] :: seg :: segs else (c :: seg) :: segs

/-- Node's `normalizeString`: drops empty and `.` pieces, lets `..` remove the piece before it;
`acc` is the stack of kept pieces, innermost first. -/
def normalizeSegs (allowAboveRoot : Bool) : List (List Char) → List (List Char) → List (List Char)
  | [], acc => acc.reverse
  | seg :: rest, acc =>
    if seg = [] ∨ seg = ['.'] then normalizeSegs allowAboveRoot rest acc
    else if seg = ['.', '.'] then
      match acc with
      | [] => normalizeSegs allowAboveRoot rest (if allowAboveRoot then [seg] else [])
      | top :: below =>
        if top = ['.', '.'] then
          normalizeSegs allowAboveRoot rest (if allowAboveRoot then seg :: acc else acc)
        else normalizeSegs allowAboveRoot rest below
    else normalizeSegs allowAboveRoot rest (seg :: acc)

/-- Node's `path.posix.normalize` on a character list. -/
def normalizeChars (p : List Char) : List Char :=
  if p = [] then ['.']
  else
    let isAbsolute := p.head? = some '/'
    let trailingSeparator := p.getLast? = some '/'
    let segs := normalizeSegs (!isAbsolute) (splitSlash p) []
    if segs = [] then
      if isAbsolute then ['/'] else if trailingSeparator then ['.', '/'] else ['.']
    else
      let body := List.intercalate ['/'] segs
      let body := if trailingSeparator then body ++ ['/'] else body
      if isAbsolute then '/' :: body else body

/-- Node's `path.join(a, b)`: the non-empty arguments joined by `/`, then normalised. -/
def pathJoin (a b : String) : String :=
  if a = "" then
    if b = "" then "." else String.mk (normalizeChars b.data)
  else if b = "" then String.mk (normalizeChars a.data)
  else String.mk (normalizeChars (a.data ++ '/' :: b.data))

/-! ## Job data -/

/-- One layer of a layered-format clip. -/
structure Layer where
  type : Option String := none
  path : Option String := none
  resizeMode : Option String := none
  mixVolume : Option Nat := none
  deriving DecidableEq, Repr

/-- One clip of a job; the simple format uses `path`/`imagePath`/`duration`,
the layered format `duration`/`layers` (an entry of `layers` may be `null`). -/
structure Clip where
  path : Option String := none
  imagePath : Option String := none
  duration : Option Nat := none
  layers : Option (List (Option Layer)) := none
  deriving DecidableEq, Repr

def OUTPUTS_DIR : String := "/outputs"

def TEMP_DIR : String := "/tmp"

/-- A file written by `fs.writeFileSync`. -/
structure WrittenFile where
  path : String
  content : String
  deriving DecidableEq, Repr

/-! ## `createConcatFile` -/

/-- The `file` line of a concat list. -/
def fileLine (fullPath : String) : String :=
  "file '" ++ fullPath ++ "'\n"

/-- The `duration` line of a concat list. -/
def durationLine (d : String) : String :=
  "duration " ++ d ++ "\n"

/-- The `for (const clip of clips)` loop of `createConcatFile`, threading `concatContent`. -/
def createConcatLoop (existsSync : String → Bool) : List Clip → String → Except JsError String
  | [], concatContent => .ok concatContent
  | clip :: rest, concatContent =>
    let imagePath := strOr clip.imagePath clip.path
    let duration := numOr clip.duration 5
    match imagePath with
    | none => .error (.error "Clip missing image path")
    | some p =>
      if p = "" then .error (.error "Clip missing image path")
      else
        let fullImagePath := pathJoin "/uploads" p
        if !existsSync fullImagePath then
          .error (.error ("Image file not found: " ++ fullImagePath))
        else
          createConcatLoop existsSync rest
            (concatContent ++ fileLine fullImagePath ++ durationLine (toString duration))

/-- Source function `createConcatFile(clips, tempId)`: the path and content of the concat list it writes. -/
def createConcatFile (existsSync : String → Bool) (clips : List Clip) (tempId : String) :
    Except JsError WrittenFile :=
  let concatPath := pathJoin TEMP_DIR ("concat_" ++ tempId ++ ".txt")
  match createConcatLoop existsSync clips "" with
  | .error e => .error e
  | .ok concatContent =>
    match clips.getLast? with
    | none => .ok ⟨concatPath, concatContent⟩
    | some lastClip =>
      match strOr lastClip.imagePath lastClip.path with
      | none => .error (.typeError "path.join: argument must be of type string")
      | some lastImagePath =>
        let fullLastImagePath := pathJoin "/uploads" lastImagePath
        .ok ⟨concatPath, concatContent ++ fileLine fullLastImagePath⟩

/-! ## Simple-format command builders -/

/-- The scale-and-pad video filter shared by the builders. -/
def scalePad (width height : Nat) : String :=
  "scale=" ++ toString width ++ ":" ++ toString height ++
    ":force_original_aspect_ratio=decrease,pad=" ++ toString width ++ ":" ++ toString height ++
    ":(ow-iw)/2:(oh-ih)/2"

/-- Arguments pushed on the hardware (NVENC) path of `buildFFmpegCommand`. -/
def gpuArgsImage (fps : Nat) : List String :=
  ["-c:v", "h264_nvenc", "-preset", "p5", "-cq", "23", "-b:v", "5M", "-maxrate", "8M",
   "-bufsize", "10M", "-profile:v", "main", "-level", "4.1", "-rc", "vbr", "-surfaces", "64",
   "-bf", "3", "-g", toString (fps * 2)]

/-- Arguments pushed on the hardware (NVENC) path of `buildVideoFFmpegCommand`. -/
def gpuArgsVideo (fps : Nat) : List String :=
  ["-c:v", "h264_nvenc", "-preset", "p5", "-cq", "23", "-b:v", "5M", "-maxrate", "8M",
   "-bufsize", "10M", "-profile:v", "main", "-level", "4.1", "-rc", "vbr",
   "-bf", "3", "-g", toString (fps * 2)]

/-- Arguments pushed on the software (x264) path of both simple-format builders. -/
def cpuArgs (fps : Nat) : List String :=
  ["-c:v", "libx264", "-preset", "veryfast", "-crf", "23", "-profile:v", "main",
   "-level", "4.1", "-bf", "3", "-g", toString (fps * 2)]

/-- The audio-encoding arguments of the simple-format builders. -/
def audioEncodeArgs : List String :=
  ["-c:a", "aac", "-b:a", "128k", "-ar", "44100", "-shortest"]

/-- Source function `buildFFmpegCommand`, its object argument spread over the parameters. -/
def buildFFmpegCommand (existsSync : String → Bool) (concatFile : String)
    (audioPath : Option String) (outputPath : String) (width height fps : Nat)
    (useGpu : Bool) : List String :=
  let args := ["-f", "concat", "-safe", "0", "-i", concatFile]
  -- Add audio input if provided
  let args :=
    match audioPath with
    | some a =>
      if a != "" && existsSync (pathJoin "/uploads" a) then
        args ++ ["-i", pathJoin "/uploads" a]
      else args
    | none => args
  -- Video encoding settings
  let args := if useGpu then args ++ gpuArgsImage fps else args ++ cpuArgs fps
  -- Audio encoding: the existence test is made on `audioPath` itself
  let args :=
    match audioPath with
    | some a => if a != "" && existsSync a then args ++ audioEncodeArgs else args ++ ["-an"]
    | none => args ++ ["-an"]
  -- Output settings
  args ++ ["-vf", scalePad width height, "-r", toString fps, "-pix_fmt", "yuv420p",
           "-movflags", "+faststart", "-y", outputPath]

/-- The input loop of `buildVideoFFmpegCommand`: one `-i` per clip, each file checked. -/
def videoInputsLoop (existsSync : String → Bool) : List Clip → List String →
    Except JsError (List String)
  | [], args => .ok args
  | clip :: rest, args =>
    match strOr clip.path clip.imagePath with
    | none => .error (.typeError "path.join: argument must be of type string")
    | some videoPath =>
      let fullVideoPath := pathJoin "/uploads" videoPath
      if !existsSync fullVideoPath then
        .error (.error ("Video file not found: " ++ fullVideoPath))
      else videoInputsLoop existsSync rest (args ++ ["-i", fullVideoPath])

/-- The per-clip chain of the video filter graph, for the clip at index `i`. -/
def videoChain (width height : Nat) (i : Nat) (clip : Clip) : String :=
  "[" ++ toString i ++ ":v]trim=0:" ++ toString (numOr clip.duration 5) ++
    ",setpts=PTS-STARTPTS," ++ scalePad width height ++ "[v" ++ toString i ++ "];"

/-- The `for (let i = 0; ...)` loop building the per-clip chains, from index `i` on. -/
def videoChainsLoop (width height : Nat) : List Clip → Nat → String → String
  | [], _, filterComplex => filterComplex
  | clip :: rest, i, filterComplex =>
    videoChainsLoop width height rest (i + 1) (filterComplex ++ videoChain width height i clip)

/-- The labels `[v0][v1]...` joined, as `clips.map(...).join('')` builds them. -/
def videoLabels (n : Nat) : String :=
  String.join ((List.range n).map (fun i => "[v" ++ toString i ++ "]"))

/-- Source function `buildVideoFFmpegCommand`, its object argument spread over the
parameters. -/
def buildVideoFFmpegCommand (existsSync : String → Bool) (clips : List Clip)
    (audioPath : Option String) (outputPath : String) (width height fps : Nat)
    (useGpu : Bool) : Except JsError (List String) :=
  -- Add input videos
  match videoInputsLoop existsSync clips [] with
  | .error e => .error e
  | .ok args =>
    -- Add audio input if provided
    let args :=
      match audioPath with
      | some a =>
        if a != "" && existsSync (pathJoin "/uploads" a) then
          args ++ ["-i", pathJoin "/uploads" a]
        else args
      | none => args
    -- Build filter complex for video concatenation and scaling
    let filterComplex :=
      videoChainsLoop width height clips 0 "" ++ videoLabels clips.length ++
        "concat=n=" ++ toString clips.length ++ ":v=1:a=0[outv]"
    let args := args ++ ["-filter_complex", filterComplex, "-map", "[outv]"]
    -- Add audio mapping if audio is provided
    let args :=
      match audioPath with
      | some a =>
        if a != "" && existsSync (pathJoin "/uploads" a) then
          args ++ ["-map", toString clips.length ++ ":a"]
        else args
      | none => args
    -- Video encoding settings
    let args := if useGpu then args ++ gpuArgsVideo fps else args ++ cpuArgs fps
    -- Audio encoding
    let args :=
      match audioPath with
      | some a =>
        if a != "" then
          if existsSync (pathJoin "/uploads" a) then args ++ audioEncodeArgs
          else args ++ ["-an"]
        else args ++ ["-an"]
      | none => args ++ ["-an"]
    -- Output settings
    .ok (args ++ ["-r", toString fps, "-pix_fmt", "yuv420p", "-movflags", "+faststart",
                  "-y", outputPath])

/-! ## `executeFFmpeg`: progress from the encoder's diagnostic text -/

/-- A time value `num / 10 ^ scale` seconds: the exact value of a clock `h:m:s.fff`. -/
structure Seconds where
  num : Nat
  scale : Nat
  deriving DecidableEq, Repr

/-- The longest run of ASCII digits at the head of the input, and what follows it. -/
def takeDigits : List Char → List Char × List Char
  | [] => ([], [])
  | c :: cs =>
    if c.isDigit then ((c :: (takeDigits cs).1), (takeDigits cs).2) else ([], c :: cs)

/-- The number a run of digits denotes. -/
def digitsToNat (ds : List Char) : Nat :=
  ds.foldl (fun n c => 10 * n + (c.toNat - 48)) 0

/-- The groups of the pattern `(\d+):(\d+):(\d+\.\d+)` matched at the head of the input:
hours, minutes, whole seconds and the digits after the point. -/
def matchClock (cs : List Char) : Option (List Char × List Char × List Char × List Char) :=
  match takeDigits cs with
  | (_ :: _, ':' :: r1) =>
    match takeDigits r1 with
    | (_ :: _, ':' :: r2) =>
      match takeDigits r2 with
      | (_ :: _, '.' :: r3) =>
        match takeDigits r3 with
        | (_ :: _, _) =>
          some ((takeDigits cs).1, (takeDigits r1).1, (takeDigits r2).1, (takeDigits r3).1)
        | _ => none
      | _ => none
    | _ => none
  | _ => none

/-- The groups of a matched clock: hours, minutes, whole seconds, digits after the point. -/
abbrev Clock := List Char × List Char × List Char × List Char

/-- The exact value `hours * 3600 + minutes * 60 + seconds` of a matched clock. -/
def clockValue (g : Clock) : Seconds :=
  { num := (digitsToNat g.1 * 3600 + digitsToNat g.2.1 * 60 + digitsToNat g.2.2.1) *
             10 ^ g.2.2.2.length + digitsToNat g.2.2.2
    scale := g.2.2.2.length }

/-! ### Double-precision arithmetic

The handler computes with JavaScript numbers, IEEE 754 doubles rounded to nearest, ties to
even. All values it meets are non-negative. Every finite double is a whole multiple of
`2 ^ -1074`, the smallest positive one, so a finite value is kept as its number of such
units. -/

/-- A non-negative JavaScript number: a finite double, given by its number of units of
`2 ^ -1074`, or `Infinity`, or `NaN`. -/
inductive JsNumber where
  | finite (units : Nat)
  | infinity
  | nan
  deriving DecidableEq, Repr

/-- The number of units of `2 ^ -1074` in `1`. -/
def unitsPerOne : Nat := 1 <<< 1074

/-- The number of binary digits of `n`, counted 64 at a time while `n` has more than 64 of
them; the first argument bounds the recursion and is at least that number (`n` itself will
do). -/
def bitLength : Nat → Nat → Nat
  | 0, _ => 0
  | fuel + 1, n =>
    if n = 0 then 0
    else if n < 18446744073709551616 then bitLength fuel (n / 2) + 1
    else bitLength fuel (n / 18446744073709551616) + 64

/-- The double nearest to `n / d` units (`d` positive), ties going to the even significand.
Doubles below `2 ^ 53` units lie one unit apart; from there on a double has 53 significant
binary digits, so its spacing is `2 ^ shift` units with `shift` the number of digits the whole
part of `n / d` has beyond 53. A result of `2 ^ 2098` units (`2 ^ 1024`) or more is
`Infinity`. -/
def roundUnits (n d : Nat) : JsNumber :=
  let shift := bitLength (n / d) (n / d) - 53
  let spacing := d <<< shift
  let quotient := n / spacing
  let rest := n % spacing
  let significand :=
    if 2 * rest < spacing then quotient
    else if spacing < 2 * rest then quotient + 1
    else quotient + quotient % 2
  if significand <<< shift ≥ 1 <<< 2098 then .infinity else .finite (significand <<< shift)

/-- The double for a whole number, as `parseInt` yields it for a run of digits. -/
def JsNumber.ofNat (n : Nat) : JsNumber :=
  roundUnits (n * unitsPerOne) 1

/-- The call `parseInt(digits)` on a run of decimal digits. -/
def parseInt (digits : List Char) : JsNumber :=
  JsNumber.ofNat (digitsToNat digits)

/-- The call `parseFloat(text)` on a text `whole.fraction` of decimal digits: the double
nearest to the decimal value. -/
def parseFloat (whole fraction : List Char) : JsNumber :=
  roundUnits (digitsToNat (whole ++ fraction) * unitsPerOne) (10 ^ fraction.length)

/-- The product `a * b` of two JavaScript numbers. -/
def JsNumber.mul : JsNumber → JsNumber → JsNumber
  | .finite a, .finite b => roundUnits (a * b) unitsPerOne
  | .finite a, .infinity => if a = 0 then .nan else .infinity
  | .infinity, .finite b => if b = 0 then .nan else .infinity
  | .infinity, .infinity => .infinity
  | _, _ => .nan

/-- The sum `a + b` of two JavaScript numbers. -/
def JsNumber.add : JsNumber → JsNumber → JsNumber
  | .finite a, .finite b => roundUnits (a + b) 1
  | .nan, _ => .nan
  | _, .nan => .nan
  | _, _ => .infinity

/-- The quotient `a / b` of two JavaScript numbers. -/
def JsNumber.div : JsNumber → JsNumber → JsNumber
  | .finite a, .finite b =>
    if b = 0 then (if a = 0 then .nan else .infinity) else roundUnits (a * unitsPerOne) b
  | .finite _, .infinity => .finite 0
  | .infinity, .finite _ => .infinity
  | _, _ => .nan

/-- The call `Math.floor(x)`. -/
def JsNumber.floor : JsNumber → JsNumber
  | .finite a => .finite (a / unitsPerOne * unitsPerOne)
  | .infinity => .infinity
  | .nan => .nan

/-- The test `x > 0`. -/
def JsNumber.isPositive : JsNumber → Bool
  | .finite a => decide (0 < a)
  | .infinity => true
  | .nan => false

/-- The call `Math.min(100, x)` on a value `x` that `Math.floor` returned: a whole number up
to 100, or `none` for `NaN`. -/
def minHundred : JsNumber → Option Nat
  | .finite a => some (min 100 (a / unitsPerOne))
  | .infinity => some 100
  | .nan => none

/-- The value `parseInt(hours) * 3600 + parseInt(minutes) * 60 + parseFloat(seconds)` of a
matched clock, as the handler computes it. -/
def clockNumber (g : Clock) : JsNumber :=
  (((parseInt g.1).mul (JsNumber.ofNat 3600)).add
    ((parseInt g.2.1).mul (JsNumber.ofNat 60))).add (parseFloat g.2.2.1 g.2.2.2)

/-- The marker `lit` followed by a clock, read at the head of the input. -/
def markerHere (lit : List Char) (cs : List Char) : Option Clock :=
  if lit.isPrefixOf cs then matchClock (cs.drop lit.length) else none

/-- The leftmost marker of the text: what `text.match(/lit(\d+):(\d+):(\d+\.\d+)/)` finds (a
regular expression without the `g` flag yields the first match). -/
def findMarker (lit : List Char) : List Char → Option Clock
  | [] => none
  | c :: cs =>
    match markerHere lit (c :: cs) with
    | some v => some v
    | none => findMarker lit cs

/-- All markers of the text, leftmost first. -/
def allMarkers (lit : List Char) : List Char → List Clock
  | [] => []
  | c :: cs =>
    match markerHere lit (c :: cs) with
    | some v => v :: allMarkers lit cs
    | none => allMarkers lit cs

def durationLit : List Char := "Duration: ".data

def timeLit : List Char := "time=".data

/-- The value `Math.floor((currentTime / duration) * 100)`, in double arithmetic. -/
def percentOf (currentTime duration : JsNumber) : JsNumber :=
  ((currentTime.div duration).mul (JsNumber.ofNat 100)).floor

/-- The variables the `data` handler of `executeFFmpeg` closes over. -/
structure ProgressState where
  stderr : String := ""
  duration : JsNumber := .finite 0
  lastProgress : Nat := 0
  deriving DecidableEq, Repr

/-- The effect of one `data` event. -/
structure DataStep where
  state : ProgressState
  /-- the value of the local `progress`, when the handler computes it and it is not `NaN` -/
  computed : Option Nat
  /-- the value passed to `progressCallback`, when it is called -/
  reported : Option Nat
  deriving DecidableEq, Repr

/-- The update of `duration` in the `data` handler: the first duration marker of the text is
read as long as the stored duration is still `0`. -/
def nextDuration (duration : JsNumber) (stderr : String) : JsNumber :=
  match findMarker durationLit stderr.data with
  | some d => if duration = .finite 0 then clockNumber d else duration
  | none => duration

/-- The `ffmpeg.stderr.on('data', ...)` handler, with a progress callback installed. -/
def onData (st : ProgressState) (data : String) : DataStep :=
  let stderr := st.stderr ++ data
  let duration := nextDuration st.duration stderr
  match findMarker timeLit stderr.data with
  | some timeMatch =>
    if duration.isPositive then
      -- progress = Math.min(100, Math.floor((currentTime / duration) * 100))
      match minHundred (percentOf (clockNumber timeMatch) duration) with
      | some progress =>
        if progress > st.lastProgress then
          ⟨⟨stderr, duration, progress⟩, some progress, some progress⟩
        else ⟨⟨stderr, duration, st.lastProgress⟩, some progress, none⟩
      | none => ⟨⟨stderr, duration, st.lastProgress⟩, none, none⟩
    else ⟨⟨stderr, duration, st.lastProgress⟩, none, none⟩
  | none => ⟨⟨stderr, duration, st.lastProgress⟩, none, none⟩

/-- The handler state after a sequence of `data` events. -/
def runChunks (chunks : List String) : ProgressState :=
  chunks.foldl (fun st data => (onData st data).state) {}

/-- The values passed to the progress callback over a sequence of `data` events, from `st`. -/
def reportsFrom : ProgressState → List String → List Nat
  | _, [] => []
  | st, data :: rest =>
    match (onData st data).reported with
    | some p => p :: reportsFrom (onData st data).state rest
    | none => reportsFrom (onData st data).state rest

/-- The exact value of `floor(position / duration * 100)` for a non-zero duration. -/
def exactPercent (position duration : Seconds) : Nat :=
  (position.num * 10 ^ duration.scale * 100) / (duration.num * 10 ^ position.scale)

/-- How the encoder process ends. -/
inductive EncoderExit where
  /-- the `close` event with its exit code (`null` when the process was killed by a signal) -/
  | close (code : Option Nat)
  /-- the `error` event (the process could not be started) -/
  | spawnError (message : String)
  deriving DecidableEq, Repr

/-- One run of the encoder as the worker observes it: the chunks of diagnostic text, how the
process ends, the size of the file found at the output path afterwards (`none`: no file) and
the duration `ffprobe` reports for it. -/
structure EncoderRun where
  chunks : List String
  exit : EncoderExit
  outputSize : Option Nat := none
  probedDuration : Nat := 0
  deriving DecidableEq, Repr

/-- What a processing step did: the progress values it reported, the argument vectors it
handed to `spawn('ffmpeg', ...)`, and how it ended. -/
structure Outcome (α : Type) where
  reports : List Nat
  spawned : List (List String)
  result : Except JsError α

/-- Source function `executeFFmpeg(args, progressCallback)` against one encoder run. -/
def executeFFmpeg (args : List String) (run : EncoderRun) : Outcome Unit :=
  match run.exit with
  | .spawnError m => ⟨[], [args], .error (.error m)⟩
  | .close code =>
    ⟨reportsFrom {} run.chunks, [args],
      if code = some 0 then .ok ()
      else .error (.error ("FFmpeg failed with exit code " ++
        (match code with
         | some c => toString c
         | none => "null") ++ ": " ++
        (runChunks run.chunks).stderr))⟩

/-! ## Job data and the simple-format pipeline -/

/-- The job payload (`job.data`). -/
structure JobData where
  id : Option String := none
  clips : Option (List Clip) := none
  width : Option Nat := none
  height : Option Nat := none
  fps : Option Nat := none
  gpu : Option Bool := none
  isEditlyFormat : Option Bool := none
  outputFilename : Option String := none
  audioFilePath : Option String := none
  audioPath : Option String := none
  customOutputArgs : Option (List String) := none
  audioCodec : Option String := none
  audioBitrate : Option String := none
  videoCodec : Option String := none
  videoBitrate : Option String := none
  deriving DecidableEq, Repr

/-- The worker process: its `USE_GPU` setting and the file system it sees. -/
structure WorkerEnv where
  USE_GPU : Bool
  existsSync : String → Bool

/-- The output path `path.join(OUTPUTS_DIR, jobData.outputFilename || 'video_' + tempId + '.mp4')`. -/
def outputPathOf (jobData : JobData) (tempId : String) : String :=
  pathJoin OUTPUTS_DIR ((strOr jobData.outputFilename (some ("video_" ++ tempId ++ ".mp4"))).getD "")

/-- The test `clips.some(...)` of `processSimpleFormat` on one clip. -/
def isVideoClip (clip : Clip) : Bool :=
  match strOr clip.path clip.imagePath with
  | some p =>
    p != "" && (includes p ".mp4" || includes p ".avi" || includes p ".mov" || includes p ".mkv")
  | none => false

/-- The computation of `ffmpegArgs` in `processSimpleFormat`. -/
def simpleFormatArgs (env : WorkerEnv) (jobData : JobData) (clips : List Clip)
    (tempId : String) : Except JsError (List String) :=
  let outputPath := outputPathOf jobData tempId
  let hasVideoClips := clips.any isVideoClip
  if hasVideoClips then
    buildVideoFFmpegCommand env.existsSync clips jobData.audioFilePath outputPath
      (numOr jobData.width 1080) (numOr jobData.height 1920) (numOr jobData.fps 30) env.USE_GPU
  else
    match createConcatFile env.existsSync clips tempId with
    | .error e => .error e
    | .ok concatFile =>
      .ok (buildFFmpegCommand env.existsSync concatFile.path
        (strOr jobData.audioFilePath jobData.audioPath) outputPath
        (numOr jobData.width 1080) (numOr jobData.height 1920) (numOr jobData.fps 30)
        env.USE_GPU)

/-- Source function `processSimpleFormat(jobData, tempId, progressCallback)` against one encoder run. -/
def processSimpleFormat (env : WorkerEnv) (jobData : JobData) (tempId : String)
    (run : EncoderRun) : Outcome String :=
  match jobData.clips with
  | none => ⟨[], [], .error (.typeError "jobData.clips.some is not a function")⟩
  | some clips =>
    match simpleFormatArgs env jobData clips tempId with
    | .error e => ⟨[10], [], .error e⟩
    | .ok ffmpegArgs =>
      let exec := executeFFmpeg ffmpegArgs run
      match exec.result with
      | .error e => ⟨[10, 15] ++ exec.reports, exec.spawned, .error e⟩
      | .ok _ => ⟨[10, 15] ++ exec.reports, exec.spawned, .ok (outputPathOf jobData tempId)⟩

/-! ## The layered (Editly) pipeline -/

/-- An entry of `videoSegments`. -/
structure VideoSegment where
  path : Option String
  duration : Option Nat
  start : Option Nat
  resizeMode : String
  deriving DecidableEq, Repr

/-- An entry of `audioSegments`. -/
structure AudioSegment where
  path : Option String
  start : Option Nat
  duration : Option Nat
  volume : Nat
  deriving DecidableEq, Repr

/-- The filter `layer && (layer.type === 'image' || layer.type === 'image-overlay')`. -/
def isImageLayer : Option Layer → Bool
  | some layer => layer.type = some "image" || layer.type = some "image-overlay"
  | none => false

/-- The filter `layer && (layer.type === 'audio' || layer.type === 'audioTrack')`. -/
def isAudioLayer : Option Layer → Bool
  | some layer => layer.type = some "audio" || layer.type = some "audioTrack"
  | none => false

/-- The update `totalDuration += clipDuration`, where a missing duration turns the sum into `NaN` (`none`). -/
def addDuration (totalDuration clipDuration : Option Nat) : Option Nat :=
  match totalDuration, clipDuration with
  | some t, some d => some (t + d)
  | _, _ => none

/-- The layer-extraction loop of `processEditlyFormat`, threading `videoSegments`,
`audioSegments` and `totalDuration`. -/
def extractSegments : List Clip → List VideoSegment → List AudioSegment → Option Nat →
    Except JsError (List VideoSegment × List AudioSegment)
  | [], videoSegments, audioSegments, _ => .ok (videoSegments, audioSegments)
  | clip :: rest, videoSegments, audioSegments, totalDuration =>
    match clip.layers with
    | none => .error (.typeError "Cannot read properties of undefined (reading 'filter')")
    | some layers =>
      let clipDuration := clip.duration
      let imageLayers := layers.filter isImageLayer
      let audioLayers := layers.filter isAudioLayer
      let videoSegments :=
        match imageLayers with
        | some imageLayer :: _ =>
          videoSegments ++ [{ path := imageLayer.path, duration := clipDuration,
                              start := totalDuration,
                              resizeMode := (strOr imageLayer.resizeMode (some "cover")).getD "" }]
        | _ => videoSegments
      let audioSegments :=
        match audioLayers with
        | some audioLayer :: _ =>
          audioSegments ++ [{ path := audioLayer.path, start := totalDuration,
                              duration := clipDuration, volume := numOr audioLayer.mixVolume 1 }]
        | _ => audioSegments
      extractSegments rest videoSegments audioSegments (addDuration totalDuration clipDuration)

/-- The three-way path rule of `createEditlyVideoConcat`. -/
def resolveImagePath (p : String) : String :=
  if startsWith p "/uploads/" then p
  else if startsWith p "uploads/" then pathJoin "/" p
  else pathJoin "/uploads" p

/-- The two-way path rule of `buildEditlyAudioFilter`. -/
def resolveAudioPath (p : String) : String :=
  if startsWith p "/uploads" then p else pathJoin "/uploads" p

/-- The `for (const segment of videoSegments)` loop of `createEditlyVideoConcat`. -/
def editlyConcatLoop (existsSync : String → Bool) : List VideoSegment → String →
    Except JsError String
  | [], concatContent => .ok concatContent
  | segment :: rest, concatContent =>
    match segment.path with
    | none => .error (.typeError "Cannot read properties of undefined (reading 'startsWith')")
    | some p =>
      let fullPath := resolveImagePath p
      if !existsSync fullPath then .error (.error ("Image file not found: " ++ fullPath))
      else
        editlyConcatLoop existsSync rest
          (concatContent ++ fileLine fullPath ++ durationLine (renderNum segment.duration))

/-- Source function `createEditlyVideoConcat(videoSegments, tempId)`. -/
def createEditlyVideoConcat (existsSync : String → Bool) (videoSegments : List VideoSegment)
    (tempId : String) : Except JsError WrittenFile :=
  let concatPath := pathJoin TEMP_DIR ("editly_video_" ++ tempId ++ ".txt")
  match editlyConcatLoop existsSync videoSegments "" with
  | .error e => .error e
  | .ok concatContent =>
    match videoSegments.getLast? with
    | none => .ok ⟨concatPath, concatContent⟩
    | some lastSegment =>
      match lastSegment.path with
      | none => .error (.typeError "Cannot read properties of undefined (reading 'startsWith')")
      | some p => .ok ⟨concatPath, concatContent ++ fileLine (resolveImagePath p)⟩

/-- The value `buildEditlyAudioFilter` returns when there are segments. -/
structure AudioFilter where
  filterComplex : String
  inputs : List String
  deriving DecidableEq, Repr

/-- The `audioSegments.forEach((segment, index) => ...)` loop, from `index` on. -/
def audioFilterLoop : List AudioSegment → Nat → String → List String →
    Except JsError (String × List String)
  | [], _, filterComplex, inputs => .ok (filterComplex, inputs)
  | segment :: rest, index, filterComplex, inputs =>
    match segment.path with
    | none => .error (.typeError "Cannot read properties of undefined (reading 'startsWith')")
    | some p =>
      let fullPath := resolveAudioPath p
      let stage :=
        if segment.volume ≠ 1 then
          "[" ++ toString (index + 1) ++ ":a]volume=" ++ toString segment.volume ++
            "[a" ++ toString index ++ "];"
        else "[" ++ toString (index + 1) ++ ":a]acopy[a" ++ toString index ++ "];"
      audioFilterLoop rest (index + 1) (filterComplex ++ stage) (inputs ++ [fullPath])

/-- The labels `[a0][a1]...` joined. -/
def audioLabels (n : Nat) : String :=
  String.join ((List.range n).map (fun i => "[a" ++ toString i ++ "]"))

/-- Source function `buildEditlyAudioFilter(audioSegments)`; `none` is the `null` result. -/
def buildEditlyAudioFilter (audioSegments : List AudioSegment) :
    Except JsError (Option AudioFilter) :=
  if audioSegments.length = 0 then .ok none
  else
    match audioFilterLoop audioSegments 0 "" [] with
    | .error e => .error e
    | .ok (filterComplex, inputs) =>
      if audioSegments.length > 1 then
        .ok (some ⟨filterComplex ++ audioLabels audioSegments.length ++ "concat=n=" ++
          toString audioSegments.length ++ ":v=0:a=1[aout]", inputs⟩)
      else .ok (some ⟨filterComplex ++ "[a0]acopy[aout]", inputs⟩)

/-- Source function `buildEditlyFFmpegCommand`, its object argument spread over the parameters
(`audioSegments`, which the body never reads, is left out). -/
def buildEditlyFFmpegCommand (videoConcatFile : String) (audioFilterComplex : Option AudioFilter)
    (outputPath : String) (width height fps : Nat) (useGpu : Bool)
    (customOutputArgs : Option (List String)) (audioCodec audioBitrate videoCodec
    videoBitrate : String) : List String :=
  let args := ["-f", "concat", "-safe", "0", "-i", videoConcatFile]
  -- Add audio inputs
  let args :=
    match audioFilterComplex with
    | some af =>
      if af.inputs.length > 0 then args ++ (af.inputs.map (fun audioPath => ["-i", audioPath])).flatten
      else args
    | none => args
  -- Video encoding settings
  let args :=
    if useGpu && includes videoCodec "nvenc" then
      args ++ ["-c:v", videoCodec, "-preset", "p5", "-cq", "23", "-b:v", videoBitrate,
               "-maxrate", "8M", "-bufsize", "10M", "-profile:v", "main", "-level", "4.1",
               "-rc", "vbr", "-bf", "3", "-g", toString (fps * 2)]
    else
      args ++ ["-c:v", if videoCodec = "" then "libx264" else videoCodec, "-preset", "medium",
               "-crf", "23", "-b:v", videoBitrate, "-profile:v", "main", "-level", "4.1",
               "-bf", "3", "-g", toString (fps * 2)]
  -- Audio processing
  let args :=
    match audioFilterComplex with
    | some af =>
      if af.filterComplex != "" then
        args ++ ["-filter_complex", af.filterComplex, "-map", "0:v", "-map", "[aout]",
                 "-c:a", audioCodec, "-b:a", audioBitrate, "-ar", "44100"]
      else args ++ ["-an"]
    | none => args ++ ["-an"]
  -- Output settings
  let args := args ++ ["-vf", scalePad width height, "-r", toString fps, "-pix_fmt", "yuv420p",
                       "-movflags", "+faststart"]
  -- Add custom output arguments if provided
  let args :=
    match customOutputArgs with
    | some extra => args ++ extra
    | none => args
  args ++ ["-y", outputPath]

/-- What the layered pipeline has built when it reaches the encoder. -/
structure EditlyPlan where
  videoSegments : List VideoSegment
  audioSegments : List AudioSegment
  concatFile : WrittenFile
  ffmpegArgs : List String
  deriving DecidableEq, Repr

/-- Source function `processEditlyFormat(jobData, tempId, progressCallback)` up to the call of the encoder:
the progress values reported on the way and the plan, or the error that stopped it. -/
def editlyFormatPlan (env : WorkerEnv) (jobData : JobData) (tempId : String) :
    Outcome EditlyPlan :=
  let outputPath := outputPathOf jobData tempId
  let width := numOr jobData.width 1024
  let height := numOr jobData.height 1536
  let fps := numOr jobData.fps 30
  match jobData.clips with
  | none =>
    ⟨[], [], .error (.typeError "Cannot read properties of undefined (reading 'length')")⟩
  | some clips =>
    match extractSegments clips [] [] (some 0) with
    | .error e => ⟨[], [], .error e⟩
    | .ok (videoSegments, audioSegments) =>
      match createEditlyVideoConcat env.existsSync videoSegments tempId with
      | .error e => ⟨[20], [], .error e⟩
      | .ok videoConcatFile =>
        match buildEditlyAudioFilter audioSegments with
        | .error e => ⟨[20, 30], [], .error e⟩
        | .ok audioFilterComplex =>
          let ffmpegArgs :=
            buildEditlyFFmpegCommand videoConcatFile.path audioFilterComplex outputPath
              width height fps env.USE_GPU jobData.customOutputArgs
              ((strOr jobData.audioCodec (some "aac")).getD "")
              ((strOr jobData.audioBitrate (some "128k")).getD "")
              ((strOr jobData.videoCodec
                (some (if env.USE_GPU then "h264_nvenc" else "libx264"))).getD "")
              ((strOr jobData.videoBitrate (some "3000k")).getD "")
          ⟨[20, 30, 40, 50], [],
            .ok ⟨videoSegments, audioSegments, videoConcatFile, ffmpegArgs⟩⟩

/-- Source function `processEditlyFormat(jobData, tempId, progressCallback)` against one encoder run. -/
def processEditlyFormat (env : WorkerEnv) (jobData : JobData) (tempId : String)
    (run : EncoderRun) : Outcome String :=
  let plan := editlyFormatPlan env jobData tempId
  match plan.result with
  | .error e => ⟨plan.reports, [], .error e⟩
  | .ok built =>
    let exec := executeFFmpeg built.ffmpegArgs run
    match exec.result with
    | .error e => ⟨plan.reports ++ exec.reports, exec.spawned, .error e⟩
    | .ok _ => ⟨plan.reports ++ exec.reports, exec.spawned, .ok (outputPathOf jobData tempId)⟩

/-! ## `processVideo` -/

/-- The object `processVideo` returns (the wall-clock `renderTime` is left out). -/
structure RenderResult where
  outputFile : String
  outputPath : String
  fileSize : Nat
  duration : Nat
  resolution : String
  fps : Nat
  useGpu : Bool
  format : String
  deriving DecidableEq, Repr

/-- Source function `processVideo(jobData, progressCallback)` for a given temporary id and encoder run. -/
def processVideo (env : WorkerEnv) (jobData : JobData) (tempId : String) (run : EncoderRun) :
    Outcome RenderResult :=
  let outputFilename :=
    (strOr jobData.outputFilename (some ("video_" ++ tempId ++ ".mp4"))).getD ""
  let outputPath := pathJoin OUTPUTS_DIR outputFilename
  match jobData.clips with
  | none => ⟨[], [], .error (.error "No clips provided")⟩
  | some clips =>
    if clips.length = 0 then ⟨[], [], .error (.error "No clips provided")⟩
    else
      let width := numOr jobData.width 1080
      let height := numOr jobData.height 1920
      let fps := numOr jobData.fps 30
      let isEditlyFormat := jobData.isEditlyFormat.getD false
      let inner :=
        if isEditlyFormat then processEditlyFormat env jobData tempId run
        else processSimpleFormat env jobData tempId run
      match inner.result with
      | .error e => ⟨5 :: inner.reports, inner.spawned, .error e⟩
      | .ok _ =>
        match run.outputSize with
        | none =>
          ⟨5 :: inner.reports ++ [95], inner.spawned,
            .error (.error ("ENOENT: no such file or directory, stat '" ++ outputPath ++ "'"))⟩
        | some fileSize =>
          ⟨5 :: inner.reports ++ [95], inner.spawned,
            .ok { outputFile := outputFilename, outputPath := outputPath, fileSize := fileSize,
                  duration := run.probedDuration,
                  resolution := toString width ++ "x" ++ toString height, fps := fps,
                  useGpu := env.USE_GPU,
                  format := if isEditlyFormat then "editly" else "simple" }⟩

/-! ## The worker's job handler -/

/-- The value `Math.floor(progress * 0.7)` for the whole percentages a callback carries. In double
arithmetic the product is below `7 * progress / 10` by less than one unit in the last place,
which changes the floor at `progress = 90` only (`90 * 0.7` is `62.99999999999999`). -/
def scaleProgress (progress : Nat) : Nat :=
  if progress = 90 then 62 else 7 * progress / 10

/-- What the handler passed to `renderQueue.process` did for one job. -/
structure HandlerOutcome where
  /-- the values written with `job.progress(...)`, in order -/
  progressWrites : List Nat
  /-- the argument vectors handed to the encoder -/
  spawned : List (List String)
  result : Except JsError RenderResult

/-- The handler passed to `renderQueue.process`, for a job with payload `data`. -/
def processJob (env : WorkerEnv) (data : JobData) (tempId : String) (run : EncoderRun) :
    HandlerOutcome :=
  -- job.progress(10), then the started webhook
  if data.gpu = some true && !env.USE_GPU then
    ⟨[10], [], .error (.error "This worker does not support GPU processing")⟩
  else
    -- job.progress(20), then processVideo with the scaling callback
    let video := processVideo env data tempId run
    let writes := [10, 20] ++ video.reports.map (fun progress => 20 + scaleProgress progress)
    match video.result with
    | .error e => ⟨writes, video.spawned, .error e⟩
    | .ok result => ⟨writes ++ [95, 100], video.spawned, .ok result⟩

/-! ## The queue (`render-api/src/queue.js`) -/

/-- The `backoff` option. -/
structure Backoff where
  type : String
  delay : Nat
  deriving DecidableEq, Repr

/-- The options object `addJob` builds. -/
structure JobOptions where
  delay : Nat
  attempts : Nat
  backoff : Backoff
  removeOnComplete : Nat
  removeOnFail : Nat
  jobId : Option String
  priority : Nat
  deriving DecidableEq, Repr

/-- A job as handed to `queue.add(name, data, opts)`. -/
structure QueuedJob where
  name : String
  data : JobData
  opts : JobOptions
  deriving DecidableEq, Repr

/-- The options `addJob` computes for a payload. -/
def addJobOptions (jobData : JobData) : JobOptions :=
  { delay := 0
    attempts := 3
    backoff := { type := "exponential", delay := 5000 }
    removeOnComplete := 50
    removeOnFail := 20
    jobId := jobData.id
    priority := if jobData.gpu = some true then 10 else 5 }

/-- Source function `addJob(queue, jobData)`, over a queue whose `add` method is `add`. -/
def addJob {Q : Type} (add : Q → String → JobData → JobOptions → Q) (queue : Q)
    (jobData : JobData) : Q :=
  add queue "render-video" jobData (addJobOptions jobData)

/-- The waiting list of the queue library, the next job to be taken first.

The library (Bull) is a dependency of the service and not part of its sources; the model
follows its documented contract for the `priority` option: the value ranges from 1, the
highest priority, upwards, so that a job is taken before every waiting job with a larger
priority number, and jobs with the same number are taken in the order they were added. -/
abbrev BullQueue := List QueuedJob

/-- Placement of a new job in the waiting list: behind every job whose priority number does
not exceed its own, ahead of the first one with a larger number. -/
def bullInsert (job : QueuedJob) : BullQueue → BullQueue
  | [] => [job]
  | w :: ws =>
    if w.opts.priority ≤ job.opts.priority then w :: bullInsert job ws else job :: w :: ws

/-- The `add` method of the queue library on its waiting list; a job whose id is already
waiting is not added again. -/
def bullAdd (queue : BullQueue) (name : String) (data : JobData) (opts : JobOptions) :
    BullQueue :=
  if opts.jobId.isSome && queue.any (fun w => w.opts.jobId = opts.jobId) then queue
  else bullInsert ⟨name, data, opts⟩ queue

/-- The ids of the waiting jobs in the order the workers take them. -/
def dequeueOrder (queue : BullQueue) : List (Option String) :=
  queue.map (fun w => w.opts.jobId)

/-! ## Notions used to state the properties -/

/-- The file `createConcatFile` reads for a clip: `imagePath || path` under `/uploads`. -/
def clipImageFile (clip : Clip) : String :=
  pathJoin "/uploads" ((strOr clip.imagePath clip.path).getD "")

/-- The file `buildVideoFFmpegCommand` reads for a clip: `path || imagePath` under `/uploads`. -/
def clipVideoFile (clip : Clip) : String :=
  pathJoin "/uploads" ((strOr clip.path clip.imagePath).getD "")

/-- The file the simple pipeline reads for a clip, on its video plan or on its image plan. -/
def simpleClipFile (video : Bool) (clip : Clip) : String :=
  if video then clipVideoFile clip else clipImageFile clip

/-- The message of the not-found error of the simple pipeline. -/
def notFoundMessage (video : Bool) (file : String) : String :=
  (if video then "Video file not found: " else "Image file not found: ") ++ file

/-- The two lines a clip contributes to the concat list. -/
def clipEntry (clip : Clip) : String :=
  fileLine (clipImageFile clip) ++ durationLine (toString (numOr clip.duration 5))

/-- The entries of a clip list, one after the other. -/
def concatBody : List Clip → String
  | [] => ""
  | clip :: rest => clipEntry clip ++ concatBody rest

/-- The first image-kind layer of a clip, if it has one. -/
def firstImageLayer (clip : Clip) : Option Layer :=
  (((clip.layers.getD []).filter isImageLayer).head?).join

/-- The first audio-kind layer of a clip, if it has one. -/
def firstAudioLayer (clip : Clip) : Option Layer :=
  (((clip.layers.getD []).filter isAudioLayer).head?).join

/-- The video segments of a clip list whose timeline starts at `t`: one per clip that has an
image-kind layer, taken from its first such layer; other clips contribute nothing. -/
def videoSegmentsOf : List Clip → Option Nat → List VideoSegment
  | [], _ => []
  | clip :: rest, t =>
    (match firstImageLayer clip with
     | some layer =>
       [{ path := layer.path, duration := clip.duration, start := t,
          resizeMode := (strOr layer.resizeMode (some "cover")).getD "" }]
     | none => []) ++ videoSegmentsOf rest (addDuration t clip.duration)

/-- The audio segments of a clip list whose timeline starts at `t`: one per clip that has an
audio-kind layer, taken from its first such layer. -/
def audioSegmentsOf : List Clip → Option Nat → List AudioSegment
  | [], _ => []
  | clip :: rest, t =>
    (match firstAudioLayer clip with
     | some layer =>
       [{ path := layer.path, start := t, duration := clip.duration,
          volume := numOr layer.mixVolume 1 }]
     | none => []) ++ audioSegmentsOf rest (addDuration t clip.duration)

/-- The file `createEditlyVideoConcat` reads for a video segment. -/
def segmentFile (segment : VideoSegment) : String :=
  resolveImagePath (segment.path.getD "")

/-- The two lines a video segment contributes to the concat list. -/
def segmentEntry (segment : VideoSegment) : String :=
  fileLine (segmentFile segment) ++ durationLine (renderNum segment.duration)

/-- The entries of a list of video segments, one after the other. -/
def segmentBody : List VideoSegment → String
  | [] => ""
  | segment :: rest => segmentEntry segment ++ segmentBody rest

/-- The progress value as the specification words it: `floor(position / duration * 100)`
with the first duration marker of the text and its most recent position marker. -/
def claimedProgress (text : String) : Option Nat :=
  match findMarker durationLit text.data, (allMarkers timeLit text.data).getLast? with
  | some duration, some position => some (exactPercent (clockValue position) (clockValue duration))
  | _, _ => none

/-- Modelled from the spec: the queue of the specification's section 4.1, which is not the
library the service runs on. There the job with the highest priority value is dequeued first
and ties go to the earliest arrival, so a new job is placed behind every waiting job whose
priority value is at least its own. -/
def specInsert (job : QueuedJob) : List QueuedJob → List QueuedJob
  | [] => [job]
  | w :: ws =>
    if job.opts.priority ≤ w.opts.priority then w :: specInsert job ws else job :: w :: ws

/-- Modelled from the spec: the `enqueue` operation of the specification's queue. -/
def specAdd (queue : List QueuedJob) (name : String) (data : JobData) (opts : JobOptions) :
    List QueuedJob :=
  specInsert ⟨name, data, opts⟩ queue

/-- The waiting list after the payloads were added, in the given order, through `addJob` to
an empty queue. -/
def enqueueAll (jobs : List JobData) : BullQueue :=
  jobs.foldl (addJob bullAdd) []

/-- The rational number of seconds a `Seconds` stands for. -/
def Seconds.toRat (s : Seconds) : ℚ :=
  (s.num : ℚ) / (10 : ℚ) ^ s.scale

/-- Whether a path has one of the video-file extensions `.mp4`, `.avi`, `.mov`, `.mkv`, that
is, ends with one of them (the reading of the specification's "has a video-file extension"). -/
def hasVideoExtension (p : String) : Bool :=
  ".mp4".data.isSuffixOf p.data || ".avi".data.isSuffixOf p.data ||
    ".mov".data.isSuffixOf p.data || ".mkv".data.isSuffixOf p.data

/-- Whether a path contains one of the texts `.mp4`, `.avi`, `.mov`, `.mkv` anywhere. -/
def containsVideoMarker (p : String) : Bool :=
  includes p ".mp4" || includes p ".avi" || includes p ".mov" || includes p ".mkv"

/-- The image-sequence plan of `processSimpleFormat`: the concat list is written and
`buildFFmpegCommand` is applied to it. -/
def imageSequencePlan (env : WorkerEnv) (jobData : JobData) (clips : List Clip)
    (tempId : String) : Except JsError (List String) :=
  match createConcatFile env.existsSync clips tempId with
  | .error e => .error e
  | .ok concatFile =>
    .ok (buildFFmpegCommand env.existsSync concatFile.path
      (strOr jobData.audioFilePath jobData.audioPath) (outputPathOf jobData tempId)
      (numOr jobData.width 1080) (numOr jobData.height 1920) (numOr jobData.fps 30)
      env.USE_GPU)

/-- The video-concatenation plan of `processSimpleFormat`: `buildVideoFFmpegCommand` applied
to the clips. -/
def videoConcatPlan (env : WorkerEnv) (jobData : JobData) (clips : List Clip)
    (tempId : String) : Except JsError (List String) :=
  buildVideoFFmpegCommand env.existsSync clips jobData.audioFilePath
    (outputPathOf jobData tempId)
    (numOr jobData.width 1080) (numOr jobData.height 1920) (numOr jobData.fps 30) env.USE_GPU

/-- One chain of the video filter graph: input `i` trimmed to `d` seconds, scaled with the
aspect ratio kept, padded centred to `width x height`, written to `[v_i]`. -/
def trimScalePadChain (width height i d : Nat) : String :=
  "[" ++ toString i ++ ":v]trim=0:" ++ toString d ++ ",setpts=PTS-STARTPTS," ++
    scalePad width height ++ "[v" ++ toString i ++ "];"

/-- The chains of a clip list, one after the other, the first clip being input `i`; `dur`
says to which duration a clip is trimmed. -/
def chainsFrom (dur : Clip → Nat) (width height : Nat) : Nat → List Clip → String
  | _, [] => ""
  | i, clip :: rest =>
    trimScalePadChain width height i (dur clip) ++ chainsFrom dur width height (i + 1) rest

/-- The filter graph of a clip list: its chains, then one concat over `[v0]`..`[v(n-1)]`
with `n=n`, `v=1`, `a=0` writing `[outv]`. -/
def videoFilterGraph (dur : Clip → Nat) (width height : Nat) (clips : List Clip) : String :=
  chainsFrom dur width height 0 clips ++ videoLabels clips.length ++
    "concat=n=" ++ toString clips.length ++ ":v=1:a=0[outv]"

/-- The duration of a clip as the specification words it: the declared one, 5 when missing. -/
def declaredDuration (clip : Clip) : Nat :=
  clip.duration.getD 5

/-- The duration the builders use: the declared one, 5 when it is missing or zero. -/
def effectiveDuration (clip : Clip) : Nat :=
  numOr clip.duration 5

/-- Whether the simple builders attach the audio file: a path is given and the file is
present under `/uploads`. -/
def audioAttached (existsSync : String → Bool) (audioPath : Option String) : Bool :=
  match audioPath with
  | some a => a != "" && existsSync (pathJoin "/uploads" a)
  | none => false

/-! ### Plans as lists of settings -/

/-- One element of an encoder plan as the builders push it: an option with its value, a flag
without value, or the output path. -/
inductive Setting where
  | opt (name value : String)
  | flag (name : String)
  | output (path : String)
  deriving DecidableEq, Repr

/-- The arguments a setting stands for. -/
def Setting.render : Setting → List String
  | .opt name value => [name, value]
  | .flag name => [name]
  | .output path => [path]

/-- Whether a setting is the option or flag called `n`. -/
def Setting.named (n : String) : Setting → Bool
  | .opt name _ => name == n
  | .flag name => name == n
  | .output _ => false

/-- The argument vector of a list of settings. -/
def renderSettings (settings : List Setting) : List String :=
  (settings.map Setting.render).flatten

/-- The settings of a plan that are called `n`. -/
def settingsNamed (n : String) (settings : List Setting) : List Setting :=
  settings.filter (Setting.named n)

/-- The encoder settings of the simple builders: the hardware set of `buildFFmpegCommand`
(`image`) or of `buildVideoFFmpegCommand`, or the software set they share. -/
def simpleEncoderSettings (image useGpu : Bool) (fps : Nat) : List Setting :=
  if useGpu then
    [.opt "-c:v" "h264_nvenc", .opt "-preset" "p5", .opt "-cq" "23", .opt "-b:v" "5M",
     .opt "-maxrate" "8M", .opt "-bufsize" "10M", .opt "-profile:v" "main",
     .opt "-level" "4.1", .opt "-rc" "vbr"] ++
    (if image then [.opt "-surfaces" "64"] else []) ++
    [.opt "-bf" "3", .opt "-g" (toString (fps * 2))]
  else
    [.opt "-c:v" "libx264", .opt "-preset" "veryfast", .opt "-crf" "23",
     .opt "-profile:v" "main", .opt "-level" "4.1", .opt "-bf" "3",
     .opt "-g" (toString (fps * 2))]

/-- The audio-encoding settings of the simple builders, or `-an`. -/
def simpleAudioSettings (encode : Bool) : List Setting :=
  if encode then
    [.opt "-c:a" "aac", .opt "-b:a" "128k", .opt "-ar" "44100", .flag "-shortest"]
  else [.flag "-an"]

/-- The plan of `buildFFmpegCommand` as settings. -/
def imagePlanSettings (existsSync : String → Bool) (concatFile : String)
    (audioPath : Option String) (outputPath : String) (width height fps : Nat)
    (useGpu : Bool) : List Setting :=
  [.opt "-f" "concat", .opt "-safe" "0", .opt "-i" concatFile] ++
  (if audioAttached existsSync audioPath
    then [.opt "-i" (pathJoin "/uploads" (audioPath.getD ""))] else []) ++
  simpleEncoderSettings true useGpu fps ++
  simpleAudioSettings
    (match audioPath with
     | some a => a != "" && existsSync a
     | none => false) ++
  [.opt "-vf" (scalePad width height), .opt "-r" (toString fps), .opt "-pix_fmt" "yuv420p",
   .opt "-movflags" "+faststart", .flag "-y", .output outputPath]

/-- The plan of `buildVideoFFmpegCommand` as settings, for clips whose files are present. -/
def videoPlanSettings (existsSync : String → Bool) (clips : List Clip)
    (audioPath : Option String) (outputPath : String) (width height fps : Nat)
    (useGpu : Bool) : List Setting :=
  clips.map (fun c => Setting.opt "-i" (clipVideoFile c)) ++
  (if audioAttached existsSync audioPath
    then [.opt "-i" (pathJoin "/uploads" (audioPath.getD ""))] else []) ++
  [.opt "-filter_complex" (videoFilterGraph effectiveDuration width height clips),
   .opt "-map" "[outv]"] ++
  (if audioAttached existsSync audioPath
    then [.opt "-map" (toString clips.length ++ ":a")] else []) ++
  simpleEncoderSettings false useGpu fps ++
  simpleAudioSettings (audioAttached existsSync audioPath) ++
  [.opt "-r" (toString fps), .opt "-pix_fmt" "yuv420p", .opt "-movflags" "+faststart",
   .flag "-y", .output outputPath]

/-- The encoder settings of `buildEditlyFFmpegCommand`: the hardware set when `useGpu` holds
and the codec name contains `nvenc`, the software set otherwise. -/
def editlyEncoderSettings (useGpu : Bool) (videoCodec videoBitrate : String) (fps : Nat) :
    List Setting :=
  if useGpu && includes videoCodec "nvenc" then
    [.opt "-c:v" videoCodec, .opt "-preset" "p5", .opt "-cq" "23", .opt "-b:v" videoBitrate,
     .opt "-maxrate" "8M", .opt "-bufsize" "10M", .opt "-profile:v" "main",
     .opt "-level" "4.1", .opt "-rc" "vbr", .opt "-bf" "3", .opt "-g" (toString (fps * 2))]
  else
    [.opt "-c:v" (if videoCodec = "" then "libx264" else videoCodec), .opt "-preset" "medium",
     .opt "-crf" "23", .opt "-b:v" videoBitrate, .opt "-profile:v" "main",
     .opt "-level" "4.1", .opt "-bf" "3", .opt "-g" (toString (fps * 2))]

/-- The input settings of `buildEditlyFFmpegCommand`: the concat list, then the audio files. -/
def editlyInputSettings (videoConcatFile : String) (audioFilterComplex : Option AudioFilter) :
    List Setting :=
  [.opt "-f" "concat", .opt "-safe" "0", .opt "-i" videoConcatFile] ++
  (match audioFilterComplex with
   | some af => af.inputs.map (Setting.opt "-i")
   | none => [])

/-- The audio settings of `buildEditlyFFmpegCommand`: the filter graph with its mappings and
the audio codec, or `-an`. -/
def editlyAudioSettings (audioFilterComplex : Option AudioFilter)
    (audioCodec audioBitrate : String) : List Setting :=
  match audioFilterComplex with
  | some af =>
    if af.filterComplex != "" then
      [.opt "-filter_complex" af.filterComplex, .opt "-map" "0:v", .opt "-map" "[aout]",
       .opt "-c:a" audioCodec, .opt "-b:a" audioBitrate, .opt "-ar" "44100"]
    else [.flag "-an"]
  | none => [.flag "-an"]

/-- The settings `buildEditlyFFmpegCommand` emits itself, that is, everything it pushes before
the custom output arguments. -/
def editlyPlanSettings (videoConcatFile : String) (audioFilterComplex : Option AudioFilter)
    (width height fps : Nat) (useGpu : Bool)
    (audioCodec audioBitrate videoCodec videoBitrate : String) : List Setting :=
  editlyInputSettings videoConcatFile audioFilterComplex ++
  editlyEncoderSettings useGpu videoCodec videoBitrate fps ++
  editlyAudioSettings audioFilterComplex audioCodec audioBitrate ++
  [.opt "-vf" (scalePad width height), .opt "-r" (toString fps), .opt "-pix_fmt" "yuv420p",
   .opt "-movflags" "+faststart"]

/-- The stage of the audio filter graph for the segment at index `i` with volume `v`: it reads
`[(i+1):a]` and writes `[a_i]`, as a `volume` filter when `v` differs from 1 and as a
pass-through copy when `v` is 1. -/
def audioStage (i v : Nat) : String :=
  if v ≠ 1 then
    "[" ++ toString (i + 1) ++ ":a]volume=" ++ toString v ++ "[a" ++ toString i ++ "];"
  else "[" ++ toString (i + 1) ++ ":a]acopy[a" ++ toString i ++ "];"

/-- The stages of a list of audio segments, one after the other, the first at index `i`. -/
def audioStagesFrom : Nat → List AudioSegment → String
  | _, [] => ""
  | i, segment :: rest => audioStage i segment.volume ++ audioStagesFrom (i + 1) rest

/-- The audio filter graph of a non-empty segment list: the stages, then a pass-through of
`[a0]` to `[aout]` for a single segment, or one concat over `[a0]`..`[a(n-1)]` with `n=n`,
`v=0`, `a=1` writing `[aout]` for several. -/
def audioFilterGraph (segments : List AudioSegment) : String :=
  audioStagesFrom 0 segments ++
    (if segments.length > 1 then
      audioLabels segments.length ++ "concat=n=" ++ toString segments.length ++ ":v=0:a=1[aout]"
    else "[a0]acopy[aout]")

/-- The file `buildEditlyAudioFilter` names for an audio segment. -/
def segmentAudioFile (segment : AudioSegment) : String :=
  resolveAudioPath (segment.path.getD "")

/-- Whether the hardware (NVENC) parameter set, `-preset p5`, `-cq`, `-maxrate`, `-bufsize`,
`-rc vbr`, is among the settings. -/
def HardwareSetIn (settings : List Setting) : Prop :=
  Setting.opt "-preset" "p5" ∈ settings ∧ settingsNamed "-cq" settings ≠ [] ∧
    settingsNamed "-maxrate" settings ≠ [] ∧ settingsNamed "-bufsize" settings ≠ [] ∧
    Setting.opt "-rc" "vbr" ∈ settings

/-- Whether the software parameter set, `-preset medium`, `-crf`, is among the settings. -/
def SoftwareSetIn (settings : List Setting) : Prop :=
  Setting.opt "-preset" "medium" ∈ settings ∧ settingsNamed "-crf" settings ≠ []

/-- Whether `a` is directly followed by `b` somewhere in an argument vector. -/
def adjacentIn (a b : String) : List String → Bool
  | x :: y :: rest => (x == a && y == b) || adjacentIn a b (y :: rest)
  | _ => false

/-- Whether the hardware parameter set appears in an argument vector. -/
def argsHaveHardwareSet (args : List String) : Bool :=
  adjacentIn "-preset" "p5" args && args.contains "-cq" && args.contains "-maxrate" &&
    args.contains "-bufsize" && adjacentIn "-rc" "vbr" args

/-- Whether the software parameter set appears in an argument vector. -/
def argsHaveSoftwareSet (args : List String) : Bool :=
  adjacentIn "-preset" "medium" args && args.contains "-crf"

/-- The GOP, B-frame and quality settings of a plan on the hardware (`gpuPath`) or software
path: exactly one `-g`, with value `2 * fps`; exactly one `-bf`, with value 3; and the quality
23, as `-cq 23` without `-crf` on the hardware path and as `-crf 23` without `-cq` on the
software path. -/
def EncoderInvariants (gpuPath : Bool) (fps : Nat) (settings : List Setting) : Prop :=
  settingsNamed "-g" settings = [.opt "-g" (toString (2 * fps))] ∧
  settingsNamed "-bf" settings = [.opt "-bf" "3"] ∧
  (if gpuPath then
    settingsNamed "-cq" settings = [.opt "-cq" "23"] ∧ settingsNamed "-crf" settings = []
  else
    settingsNamed "-crf" settings = [.opt "-crf" "23"] ∧ settingsNamed "-cq" settings = [])

/-! ### Job creation (`render-api/src/server.js`) -/

/-- The value found under a `clips` key of a request: nothing, something that is not an array
(truthy or falsy), or an array of clips. -/
inductive ClipsValue where
  | missing
  | nonArray (truthy : Bool)
  | array (clips : List Clip)
  deriving DecidableEq, Repr

/-- JavaScript truthiness of a `clips` value (every array is truthy). -/
def ClipsValue.truthy : ClipsValue → Bool
  | .missing => false
  | .nonArray t => t
  | .array _ => true

/-- JavaScript `a || b` on `clips` values. -/
def ClipsValue.orElse (a b : ClipsValue) : ClipsValue :=
  if a.truthy then a else b

/-- The negation of the test `!clips || !Array.isArray(clips) || clips.length === 0`. -/
def ClipsValue.valid : ClipsValue → Bool
  | .array (_ :: _) => true
  | _ => false

/-- The `clips` field of the job payload that carries this value. -/
def ClipsValue.toField : ClipsValue → Option (List Clip)
  | .array clips => some clips
  | _ => none

/-- The object under the `editSpec` key of a request: its `clips`, its other job fields, and
the `clips` of an `editSpec` nested inside it (`editSpec.editSpec?.clips`). -/
structure EditSpec where
  clips : ClipsValue := .missing
  fields : JobData := {}
  nestedClips : ClipsValue := .missing
  deriving DecidableEq, Repr

/-- The body of a `POST /jobs` request: its `clips`, its other job fields, and its `editSpec`
when that is present and truthy. -/
structure RequestBody where
  clips : ClipsValue := .missing
  fields : JobData := {}
  editSpec : Option EditSpec := none
  deriving DecidableEq, Repr

/-- The answer of `POST /jobs`. -/
inductive JobsResponse where
  /-- status 400 with the error text -/
  | badRequest (error : String)
  /-- status 200 with the job id, the status `queued` and the message -/
  | created (jobId : String)
  deriving DecidableEq, Repr

/-- What the `POST /jobs` handler did: its answer and the payload it handed to `addJob`, if it
called it. -/
structure PostJobsResult where
  response : JobsResponse
  enqueued : Option JobData
  deriving DecidableEq, Repr

/-- The `POST /jobs` handler for a request body, `jobId` being the identifier `uuidv4()`
returns (the fields `createdAt`, `status` and `stats` of the payload are left out). -/
def postJobs (jobId : String) (body : RequestBody) : PostJobsResult :=
  match body.editSpec with
  | some editSpec =>
    -- processedJobData = { ...jobData.editSpec, outputFilename, stats, isEditlyFormat: true }
    let clips := editSpec.clips.orElse editSpec.nestedClips
    if !clips.valid then ⟨.badRequest "Invalid input: clips array is required", none⟩
    else
      -- finalJobData = { id: jobId, ...processedJobData, createdAt, status }
      ⟨.created jobId,
        some { editSpec.fields with
          id := some (editSpec.fields.id.getD jobId)
          clips := editSpec.clips.toField
          outputFilename := body.fields.outputFilename
          isEditlyFormat := some true }⟩
  | none =>
    -- processedJobData = jobData = { id: jobId, ...req.body, createdAt, status }
    let clips := body.clips.orElse .missing
    if !clips.valid then ⟨.badRequest "Invalid input: clips array is required", none⟩
    else
      ⟨.created jobId,
        some { body.fields with
          id := some (body.fields.id.getD jobId)
          clips := body.clips.toField }⟩

/-! ### Failure notifications and retries -/

/-- The text of a thrown exception (`error.message`). -/
def JsError.text : JsError → String
  | .error message => message
  | .typeError message => message

/-- The fields of the `failed` notification that depend on the failure (`message` and
`failedAt` are left out). -/
structure FailedNotification where
  error : String
  attempts : Nat
  retryable : Bool
  deriving DecidableEq, Repr

/-- The payload `sendJobFailedWebhook(jobId, error, attempts)` sends. -/
def sendJobFailedWebhook (error : JsError) (attempts : Nat) : FailedNotification :=
  { error := error.text, attempts := attempts, retryable := decide (attempts < 3) }

/-- The states of a job in the queue. -/
inductive JobState where
  | waiting
  | delayed
  | active
  | completed
  | failed
  deriving DecidableEq, Repr

/-- A job held by the queue library. -/
structure BullJob where
  data : JobData
  opts : JobOptions
  attemptsMade : Nat := 0
  state : JobState := .waiting
  deriving DecidableEq, Repr

/-- What the queue library does when the processor of an active job has thrown. The library
(Bull) is a dependency and not part of the sources; the model follows its contract for the
`attempts` option, the total number of attempts made for a job: `attemptsMade` counts the
failed attempts, it is increased once the processor has thrown (and not before), and the job
is retried, after its backoff delay, as long as `attemptsMade` is below `opts.attempts`;
otherwise it is moved to `failed`. -/
def bullMoveToFailed (job : BullJob) : BullJob :=
  if job.attemptsMade + 1 < job.opts.attempts then
    { job with attemptsMade := job.attemptsMade + 1, state := .delayed }
  else { job with attemptsMade := job.attemptsMade + 1, state := .failed }

/-- One attempt of the worker on a job of the queue: the failure notification it sends, if
the handler throws, and the job afterwards. The value passed as `attempts` is
`job.attemptsMade` as it stands while the handler runs. -/
def attemptJob (env : WorkerEnv) (job : BullJob) (tempId : String) (run : EncoderRun) :
    Option FailedNotification × BullJob :=
  match (processJob env job.data tempId run).result with
  | .error e => (some (sendJobFailedWebhook e job.attemptsMade), bullMoveToFailed job)
  | .ok _ => (none, { job with state := .completed })

/-- The attempts made on a job, one per supplied temporary id and encoder run, as long as the
job is queued again: the notifications sent, in order, and the job at the end. -/
def runAttempts (env : WorkerEnv) : List (String × EncoderRun) → BullJob →
    List FailedNotification × BullJob
  | [], job => ([], job)
  | (tempId, run) :: rest, job =>
    if job.state = .waiting ∨ job.state = .delayed then
      match attemptJob env job tempId run with
      | (some note, job') => (note :: (runAttempts env rest job').1, (runAttempts env rest job').2)
      | (none, job') => ((runAttempts env rest job').1, (runAttempts env rest job').2)
    else ([], job)

/-- The job `addJob` creates in the queue for a payload. -/
def newBullJob (jobData : JobData) : BullJob :=
  { data := jobData, opts := addJobOptions jobData }

/-- A job record of the specification's queue (section 4.1). -/
structure SpecJob where
  id : Option String
  priority : Nat
  attempts : Nat
  status : JobState
  deriving DecidableEq, Repr

/-- Modelled from the spec: the `dequeue` operation of section 4.1, which the sources leave to
the queue library: the job becomes `active` and its `attempts` count is increased. -/
def specDequeue (job : SpecJob) : SpecJob :=
  { job with attempts := job.attempts + 1, status := .active }

/-- Modelled from the spec: the `fail` operation of section 4.1, which the sources leave to
the queue library: with `attempts` below `maxAttempts` the job goes back to the queue
(after its backoff delay), keeping its id and priority; otherwise it becomes `failed`. -/
def specFail (maxAttempts : Nat) (job : SpecJob) : SpecJob :=
  if job.attempts < maxAttempts then { job with status := .waiting }
  else { job with status := .failed }

/-- Modelled from the spec: the transitions of a job record of section 4.1 under the retry
options of `addJob`: a queued job is dequeued, an active job is completed or fails. Nothing
leads out of `completed` or `failed`. -/
inductive SpecStep (maxAttempts : Nat) : SpecJob → SpecJob → Prop where
  | dequeue (job : SpecJob) (h : job.status = .waiting) : SpecStep maxAttempts job (specDequeue job)
  | complete (job : SpecJob) (h : job.status = .active) :
      SpecStep maxAttempts job { job with status := .completed }
  | fail (job : SpecJob) (h : job.status = .active) :
      SpecStep maxAttempts job (specFail maxAttempts job)

/-- The job record the specification's `enqueue` creates from what `addJob` passes. -/
def specJobOf (jobData : JobData) : SpecJob :=
  { id := (addJobOptions jobData).jobId, priority := (addJobOptions jobData).priority,
    attempts := 0, status := .waiting }

/-! ### Removal of old jobs (`cleanOldJobs`) -/

/-- A job as the queue library stores it, with the times it keeps (milliseconds since the
epoch): `timestamp`, when the job was added; `processedOn`, when it was last taken by a
worker; `finishedOn`, when it completed or failed. -/
structure StoredJob where
  id : String
  state : JobState
  timestamp : Int
  processedOn : Option Int := none
  finishedOn : Option Int := none
  deriving DecidableEq, Repr

/-- The name under which the queue library keeps the jobs of a state. -/
def JobState.setName : JobState → String
  | .waiting => "wait"
  | .delayed => "delayed"
  | .active => "active"
  | .completed => "completed"
  | .failed => "failed"

/-- The time the library's `clean` compares: `finishedOn` when it is set, else `processedOn`,
else `timestamp`. -/
def StoredJob.cleanTime (job : StoredJob) : Int :=
  job.finishedOn.getD (job.processedOn.getD job.timestamp)

/-- The comparison `a < b` of two strings in the scripting language of the store (Lua):
character by character, a proper beginning of a string being smaller than the string. -/
def luaStringLt : List Char → List Char → Bool
  | _, [] => false
  | [], _ :: _ => true
  | a :: as, b :: bs =>
    if a.toNat < b.toNat then true
    else if a = b then luaStringLt as bs
    else false

/-- The `clean(grace, type)` method of the queue library, called when its clock reads
`clock`. The library (Bull) is a dependency and not part of the sources. Its `grace` is a
period in milliseconds: the method hands `clock - grace` to a script of the store, which
removes the jobs of the given type whose time is smaller than that value. The script sees
both as texts of decimal digits and compares them as strings, which is the comparison of the
numbers as long as both have the same number of digits. -/
def bullClean (clock : Int) (queue : List StoredJob) (grace : Int) (type : String) :
    List StoredJob :=
  queue.filter (fun job =>
    !(job.state.setName == type &&
      luaStringLt (toString job.cleanTime).data (toString (clock - grace)).data))

/-- Source function `cleanOldJobs(queue, maxAge = 24)`, over a queue whose `clean` method is
`clean`; `now` is the value of `Date.now()`, and `maxAge` is `none` when the caller leaves it
out. -/
def cleanOldJobs {Q : Type} (clean : Q → Int → String → Q) (now : Int) (queue : Q)
    (maxAge : Option Int) : Q :=
  let maxAge := maxAge.getD 24
  let maxAgeMs := maxAge * 60 * 60 * 1000
  let cutoff := now - maxAgeMs
  -- Clean completed jobs older than maxAge, then failed jobs older than maxAge
  clean (clean queue cutoff "completed") cutoff "failed"

/-- The jobs the claim has removed: the completed and failed ones that finished more than
`maxAge` hours before `now`. -/
def finishedBefore (now maxAge : Int) (job : StoredJob) : Bool :=
  (job.state = .completed || job.state = .failed) &&
    decide (job.cleanTime < now - maxAge * 60 * 60 * 1000)

/-! ### Failure of `processVideo` and the output file -/

/-- The encoder arguments `processVideo` synthesizes for a job, or the error that stops it
before the encoder is started: the validation of `clips`, then the plan of the layered or of
the simple pipeline. -/
def synthesizedArgs (env : WorkerEnv) (jobData : JobData) (tempId : String) :
    Except JsError (List String) :=
  match jobData.clips with
  | none => .error (.error "No clips provided")
  | some clips =>
    if clips.length = 0 then .error (.error "No clips provided")
    else if jobData.isEditlyFormat.getD false then
      match (editlyFormatPlan env jobData tempId).result with
      | .error e => .error e
      | .ok built => .ok built.ffmpegArgs
    else simpleFormatArgs env jobData clips tempId

/-- What lies at a path of the file system. -/
inductive PathNode where
  /-- Nothing. -/
  | absent
  /-- A regular file; `removable` says whether the worker is allowed to remove it. -/
  | file (removable : Bool)
  /-- A directory. -/
  | directory
  deriving DecidableEq, Repr

/-- The call `fs.existsSync(path)` on what lies at the path. -/
def PathNode.existsSync : PathNode → Bool
  | .absent => false
  | .file _ => true
  | .directory => true

/-- The call `fs.unlinkSync(path)` on what lies at the path: a regular file is removed when
that is allowed; for a directory, a file that may not be removed and a missing path the call
throws. -/
def unlinkSync (path : String) : PathNode → Except JsError PathNode
  | .file true => .ok .absent
  | .file false => .error (.error ("EACCES: permission denied, unlink '" ++ path ++ "'"))
  | .directory =>
    .error (.error ("EISDIR: illegal operation on a directory, unlink '" ++ path ++ "'"))
  | .absent => .error (.error ("ENOENT: no such file or directory, unlink '" ++ path ++ "'"))

/-- The `catch` block of `processVideo`: when something lies at the output path it is removed
with `fs.unlinkSync`, then the caught error is thrown again; when `fs.unlinkSync` throws, its
error leaves the block instead. The result is what lies at the output path afterwards and
the error thrown. -/
def cleanupOnError (outputPath : String) (node : PathNode) (error : JsError) :
    PathNode × JsError :=
  if node.existsSync then
    match unlinkSync outputPath node with
    | .ok removed => (removed, error)
    | .error unlinkError => (node, unlinkError)
  else (node, error)

/-- What `processVideo` leaves behind when it settles. -/
structure Settled where
  outcome : Outcome RenderResult
  /-- what lies at the job's output path -/
  output : PathNode

/-- Source function `processVideo` with its `try`/`catch`: the `try` block is `processVideo`
above, and `atOutput` is what lies at the output path when that block has ended. -/
def processVideoSettled (env : WorkerEnv) (jobData : JobData) (tempId : String)
    (run : EncoderRun) (atOutput : PathNode) : Settled :=
  let outputPath := outputPathOf jobData tempId
  let body := processVideo env jobData tempId run
  match body.result with
  | .ok result => ⟨⟨body.reports, body.spawned, .ok result⟩, atOutput⟩
  | .error error =>
    let cleaned := cleanupOnError outputPath atOutput error
    ⟨⟨body.reports, body.spawned, .error cleaned.2⟩, cleaned.1⟩

/-- The exit code as the template literal of the error message prints it. -/
def exitCodeText : Option Nat → String
  | some c => toString c
  | none => "null"

/-! ### Notifications (`worker/src/webhook.js`) -/

/-- How the HTTP delivery of a notification ends. -/
inductive Delivery where
  /-- a response with a 2xx status and its body -/
  | success (status : Nat) (data : String)
  /-- a response with another status -/
  | errorResponse (status : Nat)
  /-- no response within the 10000 ms allowed -/
  | timeout
  /-- any other exception raised while the request is made -/
  | exception (message : String)
  deriving DecidableEq, Repr

/-- The call `axios.post(webhookUrl, payload, ...)`: it resolves with the body of a 2xx
response and rejects in every other case. -/
def axiosPost (delivery : Delivery) : Except JsError String :=
  match delivery with
  | .success _ data => .ok data
  | .errorResponse status =>
    .error (.error ("Request failed with status code " ++ toString status))
  | .timeout => .error (.error "timeout of 10000ms exceeded")
  | .exception message => .error (.error message)

/-- The value a call of `sendWebhook` returns. -/
inductive WebhookReturn where
  /-- Nothing: the bare `return` taken when no URL is configured. -/
  | undefined
  /-- The `null` returned from the `catch` block. -/
  | null
  /-- The body of the response, `response.data`. -/
  | data (body : String)
  deriving DecidableEq, Repr

/-- The surroundings of a notification: the variables `WEBHOOK_URL`, `WORKER_ID`, `USE_GPU`
and `EXTERNAL_DOMAIN` of the process, and how a delivery ends. -/
structure WebhookEnv where
  WEBHOOK_URL : Option String := none
  WORKER_ID : Option String := none
  USE_GPU : Option String := none
  EXTERNAL_DOMAIN : Option String := none
  delivery : Delivery
  deriving DecidableEq, Repr

/-- A request handed to `axios.post`: the URL and the payload as its fields, in order (the
time stamps are left out). -/
structure PostedRequest where
  url : String
  payload : List (String × String)
  deriving DecidableEq, Repr

/-- What a call of `sendWebhook` or of one of its helpers did: the requests it posted and how
it ended for its caller. -/
structure WebhookCall where
  posted : List PostedRequest
  result : Except JsError WebhookReturn
  deriving DecidableEq, Repr

/-- Source function `sendWebhook(jobId, status, data)`. -/
def sendWebhook (env : WebhookEnv) (jobId status : String) (data : List (String × String)) :
    WebhookCall :=
  match env.WEBHOOK_URL with
  | none => ⟨[], .ok .undefined⟩
  | some webhookUrl =>
    if webhookUrl = "" then ⟨[], .ok .undefined⟩
    else
      let payload :=
        [("jobId", jobId), ("status", status),
         ("workerId", (strOr env.WORKER_ID (some "unknown")).getD ""),
         ("useGpu", toString (decide (env.USE_GPU = some "true")))] ++ data
      -- try { ... } catch (error) { ...; return null }
      match axiosPost env.delivery with
      | .ok body => ⟨[⟨webhookUrl, payload⟩], .ok (.data body)⟩
      | .error _ => ⟨[⟨webhookUrl, payload⟩], .ok .null⟩

/-- Source function `sendJobStartedWebhook(jobId, jobData)`. -/
def sendJobStartedWebhook (env : WebhookEnv) (jobId : String) (jobData : JobData) :
    WebhookCall :=
  sendWebhook env jobId "started"
    [("message", "Video rendering started"),
     ("clips", toString ((jobData.clips.map List.length).getD 0)),
     ("resolution", toString (numOr jobData.width 1080) ++ "x" ++
        toString (numOr jobData.height 1920)),
     ("fps", toString (numOr jobData.fps 30)),
     ("gpu", toString (jobData.gpu.getD false))]

/-- Source function `sendJobCompletedWebhook(jobId, result)`. -/
def sendJobCompletedWebhook (env : WebhookEnv) (jobId : String) (result : RenderResult) :
    WebhookCall :=
  let externalDomain := (strOr env.EXTERNAL_DOMAIN (some "http://localhost:3001")).getD ""
  let downloadUrl :=
    if result.outputFile != "" then externalDomain ++ "/download/" ++ result.outputFile
    else "null"
  sendWebhook env jobId "completed"
    [("message", "Video rendering completed successfully"),
     ("outputFile", result.outputFile), ("downloadUrl", downloadUrl),
     ("duration", toString result.duration), ("fileSize", toString result.fileSize),
     ("resolution", result.resolution), ("fps", toString result.fps),
     ("useGpu", toString result.useGpu)]

/-- Source function `sendJobFailedWebhook(jobId, error, attempts)` with its delivery; the
fields of its payload are those of `sendJobFailedWebhook` above. -/
def sendJobFailedNotification (env : WebhookEnv) (jobId : String) (error : JsError)
    (attempts : Nat) : WebhookCall :=
  sendWebhook env jobId "failed"
    [("message", "Video rendering failed"),
     ("error", (sendJobFailedWebhook error attempts).error),
     ("attempts", toString (sendJobFailedWebhook error attempts).attempts),
     ("retryable", toString (sendJobFailedWebhook error attempts).retryable)]

/-- Whether a delivery fails: everything but a 2xx response. -/
def Delivery.failed : Delivery → Bool
  | .success _ _ => false
  | _ => true

/-! ### Plain paths -/

/-- A piece of a path that `path.join` keeps as it stands: not empty, not `.`, not `..`. -/
def plainSegment (seg : List Char) : Bool :=
  decide (seg ≠ [] ∧ seg ≠ ['.'] ∧ seg ≠ ['.', '.'])

/-- A plain relative path: pieces separated by single `/`, none of them empty, `.` or `..`
(so the path neither starts nor ends with `/`). -/
def isPlainPath (p : String) : Bool :=
  (splitSlash p.data).all plainSegment

/-- Whether a file path lies inside the `/uploads` root: once `.` and `..` pieces are
resolved, it starts with `/uploads/`. -/
def insideUploads (file : String) : Bool :=
  startsWith (String.mk (normalizeChars file.data)) "/uploads/"

/-! ### The concat list as a list of entries -/

/-- One line of a concat list. -/
inductive ConcatEntry where
  | file (path : String)
  | duration (seconds : String)
  deriving DecidableEq, Repr

/-- The text of an entry, its line break included. -/
def ConcatEntry.render : ConcatEntry → String
  | .file path => fileLine path
  | .duration seconds => durationLine seconds

/-- Whether an entry is a `file` line. -/
def ConcatEntry.isFile : ConcatEntry → Bool
  | .file _ => true
  | .duration _ => false

/-- Whether an entry is a `duration` line. -/
def ConcatEntry.isDuration : ConcatEntry → Bool
  | .file _ => false
  | .duration _ => true

/-- The text of a list of entries. -/
def renderEntries : List ConcatEntry → String
  | [] => ""
  | entry :: rest => entry.render ++ renderEntries rest

/-- The entries of the clips themselves: for each clip, in order, its `file` line and its
`duration` line; `file` says which file a clip stands for and `dur` which duration. -/
def clipEntries (file : Clip → String) (dur : Clip → Nat) : List Clip → List ConcatEntry
  | [] => []
  | clip :: rest =>
    .file (file clip) :: .duration (toString (dur clip)) :: clipEntries file dur rest

/-- The entries of a concat list: those of the clips, then one more `file` line for the last
clip. -/
def concatEntries (file : Clip → String) (dur : Clip → Nat) (clips : List Clip) :
    List ConcatEntry :=
  clipEntries file dur clips ++
    (match clips.getLast? with
     | some last => [.file (file last)]
     | none => [])

/-- The file of a clip as the claim words it: `/uploads/` followed by the clip's path. -/
def claimedClipFile (clip : Clip) : String :=
  "/uploads/" ++ (strOr clip.imagePath clip.path).getD ""

/-! ## Theorems -/

/-- The value `exactPercent` is the floor of `position / duration * 100` computed over the
rationals. -/
theorem exactPercent_eq_floor (currentTime duration : Seconds) :
    (exactPercent currentTime duration : ℤ) = ⌊currentTime.toRat / duration.toRat * 100⌋ := by
  have h : currentTime.toRat / duration.toRat * 100 =
      ((currentTime.num * 10 ^ duration.scale * 100 : ℕ) : ℚ) /
        ((duration.num * 10 ^ currentTime.scale : ℕ) : ℚ) := by
    simp only [Seconds.toRat]
    push_cast
    rw [div_div_div_eq, div_mul_eq_mul_div, mul_comm ((10 : ℚ) ^ currentTime.scale)]
  rw [h, Rat.floor_natCast_div_natCast]
  rfl

/-! ### The concat list of the simple format -/

theorem concatBody_append (xs ys : List Clip) :
    concatBody (xs ++ ys) = concatBody xs ++ concatBody ys := by
  induction xs with
  | nil => simp [concatBody]
  | cons x xs ih => simp [concatBody, ih, String.append_assoc]

theorem strOr_of_truthy {a b : Option String} (h : strTruthy (strOr a b) = true) :
    ∃ p, strOr a b = some p ∧ p ≠ "" := by
  cases hs : strOr a b with
  | none => simp [hs, strTruthy] at h
  | some p => exact ⟨p, rfl, by simpa [hs, strTruthy] using h⟩

theorem createConcatLoop_ok (existsSync : String → Bool) (clips : List Clip) (acc : String)
    (hpath : ∀ c ∈ clips, strTruthy (strOr c.imagePath c.path) = true)
    (hfile : ∀ c ∈ clips, existsSync (clipImageFile c) = true) :
    createConcatLoop existsSync clips acc = .ok (acc ++ concatBody clips) := by
  induction clips generalizing acc with
  | nil => simp [createConcatLoop, concatBody]
  | cons c cs ih =>
    obtain ⟨p, hp, hne⟩ := strOr_of_truthy (hpath c (List.mem_cons_self _ _))
    have hex := hfile c (List.mem_cons_self _ _)
    simp only [clipImageFile, hp, Option.getD_some] at hex
    rw [createConcatLoop]
    simp only [hp, hne, if_false, hex, Bool.not_true]
    rw [ih _ (fun c hc => hpath c (List.mem_cons_of_mem _ hc))
      (fun c hc => hfile c (List.mem_cons_of_mem _ hc))]
    simp [concatBody, clipEntry, clipImageFile, hp, String.append_assoc]

/-- C1: for a non-empty simple-format clip list whose clips all carry a path to an existing
file, `createConcatFile` writes a concat list that ends with the last clip's own
`file`/`duration` pair followed by one more `file` line for the same resolved path, after
which nothing (in particular no `duration` line) follows. -/
theorem createConcatFile_duplicates_last (existsSync : String → Bool) (clips : List Clip)
    (tempId : String) (last : Clip) (hlast : clips.getLast? = some last)
    (hpath : ∀ c ∈ clips, strTruthy (strOr c.imagePath c.path) = true)
    (hfile : ∀ c ∈ clips, existsSync (clipImageFile c) = true) :
    ∃ body, createConcatFile existsSync clips tempId =
      .ok ⟨pathJoin TEMP_DIR ("concat_" ++ tempId ++ ".txt"),
           body ++ fileLine (clipImageFile last) ++
             durationLine (toString (numOr last.duration 5)) ++
             fileLine (clipImageFile last)⟩ := by
  obtain ⟨front, rfl⟩ : ∃ front, clips = front ++ [last] := by
    refine ⟨clips.dropLast, ?_⟩
    have := List.dropLast_append_getLast? last (by simpa using hlast)
    exact this.symm
  obtain ⟨p, hp, _⟩ := strOr_of_truthy (hpath last (by simp))
  refine ⟨concatBody front, ?_⟩
  simp only [createConcatFile, createConcatLoop_ok existsSync _ "" hpath hfile, hlast, hp]
  simp [concatBody_append, concatBody, clipEntry, clipImageFile, hp, String.append_assoc]

/-- Witness for C1: two image clips, both present. -/
theorem createConcatFile_duplicates_last_witness :
    ∃ body, createConcatFile (fun _ => true)
        [{ path := some "a.jpg", duration := some 3 }, { path := some "b.jpg", duration := some 2 }]
        "t" =
      .ok ⟨pathJoin TEMP_DIR ("concat_" ++ "t" ++ ".txt"),
           body ++ fileLine (clipImageFile { path := some "b.jpg", duration := some 2 }) ++
             durationLine (toString (numOr (some 2) 5)) ++
             fileLine (clipImageFile { path := some "b.jpg", duration := some 2 })⟩ :=
  createConcatFile_duplicates_last (fun _ => true) _ "t"
    { path := some "b.jpg", duration := some 2 } (by decide) (by decide) (by simp)

/-! ### The layered pipeline -/

theorem segmentBody_append (xs ys : List VideoSegment) :
    segmentBody (xs ++ ys) = segmentBody xs ++ segmentBody ys := by
  induction xs with
  | nil => simp [segmentBody]
  | cons x xs ih => simp [segmentBody, ih, String.append_assoc]

theorem extractSegments_ok (clips : List Clip) (vs : List VideoSegment) (as : List AudioSegment)
    (t : Option Nat) (hlayers : ∀ c ∈ clips, c.layers.isSome = true) :
    extractSegments clips vs as t =
      .ok (vs ++ videoSegmentsOf clips t, as ++ audioSegmentsOf clips t) := by
  induction clips generalizing vs as t with
  | nil => simp [extractSegments, videoSegmentsOf, audioSegmentsOf]
  | cons c cs ih =>
    have hc := hlayers c (List.mem_cons_self _ _)
    obtain ⟨layers, hl⟩ := Option.isSome_iff_exists.mp hc
    rw [extractSegments]
    simp only [hl]
    rw [ih _ _ _ (fun c hc => hlayers c (List.mem_cons_of_mem _ hc))]
    simp only [videoSegmentsOf, audioSegmentsOf, firstImageLayer, firstAudioLayer, hl,
      Option.getD_some]
    congr 2
    · rcases hf : layers.filter isImageLayer with _ | ⟨_ | l, tl⟩ <;> simp [hf]
    · rcases hf : layers.filter isAudioLayer with _ | ⟨_ | l, tl⟩ <;> simp [hf]

theorem editlyConcatLoop_ok (existsSync : String → Bool) (segments : List VideoSegment)
    (acc : String)
    (hfile : ∀ s ∈ segments, s.path.isSome = true ∧ existsSync (segmentFile s) = true) :
    editlyConcatLoop existsSync segments acc = .ok (acc ++ segmentBody segments) := by
  induction segments generalizing acc with
  | nil => simp [editlyConcatLoop, segmentBody]
  | cons x xs ih =>
    obtain ⟨hsome, hex⟩ := hfile x (List.mem_cons_self _ _)
    obtain ⟨p, hp⟩ := Option.isSome_iff_exists.mp hsome
    simp only [segmentFile, hp, Option.getD_some] at hex
    rw [editlyConcatLoop]
    simp only [hp, hex, Bool.not_true]
    rw [if_neg (by simp), ih _ (fun s hs => hfile s (List.mem_cons_of_mem _ hs))]
    simp [segmentBody, segmentEntry, segmentFile, hp, String.append_assoc]

theorem audioFilterLoop_ok (segments : List AudioSegment) (index : Nat) (filterComplex : String)
    (inputs : List String) (hpath : ∀ s ∈ segments, s.path.isSome = true) :
    ∃ r, audioFilterLoop segments index filterComplex inputs = .ok r := by
  induction segments generalizing index filterComplex inputs with
  | nil => exact ⟨_, rfl⟩
  | cons x xs ih =>
    obtain ⟨p, hp⟩ := Option.isSome_iff_exists.mp (hpath x (List.mem_cons_self _ _))
    rw [audioFilterLoop]
    simp only [hp]
    exact ih _ _ _ (fun s hs => hpath s (List.mem_cons_of_mem _ hs))

theorem buildEditlyAudioFilter_ok (segments : List AudioSegment)
    (hpath : ∀ s ∈ segments, s.path.isSome = true) :
    ∃ af, buildEditlyAudioFilter segments = .ok af := by
  unfold buildEditlyAudioFilter
  split
  · exact ⟨_, rfl⟩
  · obtain ⟨⟨fc, inputs⟩, hr⟩ := audioFilterLoop_ok segments 0 "" [] hpath
    simp only [hr]
    split <;> exact ⟨_, rfl⟩

theorem createEditlyVideoConcat_ok (existsSync : String → Bool) (segments : List VideoSegment)
    (tempId : String)
    (hfile : ∀ s ∈ segments, s.path.isSome = true ∧ existsSync (segmentFile s) = true) :
    createEditlyVideoConcat existsSync segments tempId =
      .ok ⟨pathJoin TEMP_DIR ("editly_video_" ++ tempId ++ ".txt"),
           segmentBody segments ++
             (match segments.getLast? with
              | some last => fileLine (segmentFile last)
              | none => "")⟩ := by
  simp only [createEditlyVideoConcat, editlyConcatLoop_ok existsSync _ "" hfile]
  cases hl : segments.getLast? with
  | none => simp
  | some last =>
    obtain ⟨p, hp⟩ := Option.isSome_iff_exists.mp (hfile last (List.mem_of_getLast?_eq_some hl)).1
    simp [hp, segmentFile]

/-- The plan of a layered job all of whose clips have a `layers` array and whose selected
layers carry paths, the image files being present: it is built, its video segments are those
of `videoSegmentsOf`, and its concat list is their entries followed by one more `file` line for
the last of them. -/
theorem editlyFormatPlan_ok (env : WorkerEnv) (jobData : JobData) (clips : List Clip)
    (tempId : String) (hclips : jobData.clips = some clips)
    (hlayers : ∀ c ∈ clips, c.layers.isSome = true)
    (hvideo : ∀ s ∈ videoSegmentsOf clips (some 0),
      s.path.isSome = true ∧ env.existsSync (segmentFile s) = true)
    (haudio : ∀ s ∈ audioSegmentsOf clips (some 0), s.path.isSome = true) :
    ∃ plan, (editlyFormatPlan env jobData tempId).result = .ok plan ∧
      plan.videoSegments = videoSegmentsOf clips (some 0) ∧
      plan.concatFile.content = segmentBody (videoSegmentsOf clips (some 0)) ++
        (match (videoSegmentsOf clips (some 0)).getLast? with
         | some last => fileLine (segmentFile last)
         | none => "") := by
  obtain ⟨af, haf⟩ := buildEditlyAudioFilter_ok _ haudio
  simp [editlyFormatPlan, hclips, extractSegments_ok clips [] [] (some 0) hlayers,
    createEditlyVideoConcat_ok env.existsSync _ tempId hvideo, haf]

theorem videoSegmentsOf_paths (clips : List Clip) (t : Option Nat) :
    (videoSegmentsOf clips t).map (fun s => s.path) =
      (clips.filterMap firstImageLayer).map (fun l => l.path) := by
  induction clips generalizing t with
  | nil => simp [videoSegmentsOf]
  | cons c cs ih =>
    cases h : firstImageLayer c <;> simp [videoSegmentsOf, List.filterMap_cons, h, ih]

theorem fileLine_ne_empty (body p : String) : body ++ fileLine p ≠ "" := by
  intro h
  have := congrArg String.length h
  simp only [fileLine, String.length_append] at this
  have hlen : "file '".length = 6 := by decide
  have hzero : "".length = 0 := by decide
  omega

/-- C2, counterexample: a layered job with one clip that has only an audio layer is
synthesized without error and its concat list is the empty text, which ends with no `file`
entry at all. -/
theorem editly_concat_without_image_is_empty :
    (editlyFormatPlan ⟨false, fun _ => true⟩
        { isEditlyFormat := some true
          clips := some [{ duration := some 3
                           layers := some [some { type := some "audio", path := some "a.mp3" }] }] }
        "t").result.map (fun plan => plan.concatFile.content) = .ok "" ∧
      ∀ body p, "" ≠ body ++ fileLine p := by
  refine ⟨by decide, ?_⟩
  intro body p h
  exact fileLine_ne_empty body p h.symm

/-- C2, amended: for a layered clip list whose clips all have a `layers` array, whose selected
image layers carry paths to files that are present, and which yields at least one video
segment (some clip has an image-kind layer), the concat list that `createEditlyVideoConcat`
writes for the segments `processEditlyFormat` extracts ends with the last segment's
`file`/`duration` pair followed by one more `file` line for the same file, after which nothing
follows. -/
theorem editly_concat_duplicates_last (existsSync : String → Bool) (clips : List Clip)
    (tempId : String) (last : VideoSegment)
    (hlayers : ∀ c ∈ clips, c.layers.isSome = true)
    (hvideo : ∀ s ∈ videoSegmentsOf clips (some 0),
      s.path.isSome = true ∧ existsSync (segmentFile s) = true)
    (hlast : (videoSegmentsOf clips (some 0)).getLast? = some last) :
    ∃ videoSegments audioSegments body,
      extractSegments clips [] [] (some 0) = .ok (videoSegments, audioSegments) ∧
      createEditlyVideoConcat existsSync videoSegments tempId =
        .ok ⟨pathJoin TEMP_DIR ("editly_video_" ++ tempId ++ ".txt"),
             body ++ fileLine (segmentFile last) ++ durationLine (renderNum last.duration) ++
               fileLine (segmentFile last)⟩ := by
  have hsplit := List.dropLast_append_getLast? last (by simpa using hlast)
  refine ⟨videoSegmentsOf clips (some 0), audioSegmentsOf clips (some 0),
    segmentBody (videoSegmentsOf clips (some 0)).dropLast, ?_, ?_⟩
  · simpa using extractSegments_ok clips [] [] (some 0) hlayers
  · rw [createEditlyVideoConcat_ok existsSync _ tempId hvideo, hlast]
    conv_lhs => rw [← hsplit]
    simp [segmentBody_append, segmentBody, segmentEntry, String.append_assoc]

/-- Witness for C2 (amended): an image clip followed by a clip that has only an audio layer. -/
theorem editly_concat_duplicates_last_witness :
    ∃ videoSegments audioSegments body,
      extractSegments
          [{ duration := some 3
             layers := some [some { type := some "image", path := some "a.png" }] },
           { duration := some 2
             layers := some [some { type := some "audio", path := some "b.mp3" }] }]
          [] [] (some 0) = .ok (videoSegments, audioSegments) ∧
      createEditlyVideoConcat (fun _ => true) videoSegments "t" =
        .ok ⟨pathJoin TEMP_DIR ("editly_video_" ++ "t" ++ ".txt"),
             body ++ fileLine (segmentFile ⟨some "a.png", some 3, some 0, "cover"⟩) ++
               durationLine (renderNum (some 3)) ++
               fileLine (segmentFile ⟨some "a.png", some 3, some 0, "cover"⟩)⟩ :=
  editly_concat_duplicates_last (fun _ => true) _ "t"
    ⟨some "a.png", some 3, some 0, "cover"⟩ (by decide) (by decide) (by decide)

/-! ### Progress values reported by `executeFFmpeg` -/

theorem minHundred_le {x : JsNumber} {p : Nat} (h : minHundred x = some p) : p ≤ 100 := by
  cases x with
  | finite a =>
    simp only [minHundred, Option.some.injEq] at h
    omega
  | infinity =>
    simp only [minHundred, Option.some.injEq] at h
    omega
  | nan => simp [minHundred] at h

theorem onData_reported {st : ProgressState} {data : String} {p : Nat}
    (h : (onData st data).reported = some p) :
    st.lastProgress < p ∧ p ≤ 100 ∧ (onData st data).state.lastProgress = p := by
  simp only [onData] at h ⊢
  generalize findMarker timeLit (st.stderr ++ data).data = tm at h ⊢
  generalize nextDuration st.duration (st.stderr ++ data) = dur at h ⊢
  cases tm with
  | none => simp at h
  | some t =>
    simp only at h ⊢
    by_cases hd : dur.isPositive = true
    · simp only [hd, if_true] at h ⊢
      cases hm : minHundred (percentOf (clockNumber t) dur) with
      | none =>
        simp only [hm] at h
        exact absurd h (by simp)
      | some q =>
        simp only [hm] at h ⊢
        by_cases hlt : q > st.lastProgress
        · simp only [hlt, if_true, Option.some.injEq] at h ⊢
          subst h
          exact ⟨hlt, minHundred_le hm, rfl⟩
        · simp only [hlt, if_false] at h
          exact absurd h (by simp)
    · simp only [hd] at h
      exact absurd h (by simp)

theorem onData_not_reported {st : ProgressState} {data : String}
    (h : (onData st data).reported = none) :
    (onData st data).state.lastProgress = st.lastProgress := by
  simp only [onData] at h ⊢
  generalize findMarker timeLit (st.stderr ++ data).data = tm at h ⊢
  generalize nextDuration st.duration (st.stderr ++ data) = dur at h ⊢
  cases tm with
  | none => rfl
  | some t =>
    simp only at h ⊢
    by_cases hd : dur.isPositive = true
    · simp only [hd, if_true] at h ⊢
      cases hm : minHundred (percentOf (clockNumber t) dur) with
      | none => rfl
      | some q =>
        simp only [hm] at h ⊢
        by_cases hlt : q > st.lastProgress
        · simp only [hlt, if_true] at h
          exact absurd h (by simp)
        · simp only [hlt, if_false]
    · simp only [hd]
      rfl

theorem reportsFrom_bounds (chunks : List String) (st : ProgressState) :
    ∀ p ∈ reportsFrom st chunks, st.lastProgress < p ∧ p ≤ 100 := by
  induction chunks generalizing st with
  | nil => simp [reportsFrom]
  | cons data rest ih =>
    intro p hp
    rw [reportsFrom] at hp
    cases hr : (onData st data).reported with
    | none =>
      simp only [hr] at hp
      have := ih _ p hp
      rw [onData_not_reported hr] at this
      exact this
    | some q =>
      simp only [hr, List.mem_cons] at hp
      obtain ⟨hlt, hle, hst⟩ := onData_reported hr
      rcases hp with rfl | hp
      · exact ⟨hlt, hle⟩
      · have := ih _ p hp
        rw [hst] at this
        exact ⟨lt_trans hlt this.1, this.2⟩

theorem reportsFrom_increasing (chunks : List String) (st : ProgressState) :
    (reportsFrom st chunks).Pairwise (· < ·) := by
  induction chunks generalizing st with
  | nil => simp [reportsFrom]
  | cons data rest ih =>
    rw [reportsFrom]
    cases hr : (onData st data).reported with
    | none => exact ih _
    | some q =>
      simp only [List.pairwise_cons]
      refine ⟨fun p hp => ?_, ih _⟩
      have := (reportsFrom_bounds rest _ p hp).1
      rwa [(onData_reported hr).2.2] at this

/-- C5: whatever the encoder run, the values `executeFFmpeg` passes to its progress callback
are strictly increasing (hence none is repeated and none is below an earlier one), and each
of them lies between 1 and 100. -/
theorem executeFFmpeg_reports_increasing (args : List String) (run : EncoderRun) :
    (executeFFmpeg args run).reports.Pairwise (· < ·) ∧
      ∀ p ∈ (executeFFmpeg args run).reports, 1 ≤ p ∧ p ≤ 100 := by
  unfold executeFFmpeg
  cases run.exit with
  | spawnError m => simp
  | close code =>
    refine ⟨reportsFrom_increasing _ _, fun p hp => ?_⟩
    have := reportsFrom_bounds run.chunks {} p hp
    exact ⟨by omega, this.2⟩

/-! ### Progress writes of the worker, queue options, audio arguments -/

/-- C3, failing input: an image job whose encoder reports 12 % (position 1 s of 8 s) completes,
and the worker writes 30 and then 28 to the job's progress. -/
theorem processJob_progress_decreases :
    (processJob ⟨false, fun _ => true⟩ { clips := some [{ path := some "a.jpg" }] } "t"
        ⟨["Duration: 00:00:08.00", "time=00:00:01.00"], .close (some 0), some 10, 8⟩).progressWrites
      = [10, 20, 23, 27, 30, 28, 86, 95, 100] ∧
    ¬ List.Pairwise (· ≤ ·)
      (processJob ⟨false, fun _ => true⟩ { clips := some [{ path := some "a.jpg" }] } "t"
        ⟨["Duration: 00:00:08.00", "time=00:00:01.00"], .close (some 0), some 10, 8⟩).progressWrites := by
  decide

/-- C7: `addJob` hands the payload unchanged to the queue's `add` method under the name
`render-video`, with priority 10 when the payload's `gpu` flag is `true` and 5 otherwise, and
with the payload's `id` as the `jobId` option. -/
theorem addJob_priority_and_id {Q : Type} (add : Q → String → JobData → JobOptions → Q)
    (queue : Q) (jobData : JobData) :
    ∃ opts, addJob add queue jobData = add queue "render-video" jobData opts ∧
      opts.priority = (if jobData.gpu = some true then 10 else 5) ∧
      opts.jobId = jobData.id :=
  ⟨addJobOptions jobData, rfl, rfl, rfl⟩

/-- C6, failing input: jobs added in the order CPU, GPU1, GPU2 wait in the order CPU, GPU1,
GPU2, because `addJob` gives the CPU job the smaller priority number (5 against 10) and the
queue takes smaller numbers first. -/
theorem addJob_cpu_taken_before_gpu :
    dequeueOrder
      (addJob bullAdd
        (addJob bullAdd
          (addJob bullAdd [] { id := some "cpu", gpu := some false })
          { id := some "gpu1", gpu := some true })
        { id := some "gpu2", gpu := some true })
      = [some "cpu", some "gpu1", some "gpu2"] := by
  decide

/-- C10, failing input: with `/uploads/music.mp3` present (and no `music.mp3` relative to the
working directory), `buildFFmpegCommand` attaches the audio file as an input and still emits
`-an`, without `-shortest` or any audio codec. -/
theorem buildFFmpegCommand_audio_input_with_an :
    buildFFmpegCommand (fun p => p == "/uploads/music.mp3") "/tmp/concat_t.txt"
        (some "music.mp3") "/outputs/video_t.mp4" 1080 1920 30 false =
      ["-f", "concat", "-safe", "0", "-i", "/tmp/concat_t.txt", "-i", "/uploads/music.mp3",
       "-c:v", "libx264", "-preset", "veryfast", "-crf", "23", "-profile:v", "main",
       "-level", "4.1", "-bf", "3", "-g", "60", "-an",
       "-vf", "scale=1080:1920:force_original_aspect_ratio=decrease,pad=1080:1920:(ow-iw)/2:(oh-ih)/2",
       "-r", "30", "-pix_fmt", "yuv420p", "-movflags", "+faststart", "-y",
       "/outputs/video_t.mp4"] := by
  decide

/-! ### Clips without an image layer -/

/-- C8, counterexample: a layered job whose second clip has only an audio layer is processed
to the end; the clip is left out of the video segments and no error is raised. -/
theorem processEditlyFormat_skips_clip_without_image :
    (processEditlyFormat ⟨false, fun _ => true⟩
        { isEditlyFormat := some true
          clips := some
            [{ duration := some 3
               layers := some [some { type := some "image", path := some "a.png" }] },
             { duration := some 2
               layers := some [some { type := some "audio", path := some "b.mp3" }] }] }
        "t" ⟨[], .close (some 0), some 10, 3⟩).result = .ok "/outputs/video_t.mp4" ∧
    (editlyFormatPlan ⟨false, fun _ => true⟩
        { isEditlyFormat := some true
          clips := some
            [{ duration := some 3
               layers := some [some { type := some "image", path := some "a.png" }] },
             { duration := some 2
               layers := some [some { type := some "audio", path := some "b.mp3" }] }] }
        "t").result.map (fun plan => plan.videoSegments.map (fun s => s.path)) =
      .ok [some "a.png"] := by
  decide

/-- C8, amended: for a layered job whose clips all have a `layers` array and whose selected
layers carry paths, the image files being present, synthesis succeeds whether or not a clip
lacks an image-kind layer: the video segments are the first image-kind layers of exactly the
clips that have one, in clip order (a clip without one is skipped), and with an encoder that
exits with code 0 `processEditlyFormat` returns the output path. -/
theorem processEditlyFormat_skips_imageless_clips (env : WorkerEnv) (jobData : JobData)
    (clips : List Clip) (tempId : String) (hclips : jobData.clips = some clips)
    (hlayers : ∀ c ∈ clips, c.layers.isSome = true)
    (hvideo : ∀ s ∈ videoSegmentsOf clips (some 0),
      s.path.isSome = true ∧ env.existsSync (segmentFile s) = true)
    (haudio : ∀ s ∈ audioSegmentsOf clips (some 0), s.path.isSome = true) :
    ∃ plan, (editlyFormatPlan env jobData tempId).result = .ok plan ∧
      plan.videoSegments.map (fun s => s.path) =
        (clips.filterMap firstImageLayer).map (fun l => l.path) ∧
      ∀ run : EncoderRun, run.exit = .close (some 0) →
        (processEditlyFormat env jobData tempId run).result = .ok (outputPathOf jobData tempId) := by
  obtain ⟨plan, hplan, hsegs, _⟩ :=
    editlyFormatPlan_ok env jobData clips tempId hclips hlayers hvideo haudio
  refine ⟨plan, hplan, by rw [hsegs, videoSegmentsOf_paths], fun run hrun => ?_⟩
  simp [processEditlyFormat, hplan, executeFFmpeg, hrun]

/-- Witness for C8 (amended): an image clip followed by a clip that has only an audio layer. -/
theorem processEditlyFormat_skips_imageless_clips_witness :
    ∃ plan, (editlyFormatPlan ⟨false, fun _ => true⟩
        { isEditlyFormat := some true
          clips := some
            [{ duration := some 3
               layers := some [some { type := some "image", path := some "a.png" }] },
             { duration := some 2
               layers := some [some { type := some "audio", path := some "b.mp3" }] }] }
        "t").result = .ok plan ∧
      plan.videoSegments.map (fun s => s.path) =
        (List.filterMap firstImageLayer
          [{ duration := some 3
             layers := some [some { type := some "image", path := some "a.png" }] },
           { duration := some 2
             layers := some [some { type := some "audio", path := some "b.mp3" }] }]).map
          (fun l => l.path) ∧
      ∀ run : EncoderRun, run.exit = .close (some 0) →
        (processEditlyFormat ⟨false, fun _ => true⟩
          { isEditlyFormat := some true
            clips := some
              [{ duration := some 3
                 layers := some [some { type := some "image", path := some "a.png" }] },
               { duration := some 2
                 layers := some [some { type := some "audio", path := some "b.mp3" }] }] }
          "t" run).result =
          .ok (outputPathOf
            { isEditlyFormat := some true
              clips := some
                [{ duration := some 3
                   layers := some [some { type := some "image", path := some "a.png" }] },
                 { duration := some 2
                   layers := some [some { type := some "audio", path := some "b.mp3" }] }] }
            "t") :=
  processEditlyFormat_skips_imageless_clips ⟨false, fun _ => true⟩ _ _ "t" rfl
    (by decide) (by decide) (by decide)

/-! ### The progress value computed after each chunk -/

theorem findMarker_mem_allMarkers (lit cs : List Char) (v : Clock)
    (h : findMarker lit cs = some v) : v ∈ allMarkers lit cs := by
  induction cs with
  | nil => simp [findMarker] at h
  | cons c cs ih =>
    rw [findMarker] at h
    rw [allMarkers]
    cases hm : markerHere lit (c :: cs) with
    | none =>
      simp only [hm] at h ⊢
      exact ih h
    | some w =>
      simp only [hm, Option.some.injEq] at h ⊢
      simp [h]

theorem runChunks_append (chunks : List String) (data : String) :
    runChunks (chunks ++ [data]) = (onData (runChunks chunks) data).state := by
  simp [runChunks, List.foldl_append]

theorem onData_state_duration (st : ProgressState) (data : String) :
    (onData st data).state.duration = nextDuration st.duration (st.stderr ++ data) := by
  simp only [onData]
  split
  · split
    · split
      · split <;> rfl
      · rfl
    · rfl
  · rfl

theorem onData_state_stderr (st : ProgressState) (data : String) :
    (onData st data).state.stderr = st.stderr ++ data := by
  simp only [onData]
  split
  · split
    · split
      · split <;> rfl
      · rfl
    · rfl
  · rfl

theorem computed_value_of_onData {st : ProgressState} {data : String} {p : Nat}
    (h : (onData st data).computed = some p) :
    ∃ position, findMarker timeLit (st.stderr ++ data).data = some position ∧
      (onData st data).state.duration.isPositive = true ∧
      minHundred (percentOf (clockNumber position) (onData st data).state.duration) =
        some p := by
  rw [onData_state_duration]
  simp only [onData] at h
  generalize findMarker timeLit (st.stderr ++ data).data = tm at h ⊢
  generalize nextDuration st.duration (st.stderr ++ data) = dur at h ⊢
  cases tm with
  | none => exact absurd h (by simp)
  | some t =>
    simp only at h
    by_cases hd : dur.isPositive = true
    · simp only [hd, if_true] at h
      refine ⟨t, rfl, hd, ?_⟩
      cases hm : minHundred (percentOf (clockNumber t) dur) with
      | none =>
        simp only [hm] at h
        exact absurd h (by simp)
      | some q =>
        simp only [hm] at h
        by_cases hlt : q > st.lastProgress
        · simp only [hlt, if_true, Option.some.injEq] at h
          rw [h]
        · simp only [hlt, if_false, Option.some.injEq] at h
          rw [h]
    · simp only [hd] at h
      exact absurd h (by simp)

/-- The stored duration is `0` or the value of the first duration marker of the text made of
the first `k` chunks, for some `k`. -/
theorem runChunks_duration (chunks : List String) :
    (runChunks chunks).duration = .finite 0 ∨
      ∃ k, k ≤ chunks.length ∧ ∃ marker,
        findMarker durationLit (runChunks (chunks.take k)).stderr.data = some marker ∧
        clockNumber marker = (runChunks chunks).duration := by
  induction chunks using List.reverseRecOn with
  | nil => left; rfl
  | append_singleton chunks data ih =>
    rw [runChunks_append, onData_state_duration]
    unfold nextDuration
    cases hf : findMarker durationLit ((runChunks chunks).stderr ++ data).data with
    | none =>
      simp only
      rcases ih with h0 | ⟨k, hk, marker, hfound, hval⟩
      · exact Or.inl h0
      · refine Or.inr ⟨k, by simp; omega, marker, ?_, hval⟩
        rw [List.take_append_of_le_length hk]
        exact hfound
    | some d =>
      simp only
      by_cases h0 : (runChunks chunks).duration = .finite 0
      · simp only [h0, if_true]
        refine Or.inr ⟨chunks.length + 1, by simp, d, ?_, rfl⟩
        have : (chunks ++ [data]).take (chunks.length + 1) = chunks ++ [data] := by
          apply List.take_of_length_le
          simp
        rw [this, runChunks_append, onData_state_stderr]
        exact hf
      · simp only [h0, if_false]
        rcases ih with h0' | ⟨k, hk, marker, hfound, hval⟩
        · exact absurd h0' h0
        · refine Or.inr ⟨k, by simp; omega, marker, ?_, hval⟩
          rw [List.take_append_of_le_length hk]
          exact hfound

/-- C4, counterexample: with a duration marker of 8 s and a single position marker of 16 s the
handler computes 100, whereas `floor(position / duration * 100)` is 200. -/
theorem onData_clamps_progress :
    (onData (runChunks ["Duration: 00:00:08.00"]) " time=00:00:16.00").computed = some 100 ∧
    claimedProgress (onData (runChunks ["Duration: 00:00:08.00"]) " time=00:00:16.00").state.stderr =
      some 200 := by
  decide

/-- C4, amended: whenever the `data` handler of `executeFFmpeg` computes a progress value after
a chunk, that value is `Math.min(100, Math.floor((position / duration) * 100))` evaluated in
double arithmetic, where `duration` is the stored duration, which is positive and is the
value of the first duration marker of the text received up to some chunk, and `position` is
the value of a position (`time=`) marker of the text received so far; the value of a marker
is `parseInt(hours) * 3600 + parseInt(minutes) * 60 + parseFloat(seconds)`, in double
arithmetic as well. -/
theorem onData_computed_clamped_percentage (chunks : List String) (data : String) (p : Nat)
    (h : (onData (runChunks chunks) data).computed = some p) :
    ∃ position duration,
      position ∈ allMarkers timeLit (runChunks (chunks ++ [data])).stderr.data ∧
      duration = (runChunks (chunks ++ [data])).duration ∧
      duration.isPositive = true ∧
      (∃ k, k ≤ chunks.length + 1 ∧ ∃ marker,
        findMarker durationLit (runChunks ((chunks ++ [data]).take k)).stderr.data =
          some marker ∧
        clockNumber marker = duration) ∧
      minHundred (((clockNumber position).div duration).mul (JsNumber.ofNat 100)).floor =
        some p := by
  obtain ⟨position, hpos, hdur, hp⟩ := computed_value_of_onData h
  refine ⟨position, (runChunks (chunks ++ [data])).duration, ?_, rfl, ?_, ?_, ?_⟩
  · rw [runChunks_append, onData_state_stderr]
    exact findMarker_mem_allMarkers _ _ _ hpos
  · rw [runChunks_append]
    exact hdur
  · rcases runChunks_duration (chunks ++ [data]) with h0 | ⟨k, hk, marker, hfound, hval⟩
    · rw [runChunks_append] at h0
      rw [h0] at hdur
      exact absurd hdur (by decide)
    · exact ⟨k, by simpa using hk, marker, hfound, hval⟩
  · rw [runChunks_append]
    exact hp

/-- Witness for C4 (amended): a duration marker of 10 s, then a position marker of 2.90 s;
in double arithmetic the value is 28. -/
theorem onData_computed_clamped_percentage_witness :
    ∃ position duration,
      position ∈ allMarkers timeLit
        (runChunks (["Duration: 00:00:10.00"] ++ [" time=00:00:02.90"])).stderr.data ∧
      duration = (runChunks (["Duration: 00:00:10.00"] ++ [" time=00:00:02.90"])).duration ∧
      duration.isPositive = true ∧
      (∃ k, k ≤ ["Duration: 00:00:10.00"].length + 1 ∧ ∃ marker,
        findMarker durationLit
          (runChunks ((["Duration: 00:00:10.00"] ++ [" time=00:00:02.90"]).take k)).stderr.data =
          some marker ∧
        clockNumber marker = duration) ∧
      minHundred (((clockNumber position).div duration).mul (JsNumber.ofNat 100)).floor =
        some 28 :=
  onData_computed_clamped_percentage ["Duration: 00:00:10.00"] " time=00:00:02.90" 28
    (by decide)

/-- The double arithmetic of the handler is not the exact one: for a duration of 10.00 s and
a position of 2.90 s the quotient times 100 is `28.999999999999996`, so the handler computes
28 where the exact `floor(position / duration * 100)` is 29. -/
theorem onData_rounds_below_exact_floor :
    (onData (runChunks ["Duration: 00:00:10.00"]) " time=00:00:02.90").computed = some 28 ∧
    claimedProgress (onData (runChunks ["Duration: 00:00:10.00"]) " time=00:00:02.90").state.stderr =
      some 29 := by
  decide

/-! ### Missing media files -/

theorem strTruthy_strOr (a b : Option String) :
    strTruthy (strOr a b) = (strTruthy a || strTruthy b) := by
  unfold strOr
  cases h : strTruthy a <;> simp [h]

theorem createConcatLoop_missing (existsSync : String → Bool) (clips : List Clip) (acc : String)
    (hpath : ∀ c ∈ clips, strTruthy (strOr c.imagePath c.path) = true)
    (hmiss : ∃ c ∈ clips, existsSync (clipImageFile c) = false) :
    ∃ c ∈ clips, existsSync (clipImageFile c) = false ∧
      createConcatLoop existsSync clips acc =
        .error (.error ("Image file not found: " ++ clipImageFile c)) := by
  induction clips generalizing acc with
  | nil => simp at hmiss
  | cons c cs ih =>
    obtain ⟨p, hp, hne⟩ := strOr_of_truthy (hpath c (List.mem_cons_self _ _))
    rw [createConcatLoop]
    simp only [hp, hne, if_false]
    cases hex : existsSync (pathJoin "/uploads" p) with
    | false =>
      refine ⟨c, List.mem_cons_self _ _, ?_, ?_⟩
      · simpa [clipImageFile, hp] using hex
      · simp [clipImageFile, hp]
    | true =>
      have hrest : ∃ c' ∈ cs, existsSync (clipImageFile c') = false := by
        obtain ⟨c', hc', hmc⟩ := hmiss
        rcases List.mem_cons.mp hc' with rfl | hin
        · simp [clipImageFile, hp, hex] at hmc
        · exact ⟨c', hin, hmc⟩
      obtain ⟨c', hc', hmc, hres⟩ :=
        ih _ (fun c hc => hpath c (List.mem_cons_of_mem _ hc)) hrest
      refine ⟨c', List.mem_cons_of_mem _ hc', hmc, ?_⟩
      simpa using hres

theorem videoInputsLoop_missing (existsSync : String → Bool) (clips : List Clip)
    (args : List String)
    (hpath : ∀ c ∈ clips, strTruthy (strOr c.path c.imagePath) = true)
    (hmiss : ∃ c ∈ clips, existsSync (clipVideoFile c) = false) :
    ∃ c ∈ clips, existsSync (clipVideoFile c) = false ∧
      videoInputsLoop existsSync clips args =
        .error (.error ("Video file not found: " ++ clipVideoFile c)) := by
  induction clips generalizing args with
  | nil => simp at hmiss
  | cons c cs ih =>
    obtain ⟨p, hp, _⟩ := strOr_of_truthy (hpath c (List.mem_cons_self _ _))
    rw [videoInputsLoop]
    simp only [hp]
    cases hex : existsSync (pathJoin "/uploads" p) with
    | false =>
      refine ⟨c, List.mem_cons_self _ _, ?_, ?_⟩
      · simpa [clipVideoFile, hp] using hex
      · simp [clipVideoFile, hp]
    | true =>
      have hrest : ∃ c' ∈ cs, existsSync (clipVideoFile c') = false := by
        obtain ⟨c', hc', hmc⟩ := hmiss
        rcases List.mem_cons.mp hc' with rfl | hin
        · simp [clipVideoFile, hp, hex] at hmc
        · exact ⟨c', hin, hmc⟩
      obtain ⟨c', hc', hmc, hres⟩ :=
        ih _ (fun c hc => hpath c (List.mem_cons_of_mem _ hc)) hrest
      refine ⟨c', List.mem_cons_of_mem _ hc', hmc, ?_⟩
      simpa using hres

theorem editlyConcatLoop_missing (existsSync : String → Bool) (segments : List VideoSegment)
    (acc : String) (hpath : ∀ s ∈ segments, s.path.isSome = true)
    (hmiss : ∃ s ∈ segments, existsSync (segmentFile s) = false) :
    ∃ s ∈ segments, existsSync (segmentFile s) = false ∧
      editlyConcatLoop existsSync segments acc =
        .error (.error ("Image file not found: " ++ segmentFile s)) := by
  induction segments generalizing acc with
  | nil => simp at hmiss
  | cons x xs ih =>
    obtain ⟨p, hp⟩ := Option.isSome_iff_exists.mp (hpath x (List.mem_cons_self _ _))
    rw [editlyConcatLoop]
    simp only [hp]
    cases hex : existsSync (resolveImagePath p) with
    | false =>
      refine ⟨x, List.mem_cons_self _ _, ?_, ?_⟩
      · simpa [segmentFile, hp] using hex
      · simp [segmentFile, hp]
    | true =>
      have hrest : ∃ s ∈ xs, existsSync (segmentFile s) = false := by
        obtain ⟨s, hs, hms⟩ := hmiss
        rcases List.mem_cons.mp hs with rfl | hin
        · simp [segmentFile, hp, hex] at hms
        · exact ⟨s, hin, hms⟩
      obtain ⟨s, hs, hms, hres⟩ :=
        ih _ (fun s hs => hpath s (List.mem_cons_of_mem _ hs)) hrest
      refine ⟨s, List.mem_cons_of_mem _ hs, hms, ?_⟩
      simpa using hres

theorem simpleFormatArgs_missing (env : WorkerEnv) (jobData : JobData) (clips : List Clip)
    (tempId : String)
    (hpath : ∀ c ∈ clips, (strTruthy c.path || strTruthy c.imagePath) = true)
    (hmiss : ∃ c ∈ clips, env.existsSync (simpleClipFile (clips.any isVideoClip) c) = false) :
    ∃ c ∈ clips, env.existsSync (simpleClipFile (clips.any isVideoClip) c) = false ∧
      simpleFormatArgs env jobData clips tempId =
        .error (.error (notFoundMessage (clips.any isVideoClip)
          (simpleClipFile (clips.any isVideoClip) c))) := by
  unfold simpleFormatArgs
  cases hv : clips.any isVideoClip with
  | true =>
    rw [hv] at hmiss
    simp only [simpleClipFile, if_true] at hmiss ⊢
    obtain ⟨c, hc, hmc, hres⟩ := videoInputsLoop_missing env.existsSync clips []
      (fun c hc => by rw [strTruthy_strOr]; exact hpath c hc) hmiss
    exact ⟨c, hc, hmc, by simp [buildVideoFFmpegCommand, hres, notFoundMessage]⟩
  | false =>
    rw [hv] at hmiss
    simp only [simpleClipFile] at hmiss ⊢
    obtain ⟨c, hc, hmc, hres⟩ := createConcatLoop_missing env.existsSync clips ""
      (fun c hc => by rw [strTruthy_strOr, Bool.or_comm]; exact hpath c hc) hmiss
    exact ⟨c, hc, hmc, by simp [createConcatFile, hres, notFoundMessage]⟩

/-- C9, counterexample: a simple job whose audio track `music.mp3` is absent from the uploads
root is synthesized and encoded all the same (the plan simply carries `-an`). -/
theorem processVideo_missing_audio_still_encodes :
    (fun p => p == "/uploads/a.jpg") (pathJoin "/uploads" "music.mp3") = false ∧
    (processVideo ⟨false, fun p => p == "/uploads/a.jpg"⟩
        { clips := some [{ path := some "a.jpg", duration := some 3 }]
          audioFilePath := some "music.mp3" }
        "t" ⟨[], .close (some 0), some 10, 3⟩).spawned =
      [["-f", "concat", "-safe", "0", "-i", "/tmp/concat_t.txt",
        "-c:v", "libx264", "-preset", "veryfast", "-crf", "23", "-profile:v", "main",
        "-level", "4.1", "-bf", "3", "-g", "60", "-an",
        "-vf", "scale=1080:1920:force_original_aspect_ratio=decrease,pad=1080:1920:(ow-iw)/2:(oh-ih)/2",
        "-r", "30", "-pix_fmt", "yuv420p", "-movflags", "+faststart", "-y",
        "/outputs/video_t.mp4"]] ∧
    (processVideo ⟨false, fun p => p == "/uploads/a.jpg"⟩
        { clips := some [{ path := some "a.jpg", duration := some 3 }]
          audioFilePath := some "music.mp3" }
        "t" ⟨[], .close (some 0), some 10, 3⟩).result.toBool = true := by
  decide

/-- C9, amended: (simple format) if every clip carries a path and the file the pipeline reads
for some clip (its video file on the video plan, its image file on the image plan) is absent,
`processVideo` fails with the not-found error for an absent clip file and hands no arguments
to the encoder; (layered format) if every clip has a `layers` array, every selected image
layer carries a path and the file of some video segment is absent, `processVideo` fails with
the not-found error for an absent segment file and hands no arguments to the encoder. -/
theorem processVideo_missing_visual_file (env : WorkerEnv) (jobData : JobData)
    (clips : List Clip) (tempId : String) (run : EncoderRun)
    (hclips : jobData.clips = some clips) :
    (jobData.isEditlyFormat.getD false = false →
      (∀ c ∈ clips, (strTruthy c.path || strTruthy c.imagePath) = true) →
      (∃ c ∈ clips, env.existsSync (simpleClipFile (clips.any isVideoClip) c) = false) →
      ∃ c ∈ clips, env.existsSync (simpleClipFile (clips.any isVideoClip) c) = false ∧
        (processVideo env jobData tempId run).result =
          .error (.error (notFoundMessage (clips.any isVideoClip)
            (simpleClipFile (clips.any isVideoClip) c))) ∧
        (processVideo env jobData tempId run).spawned = []) ∧
    (jobData.isEditlyFormat.getD false = true →
      (∀ c ∈ clips, c.layers.isSome = true) →
      (∀ s ∈ videoSegmentsOf clips (some 0), s.path.isSome = true) →
      (∃ s ∈ videoSegmentsOf clips (some 0), env.existsSync (segmentFile s) = false) →
      ∃ s ∈ videoSegmentsOf clips (some 0), env.existsSync (segmentFile s) = false ∧
        (processVideo env jobData tempId run).result =
          .error (.error ("Image file not found: " ++ segmentFile s)) ∧
        (processVideo env jobData tempId run).spawned = []) := by
  constructor
  · intro hfmt hpath hmiss
    have hne : clips.length ≠ 0 := by
      obtain ⟨c, hc, _⟩ := hmiss
      exact List.length_pos_iff_ne_nil.mpr (List.ne_nil_of_mem hc) |>.ne'
    obtain ⟨c, hc, hmc, hres⟩ := simpleFormatArgs_missing env jobData clips tempId hpath hmiss
    refine ⟨c, hc, hmc, ?_⟩
    simp [processVideo, hclips, hne, hfmt, processSimpleFormat, hres]
  · intro hfmt hlayers hpath hmiss
    have hne : clips.length ≠ 0 := by
      intro h0
      have : clips = [] := List.length_eq_zero.mp h0
      subst this
      obtain ⟨s, hs, _⟩ := hmiss
      simp [videoSegmentsOf] at hs
    obtain ⟨s, hs, hms, hres⟩ :=
      editlyConcatLoop_missing env.existsSync (videoSegmentsOf clips (some 0)) "" hpath hmiss
    refine ⟨s, hs, hms, ?_⟩
    simp [processVideo, hclips, hne, hfmt, processEditlyFormat, editlyFormatPlan,
      extractSegments_ok clips [] [] (some 0) hlayers, createEditlyVideoConcat, hres]

/-- Witness for C9 (amended): a simple job and a layered job, each naming an absent image. -/
theorem processVideo_missing_visual_file_witness :
    (∃ c ∈ [({ path := some "a.jpg" } : Clip)],
        (fun _ => false) (simpleClipFile (List.any [({ path := some "a.jpg" } : Clip)] isVideoClip) c)
          = false ∧
        (processVideo ⟨false, fun _ => false⟩ { clips := some [{ path := some "a.jpg" }] } "t"
          ⟨[], .close (some 0), none, 0⟩).result =
          .error (.error (notFoundMessage (List.any [({ path := some "a.jpg" } : Clip)] isVideoClip)
            (simpleClipFile (List.any [({ path := some "a.jpg" } : Clip)] isVideoClip) c))) ∧
        (processVideo ⟨false, fun _ => false⟩ { clips := some [{ path := some "a.jpg" }] } "t"
          ⟨[], .close (some 0), none, 0⟩).spawned = []) ∧
    (∃ s ∈ videoSegmentsOf
          [{ duration := some 3
             layers := some [some { type := some "image", path := some "a.png" }] }] (some 0),
        (fun _ => false) (segmentFile s) = false ∧
        (processVideo ⟨false, fun _ => false⟩
          { isEditlyFormat := some true
            clips := some [{ duration := some 3
                             layers := some [some { type := some "image", path := some "a.png" }] }] }
          "t" ⟨[], .close (some 0), none, 0⟩).result =
          .error (.error ("Image file not found: " ++ segmentFile s)) ∧
        (processVideo ⟨false, fun _ => false⟩
          { isEditlyFormat := some true
            clips := some [{ duration := some 3
                             layers := some [some { type := some "image", path := some "a.png" }] }] }
          "t" ⟨[], .close (some 0), none, 0⟩).spawned = []) :=
  ⟨(processVideo_missing_visual_file ⟨false, fun _ => false⟩
      { clips := some [{ path := some "a.jpg" }] } [{ path := some "a.jpg" }] "t"
      ⟨[], .close (some 0), none, 0⟩ rfl).1 rfl (by decide) (by decide),
   (processVideo_missing_visual_file ⟨false, fun _ => false⟩
      { isEditlyFormat := some true
        clips := some [{ duration := some 3
                         layers := some [some { type := some "image", path := some "a.png" }] }] }
      [{ duration := some 3
         layers := some [some { type := some "image", path := some "a.png" }] }] "t"
      ⟨[], .close (some 0), none, 0⟩ rfl).2 rfl (by decide) (by decide) (by decide)⟩

/-! ### Supporting facts -/

theorem scaleProgress_le {p : Nat} (h : p ≤ 100) : 20 + scaleProgress p ≤ 100 := by
  unfold scaleProgress
  split <;> omega

theorem executeFFmpeg_reports_le (args : List String) (run : EncoderRun) :
    ∀ p ∈ (executeFFmpeg args run).reports, p ≤ 100 := by
  intro p hp
  unfold executeFFmpeg at hp
  cases hx : run.exit with
  | spawnError m => simp [hx] at hp
  | close code =>
    simp only [hx] at hp
    exact (reportsFrom_bounds run.chunks {} p hp).2

theorem processSimpleFormat_reports_le (env : WorkerEnv) (jobData : JobData) (tempId : String)
    (run : EncoderRun) : ∀ p ∈ (processSimpleFormat env jobData tempId run).reports, p ≤ 100 := by
  intro p hp
  unfold processSimpleFormat at hp
  split at hp
  · simp at hp
  · split at hp
    · simp at hp
      omega
    · simp only at hp
      split at hp <;>
      · simp only [List.cons_append, List.nil_append, List.mem_cons] at hp
        rcases hp with rfl | rfl | hp
        · omega
        · omega
        · exact executeFFmpeg_reports_le _ _ p hp

theorem editlyFormatPlan_reports_le (env : WorkerEnv) (jobData : JobData) (tempId : String) :
    ∀ p ∈ (editlyFormatPlan env jobData tempId).reports, p ≤ 100 := by
  intro p hp
  unfold editlyFormatPlan at hp
  simp only at hp
  split at hp
  · simp at hp
  · split at hp
    · simp at hp
    · split at hp
      · simp at hp
        omega
      · split at hp
        · simp at hp
          omega
        · simp at hp
          omega

theorem processEditlyFormat_reports_le (env : WorkerEnv) (jobData : JobData) (tempId : String)
    (run : EncoderRun) : ∀ p ∈ (processEditlyFormat env jobData tempId run).reports, p ≤ 100 := by
  intro p hp
  unfold processEditlyFormat at hp
  simp only at hp
  split at hp
  · exact editlyFormatPlan_reports_le env jobData tempId p hp
  · split at hp <;>
    · simp only [List.mem_append] at hp
      rcases hp with hp | hp
      · exact editlyFormatPlan_reports_le env jobData tempId p hp
      · exact executeFFmpeg_reports_le _ _ p hp

theorem processVideo_reports_le (env : WorkerEnv) (jobData : JobData) (tempId : String)
    (run : EncoderRun) : ∀ p ∈ (processVideo env jobData tempId run).reports, p ≤ 100 := by
  have hinner : ∀ p ∈ (if jobData.isEditlyFormat.getD false = true
      then processEditlyFormat env jobData tempId run
      else processSimpleFormat env jobData tempId run).reports, p ≤ 100 := by
    intro p hp
    split at hp
    · exact processEditlyFormat_reports_le env jobData tempId run p hp
    · exact processSimpleFormat_reports_le env jobData tempId run p hp
  intro p hp
  unfold processVideo at hp
  simp only at hp
  split at hp
  · simp at hp
  · split at hp
    · simp at hp
    · split at hp
      · simp only [List.mem_cons] at hp
        rcases hp with rfl | hp
        · omega
        · exact hinner p hp
      · split at hp <;>
        · simp only [List.cons_append, List.mem_cons, List.mem_append, List.not_mem_nil,
            or_false] at hp
          rcases hp with rfl | hp | rfl
          · omega
          · exact hinner p hp
          · omega

/-- Every value the worker writes to a job's progress lies within 0..100. -/
theorem processJob_progress_in_range (env : WorkerEnv) (data : JobData) (tempId : String)
    (run : EncoderRun) : ∀ w ∈ (processJob env data tempId run).progressWrites, w ≤ 100 := by
  intro w hw
  unfold processJob at hw
  split at hw
  · simp at hw
    omega
  · simp only at hw
    have hmid : ∀ w ∈ (processVideo env data tempId run).reports.map
        (fun progress => 20 + scaleProgress progress), w ≤ 100 := by
      intro w hw
      obtain ⟨p, hp, rfl⟩ := List.mem_map.mp hw
      exact scaleProgress_le (processVideo_reports_le env data tempId run p hp)
    split at hw
    · simp only [List.cons_append, List.nil_append, List.mem_cons] at hw
      rcases hw with rfl | rfl | hw
      · omega
      · omega
      · exact hmid w hw
    · simp only [List.cons_append, List.nil_append, List.mem_cons, List.mem_append,
        List.not_mem_nil, or_false] at hw
      rcases hw with rfl | rfl | hw | rfl | rfl
      · omega
      · omega
      · exact hmid w hw
      · omega
      · omega

theorem mem_bullInsert {job w : QueuedJob} {queue : BullQueue} (h : w ∈ bullInsert job queue) :
    w = job ∨ w ∈ queue := by
  induction queue with
  | nil => simpa [bullInsert] using h
  | cons x xs ih =>
    rw [bullInsert] at h
    split at h
    · rcases List.mem_cons.mp h with rfl | h
      · exact Or.inr (List.mem_cons_self _ _)
      · rcases ih h with rfl | h
        · exact Or.inl rfl
        · exact Or.inr (List.mem_cons_of_mem _ h)
    · rcases List.mem_cons.mp h with rfl | h
      · exact Or.inl rfl
      · exact Or.inr h

theorem bullInsert_sorted (job : QueuedJob) (queue : BullQueue)
    (h : queue.Pairwise (fun a b => a.opts.priority ≤ b.opts.priority)) :
    (bullInsert job queue).Pairwise (fun a b => a.opts.priority ≤ b.opts.priority) := by
  induction queue with
  | nil => simp [bullInsert]
  | cons x xs ih =>
    rw [bullInsert]
    obtain ⟨hx, hxs⟩ := List.pairwise_cons.mp h
    split
    · rename_i hle
      refine List.pairwise_cons.mpr ⟨fun w hw => ?_, ih hxs⟩
      rcases mem_bullInsert hw with rfl | hw
      · exact hle
      · exact hx w hw
    · rename_i hgt
      refine List.pairwise_cons.mpr ⟨fun w hw => ?_, h⟩
      rcases List.mem_cons.mp hw with rfl | hw
      · omega
      · have := hx w hw
        omega

theorem enqueueAll_append (jobs : List JobData) (jobData : JobData) :
    enqueueAll (jobs ++ [jobData]) = addJob bullAdd (enqueueAll jobs) jobData := by
  simp [enqueueAll, List.foldl_append]

theorem enqueueAll_invariant (jobs : List JobData) :
    (enqueueAll jobs).Pairwise (fun a b => a.opts.priority ≤ b.opts.priority) ∧
      ∀ w ∈ enqueueAll jobs, w.opts = addJobOptions w.data := by
  induction jobs using List.reverseRecOn with
  | nil => simp [enqueueAll]
  | append_singleton jobs jobData ih =>
    rw [enqueueAll_append]
    unfold addJob bullAdd
    split
    · exact ih
    · refine ⟨bullInsert_sorted _ _ ih.1, fun w hw => ?_⟩
      rcases mem_bullInsert hw with rfl | hw
      · rfl
      · exact ih.2 w hw

/-- In the waiting list built through `addJob`, no job with `gpu = true` stands ahead of a job
without it: a waiting CPU job is always taken before a waiting GPU job. -/
theorem enqueueAll_gpu_never_ahead_of_cpu (jobs : List JobData) :
    (enqueueAll jobs).Pairwise
      (fun a b => ¬ (a.data.gpu = some true ∧ b.data.gpu ≠ some true)) := by
  obtain ⟨hsorted, hopts⟩ := enqueueAll_invariant jobs
  refine List.Pairwise.imp_of_mem ?_ hsorted
  intro a b ha hb hle ⟨hga, hgb⟩
  rw [hopts a ha, hopts b hb] at hle
  simp [addJobOptions, hga, hgb] at hle

/-- The sibling builder on the input on which `buildFFmpegCommand` goes wrong: with
`/uploads/music.mp3` present `buildVideoFFmpegCommand` attaches the audio input, maps it and
encodes it with `-shortest`, without `-an`. -/
theorem buildVideoFFmpegCommand_audio_input_with_shortest :
    buildVideoFFmpegCommand (fun p => p == "/uploads/music.mp3" || p == "/uploads/a.mp4")
        [{ path := some "a.mp4", duration := some 3 }]
        (some "music.mp3") "/outputs/video_t.mp4" 1080 1920 30 false =
      .ok ["-i", "/uploads/a.mp4", "-i", "/uploads/music.mp3", "-filter_complex",
        "[0:v]trim=0:3,setpts=PTS-STARTPTS,scale=1080:1920:force_original_aspect_ratio=decrease,pad=1080:1920:(ow-iw)/2:(oh-ih)/2[v0];[v0]concat=n=1:v=1:a=0[outv]",
        "-map", "[outv]", "-map", "1:a",
        "-c:v", "libx264", "-preset", "veryfast", "-crf", "23", "-profile:v", "main",
        "-level", "4.1", "-bf", "3", "-g", "60",
        "-c:a", "aac", "-b:a", "128k", "-ar", "44100", "-shortest",
        "-r", "30", "-pix_fmt", "yuv420p", "-movflags", "+faststart", "-y",
        "/outputs/video_t.mp4"] := by
  decide

/-- The position marker read is the first one of the accumulated text: with a duration of 8 s
and position markers of 1 s and then 4 s, the value computed after the last chunk is 12, where
the most recent marker would give 50. -/
theorem onData_reads_first_position_marker :
    (onData (runChunks ["Duration: 00:00:08.00", " time=00:00:01.00"])
        " time=00:00:04.00").computed = some 12 ∧
    claimedProgress
        (onData (runChunks ["Duration: 00:00:08.00", " time=00:00:01.00"])
          " time=00:00:04.00").state.stderr = some 50 := by
  decide

/-- On a queue that dequeues the highest priority value first, as the specification words
it, the same three jobs would be taken in the order GPU1, GPU2, CPU. -/
theorem addJob_order_on_spec_queue :
    dequeueOrder
      (addJob specAdd
        (addJob specAdd
          (addJob specAdd [] { id := some "cpu", gpu := some false })
          { id := some "gpu1", gpu := some true })
        { id := some "gpu2", gpu := some true })
      = [some "gpu1", some "gpu2", some "cpu"] := by
  decide

/-! ### Choice between the video plan and the image plan -/

theorem isVideoClip_iff (clip : Clip) :
    isVideoClip clip = true ↔
      ∃ p, strOr clip.path clip.imagePath = some p ∧ containsVideoMarker p = true := by
  unfold isVideoClip containsVideoMarker
  cases h : strOr clip.path clip.imagePath with
  | none => simp
  | some p =>
    simp only [Option.some.injEq, exists_eq_left', Bool.and_eq_true, bne_iff_ne, ne_eq,
      and_iff_right_iff_imp]
    intro hc hp
    subst hp
    revert hc
    decide

/-- C11, counterexample: the single clip `frame.mp4.jpg`, whose extension is `.jpg`, makes
`processSimpleFormat` build the filter-graph plan: no clip path has a video-file extension,
yet the arguments are those of `buildVideoFFmpegCommand` (they carry `-filter_complex`). -/
theorem simpleFormat_video_plan_without_video_extension :
    List.any [({ path := some "frame.mp4.jpg", duration := some 2 } : Clip)]
      (fun c => hasVideoExtension ((strOr c.path c.imagePath).getD "")) = false ∧
    simpleFormatArgs ⟨false, fun _ => true⟩ {} [{ path := some "frame.mp4.jpg", duration := some 2 }]
        "t" =
      videoConcatPlan ⟨false, fun _ => true⟩ {} [{ path := some "frame.mp4.jpg", duration := some 2 }]
        "t" ∧
    (simpleFormatArgs ⟨false, fun _ => true⟩ {} [{ path := some "frame.mp4.jpg", duration := some 2 }]
        "t").map (fun args => args.contains "-filter_complex") = .ok true := by
  decide

/-- C11, amended: for every simple-format clip list, `processSimpleFormat` builds the
filter-graph (video concatenation) plan if and only if the path of at least one clip
(`path || imagePath`) contains one of the texts `.mp4`, `.avi`, `.mov`, `.mkv`; otherwise it
builds the concat-list (image sequence) plan. -/
theorem simpleFormat_plan_choice (env : WorkerEnv) (jobData : JobData) (clips : List Clip)
    (tempId : String) :
    ((∃ c ∈ clips, ∃ p, strOr c.path c.imagePath = some p ∧ containsVideoMarker p = true) →
      simpleFormatArgs env jobData clips tempId = videoConcatPlan env jobData clips tempId) ∧
    ((¬ ∃ c ∈ clips, ∃ p, strOr c.path c.imagePath = some p ∧ containsVideoMarker p = true) →
      simpleFormatArgs env jobData clips tempId = imageSequencePlan env jobData clips tempId) := by
  have hany : clips.any isVideoClip = true ↔
      ∃ c ∈ clips, ∃ p, strOr c.path c.imagePath = some p ∧ containsVideoMarker p = true := by
    simp only [List.any_eq_true, isVideoClip_iff]
  constructor
  · intro h
    simp [simpleFormatArgs, videoConcatPlan, hany.mpr h]
  · intro h
    have hfalse : clips.any isVideoClip = false := by
      cases hb : clips.any isVideoClip with
      | false => rfl
      | true => exact absurd (hany.mp hb) h
    simp only [simpleFormatArgs, imageSequencePlan, hfalse]
    rfl

/-- Witness for C11 (amended): a list with a video clip, and a list of images. -/
theorem simpleFormat_plan_choice_witness :
    simpleFormatArgs ⟨false, fun _ => true⟩ {} [{ path := some "a.mp4" }] "t" =
      videoConcatPlan ⟨false, fun _ => true⟩ {} [{ path := some "a.mp4" }] "t" ∧
    simpleFormatArgs ⟨false, fun _ => true⟩ {} [{ path := some "a.jpg" }] "t" =
      imageSequencePlan ⟨false, fun _ => true⟩ {} [{ path := some "a.jpg" }] "t" :=
  ⟨(simpleFormat_plan_choice ⟨false, fun _ => true⟩ {} [{ path := some "a.mp4" }] "t").1
      ⟨_, List.mem_singleton.mpr rfl, "a.mp4", by decide, by decide⟩,
   (simpleFormat_plan_choice ⟨false, fun _ => true⟩ {} [{ path := some "a.jpg" }] "t").2
      (by
        rintro ⟨c, hc, p, hp, hm⟩
        rw [List.mem_singleton.mp hc] at hp
        have : p = "a.jpg" := by
          have h2 : strOr (some "a.jpg") none = some "a.jpg" := by decide
          exact (Option.some.inj (h2.symm.trans hp)).symm
        subst this
        revert hm
        decide)⟩

/-! ### The video concatenation plan -/

theorem videoInputsLoop_ok (existsSync : String → Bool) (clips : List Clip) (args : List String)
    (hpath : ∀ c ∈ clips, strTruthy (strOr c.path c.imagePath) = true)
    (hfile : ∀ c ∈ clips, existsSync (clipVideoFile c) = true) :
    videoInputsLoop existsSync clips args =
      .ok (args ++ (clips.map (fun c => ["-i", clipVideoFile c])).flatten) := by
  induction clips generalizing args with
  | nil => simp [videoInputsLoop]
  | cons c cs ih =>
    obtain ⟨p, hp, _⟩ := strOr_of_truthy (hpath c (List.mem_cons_self _ _))
    have hex := hfile c (List.mem_cons_self _ _)
    simp only [clipVideoFile, hp, Option.getD_some] at hex
    rw [videoInputsLoop]
    simp only [hp, hex, Bool.not_true]
    rw [if_neg (by simp), ih _ (fun c hc => hpath c (List.mem_cons_of_mem _ hc))
      (fun c hc => hfile c (List.mem_cons_of_mem _ hc))]
    simp [clipVideoFile, hp]

theorem videoChain_eq (width height i : Nat) (clip : Clip) :
    videoChain width height i clip =
      trimScalePadChain width height i (effectiveDuration clip) :=
  rfl

theorem videoChainsLoop_eq (width height : Nat) (clips : List Clip) (i : Nat) (acc : String) :
    videoChainsLoop width height clips i acc =
      acc ++ chainsFrom effectiveDuration width height i clips := by
  induction clips generalizing i acc with
  | nil => simp [videoChainsLoop, chainsFrom]
  | cons c cs ih =>
    rw [videoChainsLoop, ih, chainsFrom, videoChain_eq, String.append_assoc]

/-- C12, counterexample: for a clip with the declared duration 0 the chain trims to 5 seconds
(`trim=0:5`), not to the declared duration. -/
theorem buildVideoFFmpegCommand_zero_duration_trims_to_five :
    (buildVideoFFmpegCommand (fun _ => true) [{ path := some "a.mp4", duration := some 0 }]
        none "/outputs/video_t.mp4" 640 480 24 false).map (fun args => args.take 4) =
      .ok ["-i", "/uploads/a.mp4", "-filter_complex",
        "[0:v]trim=0:5,setpts=PTS-STARTPTS,scale=640:480:force_original_aspect_ratio=decrease,pad=640:480:(ow-iw)/2:(oh-ih)/2[v0];[v0]concat=n=1:v=1:a=0[outv]"] ∧
    videoFilterGraph declaredDuration 640 480 [{ path := some "a.mp4", duration := some 0 }] =
      "[0:v]trim=0:0,setpts=PTS-STARTPTS,scale=640:480:force_original_aspect_ratio=decrease,pad=640:480:(ow-iw)/2:(oh-ih)/2[v0];[v0]concat=n=1:v=1:a=0[outv]" := by
  decide

/-- The arguments `buildVideoFFmpegCommand` returns for clips whose files are present. -/
theorem buildVideoFFmpegCommand_ok (existsSync : String → Bool) (clips : List Clip)
    (audioPath : Option String) (outputPath : String) (width height fps : Nat) (useGpu : Bool)
    (hpath : ∀ c ∈ clips, strTruthy (strOr c.path c.imagePath) = true)
    (hfile : ∀ c ∈ clips, existsSync (clipVideoFile c) = true) :
    buildVideoFFmpegCommand existsSync clips audioPath outputPath width height fps useGpu =
      .ok ((clips.map (fun c => ["-i", clipVideoFile c])).flatten ++
        (if audioAttached existsSync audioPath
          then ["-i", pathJoin "/uploads" (audioPath.getD "")] else []) ++
        ["-filter_complex", videoFilterGraph effectiveDuration width height clips,
         "-map", "[outv]"] ++
        (if audioAttached existsSync audioPath
          then ["-map", toString clips.length ++ ":a"] else []) ++
        (if useGpu then gpuArgsVideo fps else cpuArgs fps) ++
        (if audioAttached existsSync audioPath then audioEncodeArgs else ["-an"]) ++
        ["-r", toString fps, "-pix_fmt", "yuv420p", "-movflags", "+faststart", "-y",
         outputPath]) := by
  unfold buildVideoFFmpegCommand
  rw [videoInputsLoop_ok existsSync clips [] hpath hfile]
  simp only [videoChainsLoop_eq, List.nil_append]
  have hgraph : "" ++ chainsFrom effectiveDuration width height 0 clips ++
      videoLabels clips.length ++ "concat=n=" ++ toString clips.length ++ ":v=1:a=0[outv]" =
      videoFilterGraph effectiveDuration width height clips := by
    simp [videoFilterGraph]
  rw [hgraph]
  cases audioPath with
  | none => cases useGpu <;> simp [audioAttached]
  | some a =>
    by_cases hne : a = ""
    · cases useGpu <;> simp [audioAttached, hne]
    · cases hex : existsSync (pathJoin "/uploads" a) <;> cases useGpu <;>
        simp [audioAttached, hne, hex]

/-- C12, amended: for every list of clips that carry a path to an existing file,
`buildVideoFFmpegCommand` succeeds; its arguments start with one `-i` per clip, in order (so
the i-th clip is input i), followed by the audio file as a further input when it is attached;
then comes `-filter_complex` with the graph made of one chain per clip, in order, that reads
`[i:v]`, trims to the clip's duration (5 when it is missing or zero), scales with
`force_original_aspect_ratio=decrease`, pads centred to `width x height` and writes `[v_i]`,
followed by a single concat over `[v0]`..`[v(n-1)]` with `n=n`, `v=1`, `a=0` writing `[outv]`;
`[outv]` is mapped, and the attached audio is mapped from input index n. -/
theorem buildVideoFFmpegCommand_plan (existsSync : String → Bool) (clips : List Clip)
    (audioPath : Option String) (outputPath : String) (width height fps : Nat) (useGpu : Bool)
    (hpath : ∀ c ∈ clips, strTruthy (strOr c.path c.imagePath) = true)
    (hfile : ∀ c ∈ clips, existsSync (clipVideoFile c) = true) :
    buildVideoFFmpegCommand existsSync clips audioPath outputPath width height fps useGpu =
      .ok ((clips.map (fun c => ["-i", clipVideoFile c])).flatten ++
        (if audioAttached existsSync audioPath
          then ["-i", pathJoin "/uploads" (audioPath.getD "")] else []) ++
        ["-filter_complex", videoFilterGraph effectiveDuration width height clips,
         "-map", "[outv]"] ++
        (if audioAttached existsSync audioPath
          then ["-map", toString clips.length ++ ":a"] else []) ++
        (if useGpu then gpuArgsVideo fps else cpuArgs fps) ++
        (if audioAttached existsSync audioPath then audioEncodeArgs else ["-an"]) ++
        ["-r", toString fps, "-pix_fmt", "yuv420p", "-movflags", "+faststart", "-y",
         outputPath]) :=
  buildVideoFFmpegCommand_ok existsSync clips audioPath outputPath width height fps useGpu hpath
    hfile

/-- Witness for C12 (amended): two video clips and an audio track, all present. -/
theorem buildVideoFFmpegCommand_plan_witness :
    buildVideoFFmpegCommand (fun _ => true)
        [{ path := some "a.mp4", duration := some 3 }, { path := some "b.mp4" }]
        (some "m.mp3") "/outputs/o.mp4" 640 480 24 false =
      .ok ((List.map (fun c => ["-i", clipVideoFile c])
          [{ path := some "a.mp4", duration := some 3 }, { path := some "b.mp4" }]).flatten ++
        (if audioAttached (fun _ => true) (some "m.mp3")
          then ["-i", pathJoin "/uploads" ((some "m.mp3" : Option String).getD "")] else []) ++
        ["-filter_complex", videoFilterGraph effectiveDuration 640 480
          [{ path := some "a.mp4", duration := some 3 }, { path := some "b.mp4" }],
         "-map", "[outv]"] ++
        (if audioAttached (fun _ => true) (some "m.mp3")
          then ["-map", toString
            [({ path := some "a.mp4", duration := some 3 } : Clip), { path := some "b.mp4" }].length
              ++ ":a"] else []) ++
        (if false = true then gpuArgsVideo 24 else cpuArgs 24) ++
        (if audioAttached (fun _ => true) (some "m.mp3") then audioEncodeArgs else ["-an"]) ++
        ["-r", toString 24, "-pix_fmt", "yuv420p", "-movflags", "+faststart", "-y",
         "/outputs/o.mp4"]) :=
  buildVideoFFmpegCommand_plan (fun _ => true) _ (some "m.mp3") "/outputs/o.mp4" 640 480 24 false
    (by decide) (by simp)

/-! ### Plans as lists of settings -/

theorem renderSettings_append (xs ys : List Setting) :
    renderSettings (xs ++ ys) = renderSettings xs ++ renderSettings ys := by
  simp [renderSettings]

theorem renderSettings_inputs (paths : List String) :
    renderSettings (paths.map (Setting.opt "-i")) =
      (paths.map (fun p => ["-i", p])).flatten := by
  induction paths with
  | nil => rfl
  | cons p ps ih =>
    simp only [renderSettings, List.map_cons, List.flatten_cons] at ih ⊢
    rw [ih]
    rfl

theorem buildFFmpegCommand_eq_settings (existsSync : String → Bool) (concatFile : String)
    (audioPath : Option String) (outputPath : String) (width height fps : Nat)
    (useGpu : Bool) :
    buildFFmpegCommand existsSync concatFile audioPath outputPath width height fps useGpu =
      renderSettings (imagePlanSettings existsSync concatFile audioPath outputPath width height
        fps useGpu) := by
  unfold buildFFmpegCommand imagePlanSettings
  cases audioPath with
  | none =>
    cases useGpu <;>
      simp [audioAttached, renderSettings, Setting.render, simpleEncoderSettings,
        simpleAudioSettings, gpuArgsImage, cpuArgs]
  | some a =>
    by_cases hne : a = ""
    · cases useGpu <;>
        simp [audioAttached, hne, renderSettings, Setting.render, simpleEncoderSettings,
          simpleAudioSettings, gpuArgsImage, cpuArgs]
    · cases h1 : existsSync (pathJoin "/uploads" a) <;> cases h2 : existsSync a <;>
        cases useGpu <;>
        simp [audioAttached, hne, h1, h2, renderSettings, Setting.render,
          simpleEncoderSettings, simpleAudioSettings, gpuArgsImage, cpuArgs, audioEncodeArgs]

theorem buildEditlyFFmpegCommand_eq_settings (videoConcatFile : String)
    (audioFilterComplex : Option AudioFilter) (outputPath : String) (width height fps : Nat)
    (useGpu : Bool) (customOutputArgs : Option (List String))
    (audioCodec audioBitrate videoCodec videoBitrate : String) :
    buildEditlyFFmpegCommand videoConcatFile audioFilterComplex outputPath width height fps
        useGpu customOutputArgs audioCodec audioBitrate videoCodec videoBitrate =
      renderSettings (editlyPlanSettings videoConcatFile audioFilterComplex width height fps
        useGpu audioCodec audioBitrate videoCodec videoBitrate) ++
      customOutputArgs.getD [] ++ ["-y", outputPath] := by
  have hin : ∀ af : AudioFilter,
      (if af.inputs.length > 0 then
        ["-f", "concat", "-safe", "0", "-i", videoConcatFile] ++
          (af.inputs.map (fun audioPath => ["-i", audioPath])).flatten
      else ["-f", "concat", "-safe", "0", "-i", videoConcatFile]) =
      ["-f", "concat", "-safe", "0", "-i", videoConcatFile] ++
        renderSettings (af.inputs.map (Setting.opt "-i")) := by
    intro af
    rw [renderSettings_inputs]
    split
    · rfl
    · rename_i h
      have : af.inputs = [] := by
        cases hl : af.inputs with
        | nil => rfl
        | cons x xs => simp [hl] at h
      simp [this]
  unfold buildEditlyFFmpegCommand editlyPlanSettings editlyInputSettings
  simp only [renderSettings_append]
  cases audioFilterComplex with
  | none =>
    cases hc : (useGpu && includes videoCodec "nvenc") <;> cases customOutputArgs <;>
      simp [hc, renderSettings, Setting.render, editlyEncoderSettings, editlyAudioSettings]
  | some af =>
    simp only [hin af]
    cases hc : (useGpu && includes videoCodec "nvenc") <;> cases customOutputArgs <;>
      cases hfc : (af.filterComplex != "") <;>
      simp [hc, hfc, renderSettings, Setting.render, editlyEncoderSettings,
        editlyAudioSettings, List.append_assoc]

theorem videoInputsLoop_of_ok (existsSync : String → Bool) (clips : List Clip)
    (args result : List String) (h : videoInputsLoop existsSync clips args = .ok result) :
    result = args ++ (clips.map (fun c => ["-i", clipVideoFile c])).flatten := by
  induction clips generalizing args with
  | nil =>
    simp only [videoInputsLoop, Except.ok.injEq] at h
    simp [h]
  | cons c cs ih =>
    rw [videoInputsLoop] at h
    cases hp : strOr c.path c.imagePath with
    | none => simp [hp] at h
    | some p =>
      simp only [hp] at h
      cases hex : existsSync (pathJoin "/uploads" p) with
      | false => simp [hex] at h
      | true =>
        simp only [hex, Bool.not_true] at h
        rw [if_neg (by simp)] at h
        rw [ih _ h]
        simp [clipVideoFile, hp]

theorem buildVideoFFmpegCommand_of_ok (existsSync : String → Bool) (clips : List Clip)
    (audioPath : Option String) (outputPath : String) (width height fps : Nat) (useGpu : Bool)
    (args : List String)
    (h : buildVideoFFmpegCommand existsSync clips audioPath outputPath width height fps
      useGpu = .ok args) :
    args = renderSettings (videoPlanSettings existsSync clips audioPath outputPath width height
      fps useGpu) := by
  unfold buildVideoFFmpegCommand at h
  cases hin : videoInputsLoop existsSync clips [] with
  | error e => simp [hin] at h
  | ok inputs =>
    have hinputs := videoInputsLoop_of_ok existsSync clips [] inputs hin
    simp only [List.nil_append] at hinputs
    simp only [hin, videoChainsLoop_eq, Except.ok.injEq] at h
    have hgraph : "" ++ chainsFrom effectiveDuration width height 0 clips ++
        videoLabels clips.length ++ "concat=n=" ++ toString clips.length ++ ":v=1:a=0[outv]" =
        videoFilterGraph effectiveDuration width height clips := by
      simp [videoFilterGraph]
    rw [hgraph] at h
    have hmap : renderSettings (clips.map (fun c => Setting.opt "-i" (clipVideoFile c))) =
        (clips.map (fun c => ["-i", clipVideoFile c])).flatten := by
      have := renderSettings_inputs (clips.map clipVideoFile)
      simpa [List.map_map, Function.comp_def] using this
    rw [← h, hinputs]
    unfold videoPlanSettings
    simp only [renderSettings_append, hmap]
    cases audioPath with
    | none =>
      cases useGpu <;>
        simp [audioAttached, renderSettings, Setting.render, simpleEncoderSettings,
          simpleAudioSettings, gpuArgsVideo, cpuArgs]
    | some a =>
      by_cases hne : a = ""
      · cases useGpu <;>
          simp [audioAttached, hne, renderSettings, Setting.render, simpleEncoderSettings,
            simpleAudioSettings, gpuArgsVideo, cpuArgs]
      · cases h1 : existsSync (pathJoin "/uploads" a) <;> cases useGpu <;>
          simp [audioAttached, hne, h1, renderSettings, Setting.render,
            simpleEncoderSettings, simpleAudioSettings, gpuArgsVideo, cpuArgs,
            audioEncodeArgs]

/-- The arguments of a layered plan are those `buildEditlyFFmpegCommand` returns for the
plan's concat list, the filter of its audio segments and the job's resolved fields. -/
theorem editlyFormatPlan_args (env : WorkerEnv) (jobData : JobData) (tempId : String)
    (plan : EditlyPlan) (h : (editlyFormatPlan env jobData tempId).result = .ok plan) :
    ∃ af, buildEditlyAudioFilter plan.audioSegments = .ok af ∧
      plan.ffmpegArgs =
        buildEditlyFFmpegCommand plan.concatFile.path af (outputPathOf jobData tempId)
          (numOr jobData.width 1024) (numOr jobData.height 1536) (numOr jobData.fps 30)
          env.USE_GPU jobData.customOutputArgs
          ((strOr jobData.audioCodec (some "aac")).getD "")
          ((strOr jobData.audioBitrate (some "128k")).getD "")
          ((strOr jobData.videoCodec
            (some (if env.USE_GPU then "h264_nvenc" else "libx264"))).getD "")
          ((strOr jobData.videoBitrate (some "3000k")).getD "") := by
  unfold editlyFormatPlan at h
  simp only at h
  split at h
  · simp at h
  · split at h
    · simp at h
    · split at h
      · simp at h
      · split at h
        · simp at h
        · rename_i af haf
          simp only [Except.ok.injEq] at h
          subst h
          exact ⟨af, haf, rfl⟩

/-! ### Layered plans without audio -/

theorem settingsNamed_append (n : String) (xs ys : List Setting) :
    settingsNamed n (xs ++ ys) = settingsNamed n xs ++ settingsNamed n ys := by
  simp [settingsNamed]

theorem settingsNamed_inputs (n : String) (paths : List String) (hn : n ≠ "-i") :
    settingsNamed n (paths.map (Setting.opt "-i")) = [] := by
  simp only [settingsNamed, List.filter_eq_nil_iff, List.mem_map]
  rintro s ⟨p, _, rfl⟩
  simp only [Setting.named, beq_iff_eq]
  exact fun h => hn h.symm

theorem editlyEncoderSettings_named_of_ne (n : String) (useGpu : Bool)
    (videoCodec videoBitrate : String) (fps : Nat)
    (hn : n ∉ ["-c:v", "-preset", "-cq", "-crf", "-b:v", "-maxrate", "-bufsize", "-profile:v",
      "-level", "-rc", "-bf", "-g"]) :
    settingsNamed n (editlyEncoderSettings useGpu videoCodec videoBitrate fps) = [] := by
  simp only [List.mem_cons, List.mem_singleton, List.not_mem_nil, or_false, not_or] at hn
  obtain ⟨h1, h2, h3, h4, h5, h6, h7, h8, h9, h10, h11, h12⟩ := hn
  unfold editlyEncoderSettings
  split <;>
    simp [settingsNamed, List.filter_cons, Setting.named, Ne.symm h1, Ne.symm h2, Ne.symm h3,
      Ne.symm h4, Ne.symm h5, Ne.symm h6, Ne.symm h7, Ne.symm h8, Ne.symm h9, Ne.symm h10,
      Ne.symm h11, Ne.symm h12]

/-- C13: for zero audio segments `buildEditlyAudioFilter` returns no filter (`null`); the plan
`buildEditlyFFmpegCommand` then builds without custom output arguments consists of its own
settings followed by `-y` and the output path, and among these settings there is the flag
`-an`, no `-filter_complex`, no `-map`, and a single input, the concat list; and the plan of
every layered job that yields zero audio segments and has no custom output arguments is
built in exactly this way. -/
theorem editly_plan_without_audio :
    buildEditlyAudioFilter [] = .ok none ∧
    (∀ (videoConcatFile outputPath : String) (width height fps : Nat) (useGpu : Bool)
        (audioCodec audioBitrate videoCodec videoBitrate : String),
      buildEditlyFFmpegCommand videoConcatFile none outputPath width height fps useGpu none
          audioCodec audioBitrate videoCodec videoBitrate =
        renderSettings (editlyPlanSettings videoConcatFile none width height fps useGpu
          audioCodec audioBitrate videoCodec videoBitrate) ++ ["-y", outputPath] ∧
      Setting.flag "-an" ∈ editlyPlanSettings videoConcatFile none width height fps useGpu
        audioCodec audioBitrate videoCodec videoBitrate ∧
      settingsNamed "-filter_complex" (editlyPlanSettings videoConcatFile none width height fps
        useGpu audioCodec audioBitrate videoCodec videoBitrate) = [] ∧
      settingsNamed "-map" (editlyPlanSettings videoConcatFile none width height fps
        useGpu audioCodec audioBitrate videoCodec videoBitrate) = [] ∧
      settingsNamed "-i" (editlyPlanSettings videoConcatFile none width height fps
        useGpu audioCodec audioBitrate videoCodec videoBitrate) =
        [.opt "-i" videoConcatFile]) ∧
    (∀ (env : WorkerEnv) (jobData : JobData) (tempId : String) (plan : EditlyPlan),
      (editlyFormatPlan env jobData tempId).result = .ok plan →
      plan.audioSegments = [] → jobData.customOutputArgs = none →
      plan.ffmpegArgs =
        buildEditlyFFmpegCommand plan.concatFile.path none (outputPathOf jobData tempId)
          (numOr jobData.width 1024) (numOr jobData.height 1536) (numOr jobData.fps 30)
          env.USE_GPU none
          ((strOr jobData.audioCodec (some "aac")).getD "")
          ((strOr jobData.audioBitrate (some "128k")).getD "")
          ((strOr jobData.videoCodec
            (some (if env.USE_GPU then "h264_nvenc" else "libx264"))).getD "")
          ((strOr jobData.videoBitrate (some "3000k")).getD "")) := by
  refine ⟨rfl, ?_, ?_⟩
  · intro videoConcatFile outputPath width height fps useGpu audioCodec audioBitrate videoCodec
      videoBitrate
    refine ⟨?_, ?_, ?_, ?_, ?_⟩
    · simpa using buildEditlyFFmpegCommand_eq_settings videoConcatFile none outputPath width
        height fps useGpu none audioCodec audioBitrate videoCodec videoBitrate
    · simp [editlyPlanSettings, editlyAudioSettings]
    · simp only [editlyPlanSettings, settingsNamed_append,
        editlyEncoderSettings_named_of_ne "-filter_complex" useGpu videoCodec videoBitrate fps
          (by decide)]
      simp [settingsNamed, editlyInputSettings, editlyAudioSettings, Setting.named]
    · simp only [editlyPlanSettings, settingsNamed_append,
        editlyEncoderSettings_named_of_ne "-map" useGpu videoCodec videoBitrate fps
          (by decide)]
      simp [settingsNamed, editlyInputSettings, editlyAudioSettings, Setting.named]
    · simp only [editlyPlanSettings, settingsNamed_append,
        editlyEncoderSettings_named_of_ne "-i" useGpu videoCodec videoBitrate fps
          (by decide)]
      simp [settingsNamed, editlyInputSettings, editlyAudioSettings, Setting.named]
  · intro env jobData tempId plan hplan haudio hcustom
    obtain ⟨af, haf, hargs⟩ := editlyFormatPlan_args env jobData tempId plan hplan
    rw [haudio] at haf
    have : af = none := by
      have h0 : buildEditlyAudioFilter [] = .ok none := rfl
      rw [h0] at haf
      exact (Except.ok.inj haf).symm
    rw [hargs, this, hcustom]

/-- Witness for C13: the plan of a layered job with one image clip and no audio layer. -/
theorem editly_plan_without_audio_witness :
    (editlyFormatPlan ⟨false, fun _ => true⟩
        { isEditlyFormat := some true
          clips := some [{ duration := some 3
                           layers := some [some { type := some "image", path := some "a.png" }] }] }
        "t").result =
      .ok ⟨[⟨some "a.png", some 3, some 0, "cover"⟩], [],
        ⟨"/tmp/editly_video_t.txt", "file '/uploads/a.png'\nduration 3\nfile '/uploads/a.png'\n"⟩,
        buildEditlyFFmpegCommand "/tmp/editly_video_t.txt" none "/outputs/video_t.mp4"
          1024 1536 30 false none "aac" "128k" "libx264" "3000k"⟩ ∧
    buildEditlyFFmpegCommand "/tmp/editly_video_t.txt" none "/outputs/video_t.mp4"
        1024 1536 30 false none "aac" "128k" "libx264" "3000k" =
      buildEditlyFFmpegCommand "/tmp/editly_video_t.txt" none
        (outputPathOf
          { isEditlyFormat := some true
            clips := some [{ duration := some 3
                             layers := some [some { type := some "image", path := some "a.png" }] }] }
          "t")
        (numOr none 1024) (numOr none 1536) (numOr none 30) false none
        ((strOr none (some "aac")).getD "") ((strOr none (some "128k")).getD "")
        ((strOr none (some (if false = true then "h264_nvenc" else "libx264"))).getD "")
        ((strOr none (some "3000k")).getD "") :=
  ⟨by decide,
   editly_plan_without_audio.2.2 ⟨false, fun _ => true⟩
    { isEditlyFormat := some true
      clips := some [{ duration := some 3
                       layers := some [some { type := some "image", path := some "a.png" }] }] }
    "t"
    ⟨[⟨some "a.png", some 3, some 0, "cover"⟩], [],
      ⟨"/tmp/editly_video_t.txt", "file '/uploads/a.png'\nduration 3\nfile '/uploads/a.png'\n"⟩,
      buildEditlyFFmpegCommand "/tmp/editly_video_t.txt" none "/outputs/video_t.mp4"
        1024 1536 30 false none "aac" "128k" "libx264" "3000k"⟩
    (by decide) rfl rfl⟩

/-! ### The audio filter graph of layered plans -/

theorem audioFilterLoop_eq (segments : List AudioSegment) (index : Nat) (filterComplex : String)
    (inputs : List String) (hpath : ∀ s ∈ segments, s.path.isSome = true) :
    audioFilterLoop segments index filterComplex inputs =
      .ok (filterComplex ++ audioStagesFrom index segments,
           inputs ++ segments.map segmentAudioFile) := by
  induction segments generalizing index filterComplex inputs with
  | nil => simp [audioFilterLoop, audioStagesFrom]
  | cons x xs ih =>
    obtain ⟨p, hp⟩ := Option.isSome_iff_exists.mp (hpath x (List.mem_cons_self _ _))
    rw [audioFilterLoop]
    simp only [hp]
    rw [ih _ _ _ (fun s hs => hpath s (List.mem_cons_of_mem _ hs))]
    simp [audioStagesFrom, audioStage, segmentAudioFile, hp, String.append_assoc]

theorem buildEditlyAudioFilter_eq (segments : List AudioSegment) (hne : segments ≠ [])
    (hpath : ∀ s ∈ segments, s.path.isSome = true) :
    buildEditlyAudioFilter segments =
      .ok (some ⟨audioFilterGraph segments, segments.map segmentAudioFile⟩) := by
  have hlen : segments.length ≠ 0 := fun h => hne (List.length_eq_zero.mp h)
  unfold buildEditlyAudioFilter
  rw [if_neg hlen, audioFilterLoop_eq segments 0 "" [] hpath]
  by_cases hgt : segments.length > 1
  · simp [audioFilterGraph, hgt, String.append_assoc]
  · simp [audioFilterGraph, hgt]

theorem editlyPlanSettings_inputs (videoConcatFile : String)
    (audioFilterComplex : Option AudioFilter) (width height fps : Nat) (useGpu : Bool)
    (audioCodec audioBitrate videoCodec videoBitrate : String) :
    settingsNamed "-i" (editlyPlanSettings videoConcatFile audioFilterComplex width height fps
        useGpu audioCodec audioBitrate videoCodec videoBitrate) =
      .opt "-i" videoConcatFile ::
        (match audioFilterComplex with
         | some af => af.inputs.map (Setting.opt "-i")
         | none => []) := by
  have hmap : ∀ paths : List String,
      settingsNamed "-i" (paths.map (Setting.opt "-i")) = paths.map (Setting.opt "-i") := by
    intro paths
    simp only [settingsNamed, List.filter_eq_self, List.mem_map]
    rintro s ⟨p, _, rfl⟩
    rfl
  simp only [editlyPlanSettings, settingsNamed_append,
    editlyEncoderSettings_named_of_ne "-i" useGpu videoCodec videoBitrate fps (by decide)]
  cases audioFilterComplex with
  | none => simp [settingsNamed, editlyInputSettings, editlyAudioSettings, Setting.named]
  | some af =>
    simp only [editlyInputSettings, settingsNamed_append, hmap]
    by_cases hfc : (af.filterComplex != "") = true
    · simp [settingsNamed, editlyAudioSettings, Setting.named, hfc]
    · simp [settingsNamed, editlyAudioSettings, Setting.named, hfc]

/-- C14: for every non-empty list of audio segments (each with a path)
`buildEditlyAudioFilter` returns the segments' resolved paths, in order, as inputs, and the
filter graph made of one stage per segment, in order, reading `[(i+1):a]` and writing `[a_i]`
(`volume=v` when the volume differs from 1, a pass-through copy otherwise), followed by a
pass-through of `[a0]` to `[aout]` when n = 1 and by one concat with `n=n`, `v=0`, `a=1` over
`[a0]`..`[a(n-1)]` writing `[aout]` when n >= 2; and the inputs of the command built from it
are the concat list (input 0) followed by the audio files in order (the i-th is input i+1). -/
theorem buildEditlyAudioFilter_graph (segments : List AudioSegment) (hne : segments ≠ [])
    (hpath : ∀ s ∈ segments, s.path.isSome = true) :
    buildEditlyAudioFilter segments =
      .ok (some ⟨audioFilterGraph segments, segments.map segmentAudioFile⟩) ∧
    (segments.length = 1 →
      audioFilterGraph segments = audioStagesFrom 0 segments ++ "[a0]acopy[aout]") ∧
    (segments.length ≥ 2 →
      audioFilterGraph segments = audioStagesFrom 0 segments ++
        (String.join ((List.range segments.length).map (fun i => "[a" ++ toString i ++ "]")) ++
          "concat=n=" ++ toString segments.length ++ ":v=0:a=1[aout]")) ∧
    ∀ (videoConcatFile outputPath : String) (width height fps : Nat) (useGpu : Bool)
        (customOutputArgs : Option (List String))
        (audioCodec audioBitrate videoCodec videoBitrate : String),
      buildEditlyFFmpegCommand videoConcatFile
          (some ⟨audioFilterGraph segments, segments.map segmentAudioFile⟩) outputPath width
          height fps useGpu customOutputArgs audioCodec audioBitrate videoCodec videoBitrate =
        renderSettings (editlyPlanSettings videoConcatFile
          (some ⟨audioFilterGraph segments, segments.map segmentAudioFile⟩) width height fps
          useGpu audioCodec audioBitrate videoCodec videoBitrate) ++
        customOutputArgs.getD [] ++ ["-y", outputPath] ∧
      settingsNamed "-i" (editlyPlanSettings videoConcatFile
          (some ⟨audioFilterGraph segments, segments.map segmentAudioFile⟩) width height fps
          useGpu audioCodec audioBitrate videoCodec videoBitrate) =
        .opt "-i" videoConcatFile ::
          segments.map (fun s => Setting.opt "-i" (segmentAudioFile s)) := by
  refine ⟨buildEditlyAudioFilter_eq segments hne hpath, ?_, ?_, ?_⟩
  · intro h1
    simp [audioFilterGraph, h1]
  · intro h2
    have : segments.length > 1 := h2
    simp [audioFilterGraph, this, audioLabels]
  · intro videoConcatFile outputPath width height fps useGpu customOutputArgs audioCodec
      audioBitrate videoCodec videoBitrate
    refine ⟨buildEditlyFFmpegCommand_eq_settings _ _ _ _ _ _ _ _ _ _ _ _, ?_⟩
    rw [editlyPlanSettings_inputs]
    simp [List.map_map, Function.comp_def]

/-- Witness for C14: two audio segments, the second with volume 2. -/
theorem buildEditlyAudioFilter_graph_witness :
    buildEditlyAudioFilter
        [⟨some "a.mp3", some 0, some 3, 1⟩, ⟨some "b.mp3", some 3, some 2, 2⟩] =
      .ok (some ⟨"[1:a]acopy[a0];[2:a]volume=2[a1];[a0][a1]concat=n=2:v=0:a=1[aout]",
        ["/uploads/a.mp3", "/uploads/b.mp3"]⟩) :=
  (buildEditlyAudioFilter_graph
    [⟨some "a.mp3", some 0, some 3, 1⟩, ⟨some "b.mp3", some 3, some 2, 2⟩]
    (by decide) (by decide)).1.trans (by decide)

/-! ### Encoder parameter sets -/

theorem mem_settingsNamed {n : String} {s : Setting} {settings : List Setting} :
    s ∈ settingsNamed n settings ↔ s ∈ settings ∧ s.named n = true := by
  simp [settingsNamed, List.mem_filter]

/-- Names that only the encoder block of a layered plan can carry. -/
theorem editlyPlanSettings_named_encoder (n : String) (videoConcatFile : String)
    (audioFilterComplex : Option AudioFilter) (width height fps : Nat) (useGpu : Bool)
    (audioCodec audioBitrate videoCodec videoBitrate : String)
    (hn : n ∉ ["-f", "-safe", "-i", "-filter_complex", "-map", "-c:a", "-b:a", "-ar", "-an",
      "-vf", "-r", "-pix_fmt", "-movflags"]) :
    settingsNamed n (editlyPlanSettings videoConcatFile audioFilterComplex width height fps
        useGpu audioCodec audioBitrate videoCodec videoBitrate) =
      settingsNamed n (editlyEncoderSettings useGpu videoCodec videoBitrate fps) := by
  simp only [List.mem_cons, List.mem_singleton, List.not_mem_nil, or_false, not_or] at hn
  obtain ⟨h1, h2, h3, h4, h5, h6, h7, h8, h9, h10, h11, h12, h13⟩ := hn
  have hin : settingsNamed n (editlyInputSettings videoConcatFile audioFilterComplex) = [] := by
    unfold editlyInputSettings
    rw [settingsNamed_append]
    cases audioFilterComplex with
    | none => simp [settingsNamed, Setting.named, Ne.symm h1, Ne.symm h2, Ne.symm h3]
    | some af =>
      simp only [settingsNamed_inputs n af.inputs h3]
      simp [settingsNamed, Setting.named, Ne.symm h1, Ne.symm h2, Ne.symm h3]
  have haud : settingsNamed n (editlyAudioSettings audioFilterComplex audioCodec
      audioBitrate) = [] := by
    unfold editlyAudioSettings
    cases audioFilterComplex with
    | none => simp [settingsNamed, Setting.named, Ne.symm h9]
    | some af =>
      by_cases hfc : (af.filterComplex != "") = true
      · simp [settingsNamed, Setting.named, hfc, Ne.symm h4, Ne.symm h5, Ne.symm h6,
          Ne.symm h7, Ne.symm h8]
      · simp [settingsNamed, Setting.named, hfc, Ne.symm h9]
  simp only [editlyPlanSettings, settingsNamed_append, hin, haud]
  simp [settingsNamed, Setting.named, Ne.symm h10, Ne.symm h11, Ne.symm h12, Ne.symm h13]

theorem editlyEncoderSettings_hardware (useGpu : Bool) (videoCodec videoBitrate : String)
    (fps : Nat) (h : useGpu = true ∧ includes videoCodec "nvenc" = true) :
    editlyEncoderSettings useGpu videoCodec videoBitrate fps =
      [.opt "-c:v" videoCodec, .opt "-preset" "p5", .opt "-cq" "23", .opt "-b:v" videoBitrate,
       .opt "-maxrate" "8M", .opt "-bufsize" "10M", .opt "-profile:v" "main",
       .opt "-level" "4.1", .opt "-rc" "vbr", .opt "-bf" "3",
       .opt "-g" (toString (fps * 2))] := by
  unfold editlyEncoderSettings
  rw [if_pos (by simp [h.1, h.2])]

theorem editlyEncoderSettings_software (useGpu : Bool) (videoCodec videoBitrate : String)
    (fps : Nat) (h : ¬ (useGpu = true ∧ includes videoCodec "nvenc" = true)) :
    editlyEncoderSettings useGpu videoCodec videoBitrate fps =
      [.opt "-c:v" (if videoCodec = "" then "libx264" else videoCodec),
       .opt "-preset" "medium", .opt "-crf" "23", .opt "-b:v" videoBitrate,
       .opt "-profile:v" "main", .opt "-level" "4.1", .opt "-bf" "3",
       .opt "-g" (toString (fps * 2))] := by
  unfold editlyEncoderSettings
  rw [if_neg (by simpa [Bool.and_eq_true] using h)]

/-- C15, counterexample: on the hardware path (`useGpu` with `h264_nvenc`) custom output
arguments `-preset medium -crf 20` put the software set into the plan next to the hardware
set, so both sets appear. -/
theorem buildEditlyFFmpegCommand_both_sets_with_custom_args :
    argsHaveHardwareSet
      (buildEditlyFFmpegCommand "/tmp/editly_video_t.txt" none "/outputs/video_t.mp4" 1024 1536
        30 true (some ["-preset", "medium", "-crf", "20"]) "aac" "128k" "h264_nvenc" "3000k")
      = true ∧
    argsHaveSoftwareSet
      (buildEditlyFFmpegCommand "/tmp/editly_video_t.txt" none "/outputs/video_t.mp4" 1024 1536
        30 true (some ["-preset", "medium", "-crf", "20"]) "aac" "128k" "h264_nvenc" "3000k")
      = true := by
  decide

/-- C15, amended: for every input to `buildEditlyFFmpegCommand` the plan is the builder's own
settings followed by the custom output arguments, `-y` and the output path; among the
builder's own settings the hardware (NVENC) parameter set is present if and only if `useGpu`
is true and the codec name contains `nvenc`, and the software parameter set is present if and
only if that is not the case, so that exactly one of the two sets is emitted. -/
theorem buildEditlyFFmpegCommand_parameter_set (videoConcatFile : String)
    (audioFilterComplex : Option AudioFilter) (outputPath : String) (width height fps : Nat)
    (useGpu : Bool) (customOutputArgs : Option (List String))
    (audioCodec audioBitrate videoCodec videoBitrate : String) :
    buildEditlyFFmpegCommand videoConcatFile audioFilterComplex outputPath width height fps
        useGpu customOutputArgs audioCodec audioBitrate videoCodec videoBitrate =
      renderSettings (editlyPlanSettings videoConcatFile audioFilterComplex width height fps
        useGpu audioCodec audioBitrate videoCodec videoBitrate) ++
      customOutputArgs.getD [] ++ ["-y", outputPath] ∧
    (HardwareSetIn (editlyPlanSettings videoConcatFile audioFilterComplex width height fps
        useGpu audioCodec audioBitrate videoCodec videoBitrate) ↔
      (useGpu = true ∧ includes videoCodec "nvenc" = true)) ∧
    (SoftwareSetIn (editlyPlanSettings videoConcatFile audioFilterComplex width height fps
        useGpu audioCodec audioBitrate videoCodec videoBitrate) ↔
      ¬ (useGpu = true ∧ includes videoCodec "nvenc" = true)) := by
  have hnamed := fun n hn => editlyPlanSettings_named_encoder n videoConcatFile
    audioFilterComplex width height fps useGpu audioCodec audioBitrate videoCodec videoBitrate hn
  have hmem : ∀ v, Setting.opt "-preset" v ∈ editlyPlanSettings videoConcatFile
      audioFilterComplex width height fps useGpu audioCodec audioBitrate videoCodec
      videoBitrate ↔
      Setting.opt "-preset" v ∈ settingsNamed "-preset"
        (editlyEncoderSettings useGpu videoCodec videoBitrate fps) := by
    intro v
    rw [← hnamed "-preset" (by decide), mem_settingsNamed]
    simp [Setting.named]
  have hrc : Setting.opt "-rc" "vbr" ∈ editlyPlanSettings videoConcatFile
      audioFilterComplex width height fps useGpu audioCodec audioBitrate videoCodec
      videoBitrate ↔
      Setting.opt "-rc" "vbr" ∈ settingsNamed "-rc"
        (editlyEncoderSettings useGpu videoCodec videoBitrate fps) := by
    rw [← hnamed "-rc" (by decide), mem_settingsNamed]
    simp [Setting.named]
  refine ⟨buildEditlyFFmpegCommand_eq_settings _ _ _ _ _ _ _ _ _ _ _ _, ?_, ?_⟩
  · unfold HardwareSetIn
    rw [hmem, hrc, hnamed "-cq" (by decide), hnamed "-maxrate" (by decide),
      hnamed "-bufsize" (by decide)]
    by_cases hcond : useGpu = true ∧ includes videoCodec "nvenc" = true
    · rw [editlyEncoderSettings_hardware useGpu videoCodec videoBitrate fps hcond]
      simp [hcond, settingsNamed, Setting.named]
    · rw [editlyEncoderSettings_software useGpu videoCodec videoBitrate fps hcond]
      simp [hcond, settingsNamed, Setting.named]
  · unfold SoftwareSetIn
    rw [hmem, hnamed "-crf" (by decide)]
    by_cases hcond : useGpu = true ∧ includes videoCodec "nvenc" = true
    · rw [editlyEncoderSettings_hardware useGpu videoCodec videoBitrate fps hcond]
      simp [hcond, settingsNamed, Setting.named]
    · rw [editlyEncoderSettings_software useGpu videoCodec videoBitrate fps hcond]
      simp [hcond, settingsNamed, Setting.named]

/-! ### GOP, B-frame and quality settings -/

theorem simpleEncoderSettings_invariants (image useGpu : Bool) (fps : Nat) :
    EncoderInvariants useGpu fps (simpleEncoderSettings image useGpu fps) := by
  unfold EncoderInvariants simpleEncoderSettings
  rw [Nat.mul_comm 2 fps]
  cases useGpu <;> cases image <;> simp [settingsNamed, Setting.named]

theorem editlyEncoderSettings_invariants (useGpu : Bool) (videoCodec videoBitrate : String)
    (fps : Nat) :
    EncoderInvariants (useGpu && includes videoCodec "nvenc") fps
      (editlyEncoderSettings useGpu videoCodec videoBitrate fps) := by
  unfold EncoderInvariants
  rw [Nat.mul_comm 2 fps]
  by_cases hcond : useGpu = true ∧ includes videoCodec "nvenc" = true
  · rw [editlyEncoderSettings_hardware useGpu videoCodec videoBitrate fps hcond]
    simp [hcond.1, hcond.2, settingsNamed, Setting.named]
  · rw [editlyEncoderSettings_software useGpu videoCodec videoBitrate fps hcond]
    have hb : (useGpu && includes videoCodec "nvenc") = false := by
      cases h : (useGpu && includes videoCodec "nvenc") with
      | false => rfl
      | true => exact absurd (by simpa [Bool.and_eq_true] using h) hcond
    simp [hb, settingsNamed, Setting.named]

/-- The property depends only on the settings called `-g`, `-bf`, `-cq` and `-crf`. -/
theorem EncoderInvariants_of_named (gpuPath : Bool) (fps : Nat) (plan encoder : List Setting)
    (h : ∀ n ∈ ["-g", "-bf", "-cq", "-crf"], settingsNamed n plan = settingsNamed n encoder)
    (henc : EncoderInvariants gpuPath fps encoder) : EncoderInvariants gpuPath fps plan := by
  unfold EncoderInvariants at henc ⊢
  rw [h "-g" (by decide), h "-bf" (by decide), h "-cq" (by decide), h "-crf" (by decide)]
  exact henc

theorem imagePlanSettings_named (n : String) (existsSync : String → Bool) (concatFile : String)
    (audioPath : Option String) (outputPath : String) (width height fps : Nat) (useGpu : Bool)
    (hn : n ∈ ["-g", "-bf", "-cq", "-crf"]) :
    settingsNamed n (imagePlanSettings existsSync concatFile audioPath outputPath width height
        fps useGpu) =
      settingsNamed n (simpleEncoderSettings true useGpu fps) := by
  simp only [imagePlanSettings, settingsNamed_append]
  have h1 : settingsNamed n [Setting.opt "-f" "concat", .opt "-safe" "0",
      .opt "-i" concatFile] = [] := by
    simp only [List.mem_cons, List.mem_singleton, List.not_mem_nil, or_false] at hn
    rcases hn with rfl | rfl | rfl | rfl <;> simp [settingsNamed, Setting.named]
  have h2 : settingsNamed n (if audioAttached existsSync audioPath
      then [Setting.opt "-i" (pathJoin "/uploads" (audioPath.getD ""))] else []) = [] := by
    simp only [List.mem_cons, List.mem_singleton, List.not_mem_nil, or_false] at hn
    split <;> rcases hn with rfl | rfl | rfl | rfl <;> simp [settingsNamed, Setting.named]
  have h3 : ∀ b, settingsNamed n (simpleAudioSettings b) = [] := by
    intro b
    simp only [List.mem_cons, List.mem_singleton, List.not_mem_nil, or_false] at hn
    cases b <;> rcases hn with rfl | rfl | rfl | rfl <;>
      simp [simpleAudioSettings, settingsNamed, Setting.named]
  have h4 : settingsNamed n [Setting.opt "-vf" (scalePad width height),
      .opt "-r" (toString fps), .opt "-pix_fmt" "yuv420p", .opt "-movflags" "+faststart",
      .flag "-y", .output outputPath] = [] := by
    simp only [List.mem_cons, List.mem_singleton, List.not_mem_nil, or_false] at hn
    rcases hn with rfl | rfl | rfl | rfl <;> simp [settingsNamed, Setting.named]
  rw [h1, h2, h3, h4]
  simp

theorem videoPlanSettings_named (n : String) (existsSync : String → Bool) (clips : List Clip)
    (audioPath : Option String) (outputPath : String) (width height fps : Nat) (useGpu : Bool)
    (hn : n ∈ ["-g", "-bf", "-cq", "-crf"]) :
    settingsNamed n (videoPlanSettings existsSync clips audioPath outputPath width height
        fps useGpu) =
      settingsNamed n (simpleEncoderSettings false useGpu fps) := by
  simp only [videoPlanSettings, settingsNamed_append]
  have hni : n ≠ "-i" := by
    simp only [List.mem_cons, List.mem_singleton, List.not_mem_nil, or_false] at hn
    rcases hn with rfl | rfl | rfl | rfl <;> decide
  have h0 : settingsNamed n (clips.map (fun c => Setting.opt "-i" (clipVideoFile c))) = [] := by
    have := settingsNamed_inputs n (clips.map clipVideoFile) hni
    simpa [List.map_map, Function.comp_def] using this
  have h1 : settingsNamed n (if audioAttached existsSync audioPath
      then [Setting.opt "-i" (pathJoin "/uploads" (audioPath.getD ""))] else []) = [] := by
    simp only [List.mem_cons, List.mem_singleton, List.not_mem_nil, or_false] at hn
    split <;> rcases hn with rfl | rfl | rfl | rfl <;> simp [settingsNamed, Setting.named]
  have h2 : settingsNamed n [Setting.opt "-filter_complex"
      (videoFilterGraph effectiveDuration width height clips), .opt "-map" "[outv]"] = [] := by
    simp only [List.mem_cons, List.mem_singleton, List.not_mem_nil, or_false] at hn
    rcases hn with rfl | rfl | rfl | rfl <;> simp [settingsNamed, Setting.named]
  have h3 : settingsNamed n (if audioAttached existsSync audioPath
      then [Setting.opt "-map" (toString clips.length ++ ":a")] else []) = [] := by
    simp only [List.mem_cons, List.mem_singleton, List.not_mem_nil, or_false] at hn
    split <;> rcases hn with rfl | rfl | rfl | rfl <;> simp [settingsNamed, Setting.named]
  have h4 : ∀ b, settingsNamed n (simpleAudioSettings b) = [] := by
    intro b
    simp only [List.mem_cons, List.mem_singleton, List.not_mem_nil, or_false] at hn
    cases b <;> rcases hn with rfl | rfl | rfl | rfl <;>
      simp [simpleAudioSettings, settingsNamed, Setting.named]
  have h5 : settingsNamed n [Setting.opt "-r" (toString fps), .opt "-pix_fmt" "yuv420p",
      .opt "-movflags" "+faststart", .flag "-y", .output outputPath] = [] := by
    simp only [List.mem_cons, List.mem_singleton, List.not_mem_nil, or_false] at hn
    rcases hn with rfl | rfl | rfl | rfl <;> simp [settingsNamed, Setting.named]
  rw [h0, h1, h2, h3, h4, h5]
  simp

/-- C16, counterexample: with the custom output arguments `-g 10` the plan of
`buildEditlyFFmpegCommand` carries two GOP settings, `-g 60` and `-g 10`. -/
theorem buildEditlyFFmpegCommand_two_gop_settings :
    (buildEditlyFFmpegCommand "/tmp/editly_video_t.txt" none "/outputs/video_t.mp4" 1024 1536
        30 false (some ["-g", "10"]) "aac" "128k" "libx264" "3000k").count "-g" = 2 ∧
    adjacentIn "-g" "60"
      (buildEditlyFFmpegCommand "/tmp/editly_video_t.txt" none "/outputs/video_t.mp4" 1024 1536
        30 false (some ["-g", "10"]) "aac" "128k" "libx264" "3000k") = true ∧
    adjacentIn "-g" "10"
      (buildEditlyFFmpegCommand "/tmp/editly_video_t.txt" none "/outputs/video_t.mp4" 1024 1536
        30 false (some ["-g", "10"]) "aac" "128k" "libx264" "3000k") = true := by
  decide

/-- C16, amended: for each of the three command builders, on the hardware and on the software
path and for every fps, the settings the builder itself emits contain exactly one GOP setting
`-g`, whose value is `2 * fps`, exactly one B-frame setting `-bf 3`, and the quality 23
(`-cq 23` on the hardware path, `-crf 23` on the software path). The plan of
`buildFFmpegCommand` and of `buildVideoFFmpegCommand` (for clips whose files are present)
consists of these settings; the plan of `buildEditlyFFmpegCommand` consists of them followed
by the custom output arguments, `-y` and the output path. -/
theorem builders_gop_bframes_quality (existsSync : String → Bool) (fps : Nat) (useGpu : Bool) :
    (∀ (concatFile : String) (audioPath : Option String) (outputPath : String)
        (width height : Nat),
      buildFFmpegCommand existsSync concatFile audioPath outputPath width height fps useGpu =
        renderSettings (imagePlanSettings existsSync concatFile audioPath outputPath width
          height fps useGpu) ∧
      EncoderInvariants useGpu fps
        (imagePlanSettings existsSync concatFile audioPath outputPath width height fps
          useGpu)) ∧
    (∀ (clips : List Clip) (audioPath : Option String) (outputPath : String)
        (width height : Nat),
      (∀ c ∈ clips, strTruthy (strOr c.path c.imagePath) = true) →
      (∀ c ∈ clips, existsSync (clipVideoFile c) = true) →
      buildVideoFFmpegCommand existsSync clips audioPath outputPath width height fps useGpu =
        .ok (renderSettings (videoPlanSettings existsSync clips audioPath outputPath width
          height fps useGpu)) ∧
      EncoderInvariants useGpu fps
        (videoPlanSettings existsSync clips audioPath outputPath width height fps useGpu)) ∧
    (∀ (videoConcatFile : String) (audioFilterComplex : Option AudioFilter)
        (outputPath : String) (width height : Nat) (customOutputArgs : Option (List String))
        (audioCodec audioBitrate videoCodec videoBitrate : String),
      buildEditlyFFmpegCommand videoConcatFile audioFilterComplex outputPath width height fps
          useGpu customOutputArgs audioCodec audioBitrate videoCodec videoBitrate =
        renderSettings (editlyPlanSettings videoConcatFile audioFilterComplex width height fps
          useGpu audioCodec audioBitrate videoCodec videoBitrate) ++
        customOutputArgs.getD [] ++ ["-y", outputPath] ∧
      EncoderInvariants (useGpu && includes videoCodec "nvenc") fps
        (editlyPlanSettings videoConcatFile audioFilterComplex width height fps useGpu
          audioCodec audioBitrate videoCodec videoBitrate)) := by
  refine ⟨?_, ?_, ?_⟩
  · intro concatFile audioPath outputPath width height
    exact ⟨buildFFmpegCommand_eq_settings _ _ _ _ _ _ _ _,
      EncoderInvariants_of_named _ _ _ _
        (fun n hn => imagePlanSettings_named n _ _ _ _ _ _ _ _ hn)
        (simpleEncoderSettings_invariants true useGpu fps)⟩
  · intro clips audioPath outputPath width height hpath hfile
    have hok := buildVideoFFmpegCommand_ok existsSync clips audioPath outputPath width height
      fps useGpu hpath hfile
    refine ⟨?_, EncoderInvariants_of_named _ _ _ _
        (fun n hn => videoPlanSettings_named n _ _ _ _ _ _ _ _ hn)
        (simpleEncoderSettings_invariants false useGpu fps)⟩
    rw [hok]
    congr 1
    exact buildVideoFFmpegCommand_of_ok _ _ _ _ _ _ _ _ _ hok
  · intro videoConcatFile audioFilterComplex outputPath width height customOutputArgs
      audioCodec audioBitrate videoCodec videoBitrate
    refine ⟨buildEditlyFFmpegCommand_eq_settings _ _ _ _ _ _ _ _ _ _ _ _,
      EncoderInvariants_of_named _ _ _ _ (fun n hn => ?_)
        (editlyEncoderSettings_invariants useGpu videoCodec videoBitrate fps)⟩
    apply editlyPlanSettings_named_encoder
    simp only [List.mem_cons, List.mem_singleton, List.not_mem_nil, or_false] at hn
    rcases hn with rfl | rfl | rfl | rfl <;> decide

/-- Witness for C16 (amended): one video clip that is present, fps 24, software path. -/
theorem builders_gop_bframes_quality_witness :
    buildVideoFFmpegCommand (fun _ => true) [{ path := some "a.mp4" }] none "/outputs/o.mp4"
        640 480 24 false =
      .ok (renderSettings (videoPlanSettings (fun _ => true) [{ path := some "a.mp4" }] none
        "/outputs/o.mp4" 640 480 24 false)) ∧
    EncoderInvariants false 24
      (videoPlanSettings (fun _ => true) [{ path := some "a.mp4" }] none "/outputs/o.mp4"
        640 480 24 false) :=
  (builders_gop_bframes_quality (fun _ => true) 24 false).2.1 [{ path := some "a.mp4" }] none
    "/outputs/o.mp4" 640 480 (by decide) (by simp)

/-! ### Default width, height and frame rate -/

theorem numOr_eq_getD (v : Option Nat) (d : Nat) (h : v ≠ some 0) : numOr v d = v.getD d := by
  cases v with
  | none => rfl
  | some n =>
    have hn : n ≠ 0 := fun h0 => h (by rw [h0])
    simp [numOr, hn]

/-- C17: let a job supply no `width`, `height` or `fps`, or non-zero ones. Whenever the simple
pipeline synthesizes a plan, the plan sets the output rate to the supplied `fps`, 30 when it
is omitted, and targets the supplied size, 1080 x 1920 where omitted, in its scale/pad filter
(`-vf` on the image plan, the chains of the filter graph on the video plan); whenever the
layered pipeline synthesizes a plan, the plan sets the output rate likewise and its `-vf`
scale/pad filter targets the supplied size, 1024 x 1536 where omitted. -/
theorem plans_use_defaults (env : WorkerEnv) (jobData : JobData) (tempId : String)
    (hw : jobData.width ≠ some 0) (hh : jobData.height ≠ some 0) (hf : jobData.fps ≠ some 0) :
    (∀ (clips : List Clip) (args : List String),
      simpleFormatArgs env jobData clips tempId = .ok args →
      ∃ settings, args = renderSettings settings ∧
        Setting.opt "-r" (toString (jobData.fps.getD 30)) ∈ settings ∧
        (clips.any isVideoClip = false →
          Setting.opt "-vf" (scalePad (jobData.width.getD 1080) (jobData.height.getD 1920)) ∈
            settings) ∧
        (clips.any isVideoClip = true →
          Setting.opt "-filter_complex" (videoFilterGraph effectiveDuration
            (jobData.width.getD 1080) (jobData.height.getD 1920) clips) ∈ settings)) ∧
    (∀ plan : EditlyPlan, (editlyFormatPlan env jobData tempId).result = .ok plan →
      ∃ settings, plan.ffmpegArgs =
          renderSettings settings ++ jobData.customOutputArgs.getD [] ++
            ["-y", outputPathOf jobData tempId] ∧
        Setting.opt "-r" (toString (jobData.fps.getD 30)) ∈ settings ∧
        Setting.opt "-vf" (scalePad (jobData.width.getD 1024) (jobData.height.getD 1536)) ∈
          settings) := by
  constructor
  · intro clips args hargs
    unfold simpleFormatArgs at hargs
    simp only [numOr_eq_getD _ _ hw, numOr_eq_getD _ _ hh, numOr_eq_getD _ _ hf] at hargs
    cases hv : clips.any isVideoClip with
    | true =>
      simp only [hv, if_true] at hargs
      refine ⟨videoPlanSettings env.existsSync clips jobData.audioFilePath
        (outputPathOf jobData tempId) (jobData.width.getD 1080) (jobData.height.getD 1920)
        (jobData.fps.getD 30) env.USE_GPU,
        buildVideoFFmpegCommand_of_ok _ _ _ _ _ _ _ _ _ hargs, ?_, ?_, ?_⟩
      · simp [videoPlanSettings]
      · intro h
        exact absurd h (by simp)
      · intro _
        simp [videoPlanSettings]
    | false =>
      simp only [hv] at hargs
      cases hc : createConcatFile env.existsSync clips tempId with
      | error e => simp [hc] at hargs
      | ok concatFile =>
        simp only [hc, Bool.false_eq_true, if_false, Except.ok.injEq] at hargs
        refine ⟨imagePlanSettings env.existsSync concatFile.path
          (strOr jobData.audioFilePath jobData.audioPath) (outputPathOf jobData tempId)
          (jobData.width.getD 1080) (jobData.height.getD 1920) (jobData.fps.getD 30)
          env.USE_GPU, ?_, ?_, ?_, ?_⟩
        · rw [← hargs]
          exact buildFFmpegCommand_eq_settings _ _ _ _ _ _ _ _
        · simp [imagePlanSettings]
        · intro _
          simp [imagePlanSettings]
        · intro h
          exact absurd h (by simp)
  · intro plan hplan
    obtain ⟨af, _, hargs⟩ := editlyFormatPlan_args env jobData tempId plan hplan
    rw [numOr_eq_getD _ _ hw, numOr_eq_getD _ _ hh, numOr_eq_getD _ _ hf] at hargs
    refine ⟨editlyPlanSettings plan.concatFile.path af (jobData.width.getD 1024)
      (jobData.height.getD 1536) (jobData.fps.getD 30) env.USE_GPU
      ((strOr jobData.audioCodec (some "aac")).getD "")
      ((strOr jobData.audioBitrate (some "128k")).getD "")
      ((strOr jobData.videoCodec
        (some (if env.USE_GPU then "h264_nvenc" else "libx264"))).getD "")
      ((strOr jobData.videoBitrate (some "3000k")).getD ""), ?_, ?_, ?_⟩
    · rw [hargs]
      exact buildEditlyFFmpegCommand_eq_settings _ _ _ _ _ _ _ _ _ _ _ _
    · simp [editlyPlanSettings]
    · simp [editlyPlanSettings]

/-- Witness for C17: an image job and a layered job that omit width, height and fps. -/
theorem plans_use_defaults_witness :
    (∃ settings,
      buildFFmpegCommand (fun _ => true) "/tmp/concat_t.txt" none "/outputs/video_t.mp4"
          1080 1920 30 false = renderSettings settings ∧
        Setting.opt "-r" (toString ((none : Option Nat).getD 30)) ∈ settings ∧
        (List.any [({ path := some "a.jpg" } : Clip)] isVideoClip = false →
          Setting.opt "-vf" (scalePad ((none : Option Nat).getD 1080)
            ((none : Option Nat).getD 1920)) ∈ settings) ∧
        (List.any [({ path := some "a.jpg" } : Clip)] isVideoClip = true →
          Setting.opt "-filter_complex" (videoFilterGraph effectiveDuration
            ((none : Option Nat).getD 1080) ((none : Option Nat).getD 1920)
            [{ path := some "a.jpg" }]) ∈ settings)) ∧
    (∃ settings,
      buildEditlyFFmpegCommand "/tmp/editly_video_t.txt" none "/outputs/video_t.mp4" 1024 1536
          30 false none "aac" "128k" "libx264" "3000k" =
        renderSettings settings ++ (none : Option (List String)).getD [] ++
          ["-y", outputPathOf
            { isEditlyFormat := some true
              clips := some [{ duration := some 3
                               layers := some [some { type := some "image",
                                                      path := some "a.png" }] }] } "t"] ∧
        Setting.opt "-r" (toString ((none : Option Nat).getD 30)) ∈ settings ∧
        Setting.opt "-vf" (scalePad ((none : Option Nat).getD 1024)
          ((none : Option Nat).getD 1536)) ∈ settings) :=
  ⟨(plans_use_defaults ⟨false, fun _ => true⟩ {} "t" (by decide) (by decide) (by decide)).1
      [{ path := some "a.jpg" }]
      (buildFFmpegCommand (fun _ => true) "/tmp/concat_t.txt" none "/outputs/video_t.mp4"
        1080 1920 30 false) (by decide),
   (plans_use_defaults ⟨false, fun _ => true⟩
      { isEditlyFormat := some true
        clips := some [{ duration := some 3
                         layers := some [some { type := some "image", path := some "a.png" }] }] }
      "t" (by decide) (by decide) (by decide)).2
      ⟨[⟨some "a.png", some 3, some 0, "cover"⟩], [],
        ⟨"/tmp/editly_video_t.txt", "file '/uploads/a.png'\nduration 3\nfile '/uploads/a.png'\n"⟩,
        buildEditlyFFmpegCommand "/tmp/editly_video_t.txt" none "/outputs/video_t.mp4"
          1024 1536 30 false none "aac" "128k" "libx264" "3000k"⟩
      (by decide)⟩

/-! ### Jobs without clips -/

/-- A payload whose `clips` field is missing, not an array or empty makes `processVideo` fail
with `No clips provided` before any progress is reported and before any plan is built. -/
theorem processVideo_no_clips (env : WorkerEnv) (jobData : JobData) (tempId : String)
    (run : EncoderRun) (h : jobData.clips = none ∨ jobData.clips = some []) :
    (processVideo env jobData tempId run).result = .error (.error "No clips provided") ∧
      (processVideo env jobData tempId run).reports = [] ∧
      (processVideo env jobData tempId run).spawned = [] := by
  rcases h with h | h <;> simp [processVideo, h]

/-- A request without `editSpec` whose `clips` is missing, not an array or empty is answered
with status 400 and `addJob` is not called. -/
theorem postJobs_rejects_plain_body (jobId : String) (body : RequestBody)
    (hspec : body.editSpec = none) (hclips : body.clips.valid = false) :
    postJobs jobId body = ⟨.badRequest "Invalid input: clips array is required", none⟩ := by
  unfold postJobs
  simp only [hspec]
  have : (body.clips.orElse .missing).valid = false := by
    unfold ClipsValue.orElse
    split
    · exact hclips
    · rfl
  simp [this]

/-- C18, failing input: for the request body `{ editSpec: { editSpec: { clips: [clip] } } }`
job creation answers with the job id and hands `addJob` a payload whose `clips` field is
missing; `processVideo` then fails on that payload with `No clips provided`. -/
theorem postJobs_enqueues_job_without_clips :
    postJobs "generated-id"
        { editSpec := some { nestedClips := .array [{ path := some "a.jpg" }] } } =
      ⟨.created "generated-id",
        some { id := some "generated-id", clips := none, isEditlyFormat := some true }⟩ ∧
    (processVideo ⟨false, fun _ => true⟩
        { id := some "generated-id", clips := none, isEditlyFormat := some true } "t"
        ⟨[], .close (some 0), none, 0⟩).result = .error (.error "No clips provided") := by
  decide

/-! ### Failure notifications and retries -/

theorem bullMoveToFailed_opts (job : BullJob) :
    (bullMoveToFailed job).opts = job.opts ∧ (bullMoveToFailed job).data = job.data ∧
      (bullMoveToFailed job).attemptsMade = job.attemptsMade + 1 := by
  unfold bullMoveToFailed
  split <;> exact ⟨rfl, rfl, rfl⟩

theorem bullMoveToFailed_state (job : BullJob) :
    (bullMoveToFailed job).state =
      if job.attemptsMade + 1 < job.opts.attempts then .delayed else .failed := by
  unfold bullMoveToFailed
  split <;> rfl

/-- Under the attempt cap of `addJob` every failure notification the worker sends carries
`retryable = true`, the one of the last attempt included: while a job is queued its
`attemptsMade` is below the cap, and that is the value the handler passes on. -/
theorem runAttempts_always_retryable (env : WorkerEnv) (attempts : List (String × EncoderRun))
    (job : BullJob) (hcap : job.opts.attempts = 3)
    (hinv : job.state = .waiting ∨ job.state = .delayed → job.attemptsMade < 3) :
    ∀ note ∈ (runAttempts env attempts job).1, note.retryable = true := by
  induction attempts generalizing job with
  | nil => simp [runAttempts]
  | cons a rest ih =>
    obtain ⟨tempId, run⟩ := a
    intro note hnote
    rw [runAttempts] at hnote
    by_cases hq : job.state = .waiting ∨ job.state = .delayed
    · rw [if_pos hq] at hnote
      have hlt := hinv hq
      unfold attemptJob at hnote
      cases hres : (processJob env job.data tempId run).result with
      | error e =>
        simp only [hres, List.mem_cons] at hnote
        have hnext : ∀ n ∈ (runAttempts env rest (bullMoveToFailed job)).1,
            n.retryable = true := by
          apply ih
          · rw [(bullMoveToFailed_opts job).1, hcap]
          · intro hstate
            rw [bullMoveToFailed_state, hcap] at hstate
            rw [(bullMoveToFailed_opts job).2.2]
            by_contra hge
            rw [if_neg hge] at hstate
            rcases hstate with h | h <;> exact absurd h (by decide)
        rcases hnote with rfl | hnote
        · simp [sendJobFailedWebhook, hlt]
        · exact hnext note hnote
      | ok r =>
        simp only [hres] at hnote
        have hdone : (runAttempts env rest { job with state := .completed }).1 = [] := by
          cases rest with
          | nil => rfl
          | cons b bs =>
            obtain ⟨t, r⟩ := b
            rw [runAttempts, if_neg (by simp)]
        rw [hdone] at hnote
        exact absurd hnote (List.not_mem_nil _)
    · rw [if_neg hq] at hnote
      exact absurd hnote (List.not_mem_nil _)

/-- C19, failing input: a job whose image is absent fails on each of its three attempts; the
worker passes `attemptsMade` = 0, 1 and 2, so all three notifications, the one of the final
attempt included, carry `retryable = true`, and the job ends `failed` with three attempts
made. -/
theorem failing_job_notifications_all_retryable :
    runAttempts ⟨false, fun _ => false⟩
        [("t1", ⟨[], .close (some 1), none, 0⟩), ("t2", ⟨[], .close (some 1), none, 0⟩),
         ("t3", ⟨[], .close (some 1), none, 0⟩), ("t4", ⟨[], .close (some 1), none, 0⟩)]
        (newBullJob { id := some "job-1", clips := some [{ path := some "missing.jpg" }] }) =
      ([⟨"Image file not found: /uploads/missing.jpg", 0, true⟩,
        ⟨"Image file not found: /uploads/missing.jpg", 1, true⟩,
        ⟨"Image file not found: /uploads/missing.jpg", 2, true⟩],
       { data := { id := some "job-1", clips := some [{ path := some "missing.jpg" }] }
         opts := addJobOptions
           { id := some "job-1", clips := some [{ path := some "missing.jpg" }] }
         attemptsMade := 3
         state := .failed }) := by
  decide

/-- With the attempt count of the specification, which `dequeue` increases before the job is
processed, the values passed on the three attempts would be 1, 2 and 3 and the notification
of the final attempt would carry `retryable = false`. -/
theorem spec_attempts_final_not_retryable (jobData : JobData) (error : JsError) :
    (sendJobFailedWebhook error (specDequeue (specJobOf jobData)).attempts).retryable = true ∧
    (sendJobFailedWebhook error
      (specDequeue (specFail 3 (specDequeue (specJobOf jobData)))).attempts).retryable = true ∧
    (sendJobFailedWebhook error
      (specDequeue (specFail 3 (specDequeue (specFail 3
        (specDequeue (specJobOf jobData)))))).attempts).retryable = false := by
  simp [sendJobFailedWebhook, specDequeue, specFail, specJobOf]

theorem specStep_from_failed {maxAttempts : Nat} {job job' : SpecJob}
    (hfailed : job.status = .failed)
    (h : Relation.ReflTransGen (SpecStep maxAttempts) job job') : job' = job := by
  induction h with
  | refl => rfl
  | tail _ hstep ih =>
    subst ih
    cases hstep with
    | dequeue hs => rw [hfailed] at hs; exact absurd hs (by decide)
    | complete hs => rw [hfailed] at hs; exact absurd hs (by decide)
    | fail hs => rw [hfailed] at hs; exact absurd hs (by decide)

/-- C20: `addJob` sets at most 3 attempts and an exponential backoff with base delay 5000 ms on
every job. Under these options, when an active job fails with its attempts count at 3 it
becomes `failed` and whatever transitions follow it stays `failed` (it never is queued again);
when it fails with fewer than 3 attempts it is queued again with the same id and priority. -/
theorem retry_policy (jobData : JobData) (job : SpecJob) (_hactive : job.status = .active) :
    (addJobOptions jobData).attempts = 3 ∧
    (addJobOptions jobData).backoff = ⟨"exponential", 5000⟩ ∧
    (job.attempts ≥ (addJobOptions jobData).attempts →
      (specFail (addJobOptions jobData).attempts job).status = .failed ∧
      ∀ job', Relation.ReflTransGen (SpecStep (addJobOptions jobData).attempts)
          (specFail (addJobOptions jobData).attempts job) job' →
        job'.status = .failed) ∧
    (job.attempts < (addJobOptions jobData).attempts →
      (specFail (addJobOptions jobData).attempts job).status = .waiting ∧
      (specFail (addJobOptions jobData).attempts job).id = job.id ∧
      (specFail (addJobOptions jobData).attempts job).priority = job.priority) := by
  refine ⟨rfl, rfl, ?_, ?_⟩
  · intro hge
    have hnot : ¬ job.attempts < (addJobOptions jobData).attempts := Nat.not_lt.mpr hge
    have hstatus : (specFail (addJobOptions jobData).attempts job).status = .failed := by
      simp [specFail, hnot]
    refine ⟨hstatus, fun job' hsteps => ?_⟩
    rw [specStep_from_failed hstatus hsteps]
    exact hstatus
  · intro hlt
    simp [specFail, hlt]

/-- Witness for C20: the third attempt of a job fails, and the first attempt of a job fails. -/
theorem retry_policy_witness :
    ((specFail (addJobOptions {}).attempts ⟨some "j", 5, 3, .active⟩).status = .failed ∧
      ∀ job', Relation.ReflTransGen (SpecStep (addJobOptions {}).attempts)
          (specFail (addJobOptions {}).attempts ⟨some "j", 5, 3, .active⟩) job' →
        job'.status = .failed) ∧
    ((specFail (addJobOptions {}).attempts ⟨some "j", 5, 1, .active⟩).status = .waiting ∧
      (specFail (addJobOptions {}).attempts ⟨some "j", 5, 1, .active⟩).id = some "j" ∧
      (specFail (addJobOptions {}).attempts ⟨some "j", 5, 1, .active⟩).priority = 5) :=
  ⟨(retry_policy {} ⟨some "j", 5, 3, .active⟩ rfl).2.2.1 (by decide),
   (retry_policy {} ⟨some "j", 5, 1, .active⟩ rfl).2.2.2 (by decide)⟩

/-- The queue library the service runs on follows the same policy: with the options of
`addJob` the third failed attempt moves the job to `failed`, an earlier one puts it back
(delayed by its backoff) with its payload and options, id and priority included. -/
theorem bull_retry_policy (job : BullJob) (hcap : job.opts.attempts = 3) :
    (job.attemptsMade + 1 ≥ 3 → (bullMoveToFailed job).state = .failed) ∧
    (job.attemptsMade + 1 < 3 →
      (bullMoveToFailed job).state = .delayed ∧
      (bullMoveToFailed job).opts = job.opts ∧ (bullMoveToFailed job).data = job.data) := by
  constructor
  · intro hge
    rw [bullMoveToFailed_state, hcap, if_neg (Nat.not_lt.mpr hge)]
  · intro hlt
    rw [bullMoveToFailed_state, hcap, if_pos hlt]
    exact ⟨rfl, (bullMoveToFailed_opts job).1, (bullMoveToFailed_opts job).2.1⟩

/-! ### Removal of old jobs -/

/-- What `cleanOldJobs` removes on the queue library: the completed and failed jobs whose
time, as a text, is smaller than the text of `clock - (now - maxAge hours)`, `clock` being the
library's own reading of the time. The cutoff time is handed over where the library expects a
period, so the library subtracts it from the time once more. -/
theorem cleanOldJobs_keeps_iff (clock now : Int) (maxAge : Option Int)
    (queue : List StoredJob) (job : StoredJob) :
    job ∈ cleanOldJobs (bullClean clock) now queue maxAge ↔
      job ∈ queue ∧ ¬ ((job.state = .completed ∨ job.state = .failed) ∧
        luaStringLt (toString job.cleanTime).data
          (toString (clock - (now - maxAge.getD 24 * 60 * 60 * 1000))).data = true) := by
  unfold cleanOldJobs bullClean
  generalize maxAge.getD 24 = hours
  simp only [List.mem_filter, Bool.not_eq_true', Bool.and_eq_false_imp, beq_iff_eq, and_assoc]
  constructor
  · rintro ⟨hmem, hc, hf⟩
    refine ⟨hmem, ?_⟩
    rintro ⟨hstate | hstate, hlt⟩
    · have := hc (by rw [hstate]; rfl)
      rw [hlt] at this
      exact absurd this (by decide)
    · have := hf (by rw [hstate]; rfl)
      rw [hlt] at this
      exact absurd this (by decide)
  · rintro ⟨hmem, hnot⟩
    refine ⟨hmem, ?_, ?_⟩
    · intro hname
      cases hlt : luaStringLt (toString job.cleanTime).data
          (toString (clock - (now - hours * 60 * 60 * 1000))).data with
      | false => rfl
      | true =>
        exfalso
        apply hnot
        refine ⟨Or.inl ?_, hlt⟩
        cases hs : job.state <;> rw [hs] at hname <;>
          first | rfl | exact absurd hname (by decide)
    · intro hname
      cases hlt : luaStringLt (toString job.cleanTime).data
          (toString (clock - (now - hours * 60 * 60 * 1000))).data with
      | false => rfl
      | true =>
        exfalso
        apply hnot
        refine ⟨Or.inr ?_, hlt⟩
        cases hs : job.state <;> rw [hs] at hname <;>
          first | rfl | exact absurd hname (by decide)

/-- Queued (waiting or delayed) and active jobs are never removed by `cleanOldJobs`. -/
theorem cleanOldJobs_keeps_waiting_and_active (clock now : Int) (maxAge : Option Int)
    (queue : List StoredJob) (job : StoredJob) (hmem : job ∈ queue)
    (hstate : job.state = .waiting ∨ job.state = .delayed ∨ job.state = .active) :
    job ∈ cleanOldJobs (bullClean clock) now queue maxAge := by
  rw [cleanOldJobs_keeps_iff]
  refine ⟨hmem, ?_⟩
  rintro ⟨h | h, _⟩ <;> rcases hstate with hs | hs | hs <;> rw [hs] at h <;>
    exact absurd h (by decide)

/-- C21, failing input: at time 1700000000000 the queue holds a job that completed 48 hours
earlier and a job that completed one minute earlier. `cleanOldJobs` with `maxAge = 24`
removes both, although only the first finished more than 24 hours before the call; with
`maxAge = 3` it removes neither, although the first finished more than 3 hours before. -/
theorem cleanOldJobs_removes_recent_keeps_old :
    cleanOldJobs (bullClean 1700000000000) 1700000000000
        [⟨"old", .completed, 1699827000000, some 1699827100000, some 1699827200000⟩,
         ⟨"recent", .completed, 1699999900000, some 1699999910000, some 1699999940000⟩]
        (some 24) = [] ∧
    finishedBefore 1700000000000 24
      ⟨"recent", .completed, 1699999900000, some 1699999910000, some 1699999940000⟩ = false ∧
    cleanOldJobs (bullClean 1700000000000) 1700000000000
        [⟨"old", .completed, 1699827000000, some 1699827100000, some 1699827200000⟩,
         ⟨"recent", .completed, 1699999900000, some 1699999910000, some 1699999940000⟩]
        (some 3) =
      [⟨"old", .completed, 1699827000000, some 1699827100000, some 1699827200000⟩,
       ⟨"recent", .completed, 1699999900000, some 1699999910000, some 1699999940000⟩] ∧
    finishedBefore 1700000000000 3
      ⟨"old", .completed, 1699827000000, some 1699827100000, some 1699827200000⟩ = true := by
  decide

/-! ### Failure of `processVideo` -/

theorem runChunks_stderr (chunks : List String) :
    (runChunks chunks).stderr = String.join chunks := by
  induction chunks using List.reverseRecOn with
  | nil => rfl
  | append_singleton chunks data ih =>
    rw [runChunks_append, onData_state_stderr, ih]
    simp only [String.join, List.foldl_append, List.foldl_cons, List.foldl_nil]

theorem executeFFmpeg_spawned (args : List String) (run : EncoderRun) :
    (executeFFmpeg args run).spawned = [args] := by
  unfold executeFFmpeg
  split <;> rfl

theorem executeFFmpeg_ok_iff (args : List String) (run : EncoderRun) :
    (executeFFmpeg args run).result = .ok () ↔ run.exit = .close (some 0) := by
  unfold executeFFmpeg
  cases hx : run.exit with
  | spawnError m => simp
  | close code =>
    by_cases hc : code = some 0
    · simp [hc]
    · simp [hc]

theorem executeFFmpeg_nonzero (args : List String) (run : EncoderRun) (code : Option Nat)
    (hx : run.exit = .close code) (hc : code ≠ some 0) :
    (executeFFmpeg args run).result =
      .error (.error ("FFmpeg failed with exit code " ++ exitCodeText code ++ ": " ++
        String.join run.chunks)) := by
  unfold executeFFmpeg
  simp only [hx, if_neg hc, runChunks_stderr]
  cases code <;> rfl

theorem executeFFmpeg_launch (args : List String) (run : EncoderRun) (m : String)
    (hx : run.exit = .spawnError m) :
    (executeFFmpeg args run).result = .error (.error m) := by
  unfold executeFFmpeg
  simp only [hx]

/-- The step `processVideo` delegates to, once `clips` has passed its validation. -/
theorem processVideo_of_inner (env : WorkerEnv) (jobData : JobData) (tempId : String)
    (run : EncoderRun) (clips : List Clip) (hclips : jobData.clips = some clips)
    (hlen : clips.length ≠ 0) (inner : Outcome String)
    (hinner : inner = if jobData.isEditlyFormat.getD false
        then processEditlyFormat env jobData tempId run
        else processSimpleFormat env jobData tempId run) :
    (processVideo env jobData tempId run).spawned = inner.spawned ∧
      ∀ e, inner.result = .error e →
        (processVideo env jobData tempId run).result = .error e := by
  unfold processVideo
  simp only [hclips, if_neg hlen, ← hinner]
  cases hres : inner.result with
  | error e' =>
    refine ⟨rfl, fun e he => ?_⟩
    injection he with he
    rw [he]
  | ok p =>
    refine ⟨?_, fun e he => by cases he⟩
    cases run.outputSize <;> rfl

theorem processSimpleFormat_of_args (env : WorkerEnv) (jobData : JobData) (tempId : String)
    (run : EncoderRun) (clips : List Clip) (hclips : jobData.clips = some clips) :
    (∀ e, simpleFormatArgs env jobData clips tempId = .error e →
      (processSimpleFormat env jobData tempId run).result = .error e ∧
      (processSimpleFormat env jobData tempId run).spawned = []) ∧
    (∀ args, simpleFormatArgs env jobData clips tempId = .ok args →
      (processSimpleFormat env jobData tempId run).spawned = [args] ∧
      ∀ e, (executeFFmpeg args run).result = .error e →
        (processSimpleFormat env jobData tempId run).result = .error e) := by
  unfold processSimpleFormat
  simp only [hclips]
  constructor
  · intro e he
    simp [he]
  · intro args hargs
    simp only [hargs]
    cases hexec : (executeFFmpeg args run).result with
    | error e' =>
      refine ⟨executeFFmpeg_spawned _ _, fun e he => ?_⟩
      injection he with he
      rw [he]
    | ok u => exact ⟨executeFFmpeg_spawned _ _, fun e he => by cases he⟩

theorem processEditlyFormat_of_plan (env : WorkerEnv) (jobData : JobData) (tempId : String)
    (run : EncoderRun) :
    (∀ e, (editlyFormatPlan env jobData tempId).result = .error e →
      (processEditlyFormat env jobData tempId run).result = .error e ∧
      (processEditlyFormat env jobData tempId run).spawned = []) ∧
    (∀ built, (editlyFormatPlan env jobData tempId).result = .ok built →
      (processEditlyFormat env jobData tempId run).spawned = [built.ffmpegArgs] ∧
      ∀ e, (executeFFmpeg built.ffmpegArgs run).result = .error e →
        (processEditlyFormat env jobData tempId run).result = .error e) := by
  unfold processEditlyFormat
  constructor
  · intro e he
    simp [he]
  · intro built hbuilt
    simp only [hbuilt]
    cases hexec : (executeFFmpeg built.ffmpegArgs run).result with
    | error e' =>
      refine ⟨executeFFmpeg_spawned _ _, fun e he => ?_⟩
      injection he with he
      rw [he]
    | ok u => exact ⟨executeFFmpeg_spawned _ _, fun e he => by cases he⟩

/-- When synthesis fails, `processVideo` fails with the same error and starts no encoder. -/
theorem processVideo_of_synthesis_error (env : WorkerEnv) (jobData : JobData)
    (tempId : String) (run : EncoderRun) (e : JsError)
    (h : synthesizedArgs env jobData tempId = .error e) :
    (processVideo env jobData tempId run).result = .error e ∧
      (processVideo env jobData tempId run).spawned = [] := by
  unfold synthesizedArgs at h
  cases hclips : jobData.clips with
  | none =>
    simp only [hclips] at h
    injection h with h
    subst h
    simp [processVideo, hclips]
  | some clips =>
    simp only [hclips] at h
    by_cases hlen : clips.length = 0
    · simp only [hlen, if_true] at h
      injection h with h
      subst h
      simp [processVideo, hclips, hlen]
    · simp only [hlen, if_false] at h
      obtain ⟨hsp, hres⟩ := processVideo_of_inner env jobData tempId run clips hclips hlen _ rfl
      by_cases hfmt : jobData.isEditlyFormat.getD false = true
      · simp only [hfmt, if_true] at h hsp hres
        cases hplan : (editlyFormatPlan env jobData tempId).result with
        | error e' =>
          simp only [hplan] at h
          injection h with h
          subst h
          obtain ⟨h1, h2⟩ := (processEditlyFormat_of_plan env jobData tempId run).1 _ hplan
          exact ⟨hres _ h1, hsp.trans h2⟩
        | ok built => simp [hplan] at h
      · simp only [hfmt] at h hsp hres
        obtain ⟨h1, h2⟩ := (processSimpleFormat_of_args env jobData tempId run clips hclips).1 _ h
        exact ⟨hres _ h1, hsp.trans h2⟩

/-- When synthesis succeeds, `processVideo` starts the encoder once, on the synthesized
arguments, and fails with the error of the encoder run if that fails. -/
theorem processVideo_of_synthesized (env : WorkerEnv) (jobData : JobData) (tempId : String)
    (run : EncoderRun) (args : List String)
    (h : synthesizedArgs env jobData tempId = .ok args) :
    (processVideo env jobData tempId run).spawned = [args] ∧
      ∀ e, (executeFFmpeg args run).result = .error e →
        (processVideo env jobData tempId run).result = .error e := by
  unfold synthesizedArgs at h
  cases hclips : jobData.clips with
  | none => simp [hclips] at h
  | some clips =>
    simp only [hclips] at h
    by_cases hlen : clips.length = 0
    · simp [hlen] at h
    · simp only [hlen, if_false] at h
      obtain ⟨hsp, hres⟩ := processVideo_of_inner env jobData tempId run clips hclips hlen _ rfl
      by_cases hfmt : jobData.isEditlyFormat.getD false = true
      · simp only [hfmt, if_true] at h hsp hres
        cases hplan : (editlyFormatPlan env jobData tempId).result with
        | error e' => simp [hplan] at h
        | ok built =>
          simp only [hplan] at h
          injection h with h
          subst h
          obtain ⟨h1, h2⟩ := (processEditlyFormat_of_plan env jobData tempId run).2 _ hplan
          exact ⟨hsp.trans h1, fun e he => hres _ (h2 e he)⟩
      · simp only [hfmt] at h hsp hres
        obtain ⟨h1, h2⟩ := (processSimpleFormat_of_args env jobData tempId run clips hclips).2 _ h
        exact ⟨hsp.trans h1, fun e he => hres _ (h2 e he)⟩

/-- When nothing or a removable regular file lies at the output path, the `catch` block
leaves nothing there and throws the error it caught. -/
theorem cleanupOnError_of_removable (outputPath : String) (node : PathNode) (error : JsError)
    (h : node = .absent ∨ node = .file true) :
    cleanupOnError outputPath node error = (.absent, error) := by
  rcases h with h | h <;> subst h <;> rfl

/-- When a directory or a file that may not be removed lies at the output path, the error of
`fs.unlinkSync` leaves the `catch` block in place of the caught error, and the path stays as
it is. -/
theorem cleanupOnError_of_unlink_error (outputPath : String) (node : PathNode)
    (error unlinkError : JsError) (h : unlinkSync outputPath node = .error unlinkError)
    (hexists : node.existsSync = true) :
    cleanupOnError outputPath node error = (node, unlinkError) := by
  unfold cleanupOnError
  simp only [hexists, if_true, h]

/-- With nothing or a removable regular file at the output path, however `processVideo`
fails, when it settles nothing lies at the output path and the error it raises is the one its
`try` block raised. A validation or missing-media error of the synthesis, the launch error of
the encoder and the error of a non-zero exit then reach the caller unchanged; the last one
carries the exit code and the whole diagnostic text. `executeFFmpeg` succeeds exactly when the
process closes with exit code 0. -/
theorem processVideo_failure_cleanup (env : WorkerEnv) (jobData : JobData)
    (tempId : String) (run : EncoderRun) (atOutput : PathNode)
    (hnode : atOutput = .absent ∨ atOutput = .file true) :
    (∀ e, (processVideoSettled env jobData tempId run atOutput).outcome.result = .error e →
      (processVideoSettled env jobData tempId run atOutput).output = .absent ∧
      (processVideo env jobData tempId run).result = .error e) ∧
    (jobData.clips = none ∨ jobData.clips = some [] →
      (processVideoSettled env jobData tempId run atOutput).outcome.result =
        .error (.error "No clips provided")) ∧
    (∀ e, synthesizedArgs env jobData tempId = .error e →
      (processVideoSettled env jobData tempId run atOutput).outcome.result = .error e) ∧
    (∀ args m, synthesizedArgs env jobData tempId = .ok args → run.exit = .spawnError m →
      (processVideoSettled env jobData tempId run atOutput).outcome.result =
        .error (.error m)) ∧
    (∀ args code, synthesizedArgs env jobData tempId = .ok args → run.exit = .close code →
      code ≠ some 0 →
      (processVideoSettled env jobData tempId run atOutput).outcome.result =
        .error (.error ("FFmpeg failed with exit code " ++ exitCodeText code ++ ": " ++
          String.join run.chunks))) ∧
    (∀ args, (executeFFmpeg args run).result = .ok () ↔ run.exit = .close (some 0)) := by
  have hresult : (processVideoSettled env jobData tempId run atOutput).outcome.result =
      (processVideo env jobData tempId run).result := by
    unfold processVideoSettled
    cases h : (processVideo env jobData tempId run).result with
    | error e => simp only [cleanupOnError_of_removable _ _ _ hnode, h]
    | ok r => simp only [h]
  refine ⟨?_, ?_, ?_, ?_, ?_, fun args => executeFFmpeg_ok_iff args run⟩
  · intro e he
    refine ⟨?_, by rw [← hresult]; exact he⟩
    rw [hresult] at he
    unfold processVideoSettled
    simp only [he, cleanupOnError_of_removable _ _ _ hnode]
  · intro h
    rw [hresult]
    rcases h with h | h <;> simp [processVideo, h]
  · intro e he
    rw [hresult]
    exact (processVideo_of_synthesis_error env jobData tempId run e he).1
  · intro args m hargs hx
    rw [hresult]
    exact (processVideo_of_synthesized env jobData tempId run args hargs).2 _
      (executeFFmpeg_launch args run m hx)
  · intro args code hargs hx hc
    rw [hresult]
    exact (processVideo_of_synthesized env jobData tempId run args hargs).2 _
      (executeFFmpeg_nonzero args run code hx hc)

/-- C22, failing input: a job with the output file name `.` whose image is missing. Its output
path is the outputs directory itself, so in the `catch` block `fs.existsSync` holds and
`fs.unlinkSync` throws: `processVideo` raises the error of `fs.unlinkSync` in place of the
original `Image file not found` error, and the path is still there. -/
theorem processVideo_cleanup_error_replaces_original :
    outputPathOf { clips := some [{ path := some "missing.jpg" }], outputFilename := some "." }
        "t" = OUTPUTS_DIR ∧
    (processVideo ⟨false, fun file => file == OUTPUTS_DIR⟩
        { clips := some [{ path := some "missing.jpg" }], outputFilename := some "." } "t"
        ⟨[], .close (some 0), none, 0⟩).result =
      .error (.error "Image file not found: /uploads/missing.jpg") ∧
    (processVideoSettled ⟨false, fun file => file == OUTPUTS_DIR⟩
        { clips := some [{ path := some "missing.jpg" }], outputFilename := some "." } "t"
        ⟨[], .close (some 0), none, 0⟩ .directory).outcome.result =
      .error (.error "EISDIR: illegal operation on a directory, unlink '/outputs'") ∧
    (processVideoSettled ⟨false, fun file => file == OUTPUTS_DIR⟩
        { clips := some [{ path := some "missing.jpg" }], outputFilename := some "." } "t"
        ⟨[], .close (some 0), none, 0⟩ .directory).output = .directory := by
  decide

/-! ### Notifications -/

theorem sendWebhook_cases (env : WebhookEnv) (jobId status : String)
    (data : List (String × String)) :
    (∃ v, (sendWebhook env jobId status data).result = .ok v) ∧
    (strTruthy env.WEBHOOK_URL = false →
      (sendWebhook env jobId status data).posted = [] ∧
      (sendWebhook env jobId status data).result = .ok .undefined) ∧
    (strTruthy env.WEBHOOK_URL = true → env.delivery.failed = true →
      (sendWebhook env jobId status data).result = .ok .null) := by
  unfold sendWebhook
  cases hurl : env.WEBHOOK_URL with
  | none => simp [strTruthy]
  | some url =>
    by_cases hempty : url = ""
    · simp [strTruthy, hempty]
    · simp only [hempty, if_false, strTruthy]
      cases hd : env.delivery <;> simp [axiosPost, Delivery.failed, hempty]

/-- C23: `sendWebhook` and the started, completed and failed helpers never raise to their
caller, whatever the job id, status, payload and outcome of the HTTP delivery; when the delivery
fails the call returns `null`, and when no webhook URL is configured nothing is posted and
the call returns. -/
theorem webhooks_never_raise (env : WebhookEnv) (jobId status : String)
    (data : List (String × String)) (jobData : JobData) (result : RenderResult)
    (error : JsError) (attempts : Nat) :
    ((∃ v, (sendWebhook env jobId status data).result = .ok v) ∧
     (∃ v, (sendJobStartedWebhook env jobId jobData).result = .ok v) ∧
     (∃ v, (sendJobCompletedWebhook env jobId result).result = .ok v) ∧
     (∃ v, (sendJobFailedNotification env jobId error attempts).result = .ok v)) ∧
    (strTruthy env.WEBHOOK_URL = true → env.delivery.failed = true →
      (sendWebhook env jobId status data).result = .ok .null ∧
      (sendJobStartedWebhook env jobId jobData).result = .ok .null ∧
      (sendJobCompletedWebhook env jobId result).result = .ok .null ∧
      (sendJobFailedNotification env jobId error attempts).result = .ok .null) ∧
    (strTruthy env.WEBHOOK_URL = false →
      (sendWebhook env jobId status data) = ⟨[], .ok .undefined⟩ ∧
      (sendJobStartedWebhook env jobId jobData) = ⟨[], .ok .undefined⟩ ∧
      (sendJobCompletedWebhook env jobId result) = ⟨[], .ok .undefined⟩ ∧
      (sendJobFailedNotification env jobId error attempts) = ⟨[], .ok .undefined⟩) := by
  refine ⟨⟨(sendWebhook_cases env _ _ _).1, (sendWebhook_cases env _ _ _).1,
    (sendWebhook_cases env _ _ _).1, (sendWebhook_cases env _ _ _).1⟩, ?_, ?_⟩
  · intro hurl hfail
    exact ⟨(sendWebhook_cases env _ _ _).2.2 hurl hfail,
      (sendWebhook_cases env _ _ _).2.2 hurl hfail,
      (sendWebhook_cases env _ _ _).2.2 hurl hfail,
      (sendWebhook_cases env _ _ _).2.2 hurl hfail⟩
  · intro hurl
    have key : ∀ s d, sendWebhook env jobId s d = ⟨[], .ok .undefined⟩ := by
      intro s d
      obtain ⟨h1, h2⟩ := (sendWebhook_cases env jobId s d).2.1 hurl
      cases hcall : sendWebhook env jobId s d with
      | mk posted res =>
        rw [hcall] at h1 h2
        simp only at h1 h2
        rw [h1, h2]
    exact ⟨key _ _, key _ _, key _ _, key _ _⟩

/-- Witness for C23: with a URL configured and the delivery timing out, the failure
notification of a job returns `null`; without a URL nothing is posted. -/
theorem webhooks_never_raise_witness :
    ((sendWebhook ⟨some "http://hook", none, none, none, .timeout⟩ "job-1" "progress"
        []).result = .ok .null ∧
      (sendJobStartedWebhook ⟨some "http://hook", none, none, none, .timeout⟩ "job-1"
        {}).result = .ok .null ∧
      (sendJobCompletedWebhook ⟨some "http://hook", none, none, none, .timeout⟩ "job-1"
        ⟨"out.mp4", "/outputs/out.mp4", 10, 5, "1080x1920", 30, false, "simple"⟩).result =
          .ok .null ∧
      (sendJobFailedNotification ⟨some "http://hook", none, none, none, .timeout⟩ "job-1"
        (.error "boom") 2).result = .ok .null) ∧
    (sendJobFailedNotification ⟨none, none, none, none, .errorResponse 500⟩ "job-1"
        (.error "boom") 2) = ⟨[], .ok .undefined⟩ :=
  ⟨(webhooks_never_raise ⟨some "http://hook", none, none, none, .timeout⟩ "job-1" "progress" []
      {} ⟨"out.mp4", "/outputs/out.mp4", 10, 5, "1080x1920", 30, false, "simple"⟩
      (.error "boom") 2).2.1 (by decide) (by decide),
   ((webhooks_never_raise ⟨none, none, none, none, .errorResponse 500⟩ "job-1" "progress" []
      {} ⟨"out.mp4", "/outputs/out.mp4", 10, 5, "1080x1920", 30, false, "simple"⟩
      (.error "boom") 2).2.2 (by decide)).2.2.2⟩

/-! ### `path.join` on plain paths -/

theorem splitSlash_ne_nil (cs : List Char) : splitSlash cs ≠ [] := by
  cases cs with
  | nil => simp [splitSlash]
  | cons c cs =>
    rw [splitSlash]
    split
    · simp
    · split <;> simp

theorem splitSlash_cons_slash (cs : List Char) : splitSlash ('/' :: cs) = [] :: splitSlash cs := by
  rw [splitSlash]
  split
  · next h => exact absurd h (splitSlash_ne_nil cs)
  · next seg segs h => simp [h]

theorem splitSlash_cons_char (c : Char) (cs : List Char) (seg : List Char)
    (segs : List (List Char)) (hc : c ≠ '/') (h : splitSlash cs = seg :: segs) :
    splitSlash (c :: cs) = (c :: seg) :: segs := by
  rw [splitSlash]
  simp [h, hc]

theorem splitSlash_append_slash (s rest : List Char) (hs : '/' ∉ s) :
    splitSlash (s ++ '/' :: rest) = s :: splitSlash rest := by
  induction s with
  | nil => exact splitSlash_cons_slash rest
  | cons c s ih =>
    have hc : c ≠ '/' := fun h => hs (by simp [h])
    have hs' : '/' ∉ s := fun h => hs (by simp [h])
    rw [List.cons_append, splitSlash_cons_char c _ s (splitSlash rest) hc (ih hs')]

theorem intercalate_cons_cons (c : Char) (seg : List Char) (segs : List (List Char)) :
    List.intercalate ['/'] ((c :: seg) :: segs) = c :: List.intercalate ['/'] (seg :: segs) := by
  cases segs with
  | nil => simp [List.intercalate]
  | cons s ss => simp [List.intercalate]

theorem intercalate_splitSlash (cs : List Char) : List.intercalate ['/'] (splitSlash cs) = cs := by
  induction cs with
  | nil => simp [splitSlash, List.intercalate]
  | cons c cs ih =>
    obtain ⟨seg, segs, h⟩ := List.exists_cons_of_ne_nil (splitSlash_ne_nil cs)
    by_cases hc : c = '/'
    · subst hc
      rw [splitSlash_cons_slash, h]
      rw [h] at ih
      simp only [List.intercalate] at ih ⊢
      simp [ih]
    · rw [splitSlash_cons_char c cs seg segs hc h, intercalate_cons_cons, ← h, ih]

theorem normalizeSegs_no_dots (allowAboveRoot : Bool) (l acc : List (List Char))
    (h : ∀ s ∈ l, s ≠ ['.'] ∧ s ≠ ['.', '.']) :
    normalizeSegs allowAboveRoot l acc = acc.reverse ++ l.filter (fun s => decide (s ≠ [])) := by
  induction l generalizing acc with
  | nil => simp [normalizeSegs]
  | cons seg rest ih =>
    have hrest : ∀ s ∈ rest, s ≠ ['.'] ∧ s ≠ ['.', '.'] :=
      fun s hs => h s (List.mem_cons_of_mem _ hs)
    obtain ⟨hdot, hdots⟩ := h seg (List.mem_cons_self _ _)
    by_cases hempty : seg = []
    · simp [normalizeSegs, hempty, ih _ hrest]
    · simp [normalizeSegs, hempty, hdot, hdots, ih _ hrest]

theorem splitSlash_getLast_of_trailing (cs : List Char) (h : cs.getLast? = some '/') :
    (splitSlash cs).getLast? = some [] := by
  induction cs with
  | nil => simp at h
  | cons c cs ih =>
    cases cs with
    | nil =>
      simp at h
      subst h
      rfl
    | cons d ds =>
      have h' : (d :: ds).getLast? = some '/' := by
        rw [List.getLast?_cons_cons] at h
        exact h
      have hlast := ih h'
      obtain ⟨seg, segs, hsplit⟩ := List.exists_cons_of_ne_nil (splitSlash_ne_nil (d :: ds))
      have hsegs : segs ≠ [] := by
        intro hnil
        rw [hsplit, hnil] at hlast
        simp at hlast
        have hround := intercalate_splitSlash (d :: ds)
        rw [hsplit, hnil, hlast] at hround
        simp [List.intercalate] at hround
      obtain ⟨s, ss, hss⟩ := List.exists_cons_of_ne_nil hsegs
      by_cases hc : c = '/'
      · subst hc
        rw [splitSlash_cons_slash, hsplit, List.getLast?_cons_cons, ← hsplit]
        exact hlast
      · rw [splitSlash_cons_char c _ seg segs hc hsplit, hss, List.getLast?_cons_cons]
        rw [hsplit, hss, List.getLast?_cons_cons] at hlast
        exact hlast

/-- Normalisation of an absolute path whose pieces hold no `.` and no `..` and which does not
end with `/`: the empty pieces go, the others stay. -/
theorem normalizeChars_absolute (rest : List Char) (segs : List (List Char))
    (hdots : ∀ s ∈ splitSlash ('/' :: rest), s ≠ ['.'] ∧ s ≠ ['.', '.'])
    (hlast : (splitSlash ('/' :: rest)).getLast? ≠ some [])
    (hsegs : (splitSlash ('/' :: rest)).filter (fun s => decide (s ≠ [])) = segs)
    (hne : segs ≠ []) :
    normalizeChars ('/' :: rest) = '/' :: List.intercalate ['/'] segs := by
  have htrail : ('/' :: rest).getLast? ≠ some '/' :=
    fun h => hlast (splitSlash_getLast_of_trailing _ h)
  unfold normalizeChars
  simp only [List.cons_ne_nil, if_false, List.head?_cons, decide_True, Bool.not_true]
  rw [normalizeSegs_no_dots _ _ _ hdots, hsegs]
  simp [hne, htrail]

theorem isPlainPath_segments {p : String} (h : isPlainPath p = true) :
    ∀ s ∈ splitSlash p.data, s ≠ [] ∧ s ≠ ['.'] ∧ s ≠ ['.', '.'] := by
  intro s hs
  have := List.all_eq_true.mp h s hs
  simpa [plainSegment] using this

theorem isPlainPath_filter {p : String} (h : isPlainPath p = true) :
    (splitSlash p.data).filter (fun s => decide (s ≠ [])) = splitSlash p.data := by
  rw [List.filter_eq_self]
  intro s hs
  simp [(isPlainPath_segments h s hs).1]

theorem isPlainPath_last {p : String} (h : isPlainPath p = true) :
    (splitSlash p.data).getLast? ≠ some [] := by
  intro hlast
  exact (isPlainPath_segments h [] (List.mem_of_getLast?_eq_some hlast)).1 rfl

theorem isPlainPath_ne_empty {p : String} (h : isPlainPath p = true) : p ≠ "" := by
  intro hp
  subst hp
  exact absurd h (by decide)

theorem getLast?_cons_of_ne_nil {α : Type} (x : α) (l : List α) (h : l ≠ []) :
    (x :: l).getLast? = l.getLast? := by
  obtain ⟨y, ys, rfl⟩ := List.exists_cons_of_ne_nil h
  exact List.getLast?_cons_cons

/-- For a plain path `pathJoin "/uploads" p` is `/uploads/` followed by the path. -/
theorem pathJoin_uploads_plain (p : String) (h : isPlainPath p = true) :
    pathJoin "/uploads" p = "/uploads/" ++ p := by
  have hp := isPlainPath_ne_empty h
  have hsplit : splitSlash ('/' :: (['u', 'p', 'l', 'o', 'a', 'd', 's'] ++ '/' :: p.data)) =
      [] :: ['u', 'p', 'l', 'o', 'a', 'd', 's'] :: splitSlash p.data := by
    rw [splitSlash_cons_slash, splitSlash_append_slash _ _ (by decide)]
  have hnorm := normalizeChars_absolute
    (['u', 'p', 'l', 'o', 'a', 'd', 's'] ++ '/' :: p.data)
    (['u', 'p', 'l', 'o', 'a', 'd', 's'] :: splitSlash p.data)
    (by
      rw [hsplit]
      intro s hs
      simp only [List.mem_cons] at hs
      rcases hs with rfl | rfl | hs
      · exact ⟨by decide, by decide⟩
      · exact ⟨by decide, by decide⟩
      · exact (isPlainPath_segments h s hs).2)
    (by
      rw [hsplit, getLast?_cons_of_ne_nil _ _ (by simp),
        getLast?_cons_of_ne_nil _ _ (splitSlash_ne_nil _)]
      exact isPlainPath_last h)
    (by
      rw [hsplit]
      simp only [List.filter_cons]
      rw [isPlainPath_filter h]
      simp)
    (by simp)
  unfold pathJoin
  rw [if_neg (by decide), if_neg hp]
  have hdata : ("/uploads" : String).data ++ '/' :: p.data =
      '/' :: (['u', 'p', 'l', 'o', 'a', 'd', 's'] ++ '/' :: p.data) := rfl
  rw [hdata, hnorm]
  obtain ⟨seg, segs, hs⟩ := List.exists_cons_of_ne_nil (splitSlash_ne_nil p.data)
  have hround := intercalate_splitSlash p.data
  apply String.ext
  rw [String.data_append]
  rw [hs] at hround ⊢
  simp only [List.intercalate] at hround ⊢
  simp [hround]

/-! ### The image-sequence plan end to end -/

theorem renderEntries_append (xs ys : List ConcatEntry) :
    renderEntries (xs ++ ys) = renderEntries xs ++ renderEntries ys := by
  induction xs with
  | nil => simp [renderEntries]
  | cons x xs ih => simp [renderEntries, ih, String.append_assoc]

theorem renderEntries_clipEntries (clips : List Clip) :
    renderEntries (clipEntries clipImageFile effectiveDuration clips) = concatBody clips := by
  induction clips with
  | nil => rfl
  | cons c cs ih =>
    simp [clipEntries, renderEntries, ih, concatBody, clipEntry, ConcatEntry.render,
      effectiveDuration, String.append_assoc]

theorem clipEntries_counts (file : Clip → String) (dur : Clip → Nat) (clips : List Clip) :
    (clipEntries file dur clips).countP ConcatEntry.isFile = clips.length ∧
    (clipEntries file dur clips).countP ConcatEntry.isDuration = clips.length := by
  induction clips with
  | nil => simp [clipEntries]
  | cons c cs ih =>
    constructor
    · simp only [clipEntries, List.countP_cons]
      rw [ih.1]
      simp [ConcatEntry.isFile]
    · simp only [clipEntries, List.countP_cons]
      rw [ih.2]
      simp [ConcatEntry.isDuration]

/-- The concat list `createConcatFile` writes, as entries: with every clip carrying a path to
a file that is present, the entries of the clips and one more `file` line for the last. -/
theorem createConcatFile_entries (existsSync : String → Bool) (clips : List Clip)
    (tempId : String)
    (hpath : ∀ c ∈ clips, strTruthy (strOr c.imagePath c.path) = true)
    (hfile : ∀ c ∈ clips, existsSync (clipImageFile c) = true) :
    createConcatFile existsSync clips tempId =
      .ok ⟨pathJoin TEMP_DIR ("concat_" ++ tempId ++ ".txt"),
           renderEntries (concatEntries clipImageFile effectiveDuration clips)⟩ := by
  simp only [createConcatFile, createConcatLoop_ok existsSync _ "" hpath hfile, concatEntries,
    renderEntries_append, renderEntries_clipEntries]
  cases hlast : clips.getLast? with
  | none => simp [renderEntries]
  | some last =>
    obtain ⟨p, hp, _⟩ := strOr_of_truthy (hpath last (List.mem_of_getLast?_eq_some hlast))
    simp [hp, renderEntries, ConcatEntry.render, clipImageFile]

/-- C25, counterexamples: a clip with the declared duration 0 gets the line `duration 5`, and
the clip path `./a.jpg` gets the line `file '/uploads/a.jpg'`; the claim has `duration 0` and
`file '/uploads/./a.jpg'` there. -/
theorem createConcatFile_zero_duration_and_dot_path :
    createConcatFile (fun _ => true) [{ path := some "a.jpg", duration := some 0 }] "t" =
      .ok ⟨"/tmp/concat_t.txt", "file '/uploads/a.jpg'\nduration 5\nfile '/uploads/a.jpg'\n"⟩ ∧
    renderEntries (concatEntries claimedClipFile declaredDuration
        [{ path := some "a.jpg", duration := some 0 }]) =
      "file '/uploads/a.jpg'\nduration 0\nfile '/uploads/a.jpg'\n" ∧
    createConcatFile (fun _ => true) [{ path := some "./a.jpg", duration := some 3 }] "t" =
      .ok ⟨"/tmp/concat_t.txt", "file '/uploads/a.jpg'\nduration 3\nfile '/uploads/a.jpg'\n"⟩ ∧
    renderEntries (concatEntries claimedClipFile declaredDuration
        [{ path := some "./a.jpg", duration := some 3 }]) =
      "file '/uploads/./a.jpg'\nduration 3\nfile '/uploads/./a.jpg'\n" := by
  decide

theorem numOr_of_nonzero {v : Option Nat} {d n : Nat} (h : v = some n) (hn : n ≠ 0) :
    numOr v d = n := by
  subst h
  simp [numOr, hn]

theorem synthesizedArgs_image_job (env : WorkerEnv) (jobData : JobData) (clips : List Clip)
    (tempId : String) (hclips : jobData.clips = some clips) (hne : clips ≠ [])
    (hformat : jobData.isEditlyFormat.getD false = false)
    (himage : ∀ c ∈ clips, isVideoClip c = false)
    (hpath : ∀ c ∈ clips, strTruthy (strOr c.imagePath c.path) = true)
    (hfile : ∀ c ∈ clips, env.existsSync (clipImageFile c) = true) :
    synthesizedArgs env jobData tempId =
      .ok (renderSettings (imagePlanSettings env.existsSync
        (pathJoin TEMP_DIR ("concat_" ++ tempId ++ ".txt"))
        (strOr jobData.audioFilePath jobData.audioPath) (outputPathOf jobData tempId)
        (numOr jobData.width 1080) (numOr jobData.height 1920) (numOr jobData.fps 30)
        env.USE_GPU)) := by
  have hlen : clips.length ≠ 0 := fun h => hne (List.length_eq_zero.mp h)
  have hany : clips.any isVideoClip = false := by
    rw [List.any_eq_false]
    intro c hc
    simp [himage c hc]
  unfold synthesizedArgs
  simp only [hclips, if_neg hlen, hformat, simpleFormatArgs, hany,
    createConcatFile_entries env.existsSync clips tempId hpath hfile,
    buildFFmpegCommand_eq_settings]
  rfl

/-- C25 (amended): for an image-only simple-format job with `n ≥ 1` clips whose files are
present, the concat list of the synthesized plan is, for each clip in submission order, a
`file` line with the clip's path joined to `/uploads` (which is `/uploads/` followed by the
path when the path is plain) and a `duration` line with the declared duration, 5 when it is
missing or zero, followed by one more `file` line for the last clip: `n + 1` file lines and
`n` duration lines. The plan reads that list, and with a width, height and frame rate
requested it scales and pads to that size and sets that output rate. -/
theorem image_job_concat_list_and_plan (env : WorkerEnv) (jobData : JobData)
    (clips : List Clip) (tempId : String) (hclips : jobData.clips = some clips)
    (hne : clips ≠ []) (hformat : jobData.isEditlyFormat.getD false = false)
    (himage : ∀ c ∈ clips, isVideoClip c = false)
    (hpath : ∀ c ∈ clips, strTruthy (strOr c.imagePath c.path) = true)
    (hfile : ∀ c ∈ clips, env.existsSync (clipImageFile c) = true) :
    createConcatFile env.existsSync clips tempId =
      .ok ⟨pathJoin TEMP_DIR ("concat_" ++ tempId ++ ".txt"),
           renderEntries (concatEntries clipImageFile effectiveDuration clips)⟩ ∧
    (concatEntries clipImageFile effectiveDuration clips).countP ConcatEntry.isFile =
      clips.length + 1 ∧
    (concatEntries clipImageFile effectiveDuration clips).countP ConcatEntry.isDuration =
      clips.length ∧
    (∀ c ∈ clips, ∀ p, strOr c.imagePath c.path = some p → isPlainPath p = true →
      clipImageFile c = "/uploads/" ++ p) ∧
    (∀ c ∈ clips, effectiveDuration c =
      if c.duration = none ∨ c.duration = some 0 then 5 else declaredDuration c) ∧
    (∀ w h f, jobData.width = some w → jobData.height = some h → jobData.fps = some f →
      w ≠ 0 → h ≠ 0 → f ≠ 0 →
      synthesizedArgs env jobData tempId =
        .ok (renderSettings (imagePlanSettings env.existsSync
          (pathJoin TEMP_DIR ("concat_" ++ tempId ++ ".txt"))
          (strOr jobData.audioFilePath jobData.audioPath) (outputPathOf jobData tempId)
          w h f env.USE_GPU)) ∧
      Setting.opt "-i" (pathJoin TEMP_DIR ("concat_" ++ tempId ++ ".txt")) ∈
        imagePlanSettings env.existsSync (pathJoin TEMP_DIR ("concat_" ++ tempId ++ ".txt"))
          (strOr jobData.audioFilePath jobData.audioPath) (outputPathOf jobData tempId)
          w h f env.USE_GPU ∧
      Setting.opt "-vf" (scalePad w h) ∈
        imagePlanSettings env.existsSync (pathJoin TEMP_DIR ("concat_" ++ tempId ++ ".txt"))
          (strOr jobData.audioFilePath jobData.audioPath) (outputPathOf jobData tempId)
          w h f env.USE_GPU ∧
      Setting.opt "-r" (toString f) ∈
        imagePlanSettings env.existsSync (pathJoin TEMP_DIR ("concat_" ++ tempId ++ ".txt"))
          (strOr jobData.audioFilePath jobData.audioPath) (outputPathOf jobData tempId)
          w h f env.USE_GPU) := by
  obtain ⟨last, hlast⟩ : ∃ last, clips.getLast? = some last := by
    cases h : clips.getLast? with
    | none => exact absurd (List.getLast?_eq_none_iff.mp h) hne
    | some last => exact ⟨last, rfl⟩
  refine ⟨createConcatFile_entries env.existsSync clips tempId hpath hfile, ?_, ?_, ?_, ?_, ?_⟩
  · simp [concatEntries, hlast, List.countP_append, (clipEntries_counts _ _ clips).1,
      ConcatEntry.isFile]
  · simp [concatEntries, hlast, List.countP_append, (clipEntries_counts _ _ clips).2,
      ConcatEntry.isDuration]
  · intro c _ p hp hplain
    simp only [clipImageFile, hp, Option.getD_some]
    exact pathJoin_uploads_plain p hplain
  · intro c _
    unfold effectiveDuration declaredDuration numOr
    cases hd : c.duration with
    | none => simp
    | some d =>
      by_cases h0 : d = 0
      · simp [h0]
      · simp [h0]
  · intro w h f hw hh hf hw0 hh0 hf0
    refine ⟨?_, ?_, ?_, ?_⟩
    · rw [synthesizedArgs_image_job env jobData clips tempId hclips hne hformat himage hpath
        hfile, numOr_of_nonzero hw hw0, numOr_of_nonzero hh hh0, numOr_of_nonzero hf hf0]
    all_goals simp [imagePlanSettings]

/-- Witness for C25: the images `a.jpg` (3 s) and `b.jpg` (2 s), both present, at 640x480
and 24 frames per second. -/
theorem image_job_concat_list_and_plan_witness :
    createConcatFile (fun _ => true)
        [{ path := some "a.jpg", duration := some 3 },
         { path := some "b.jpg", duration := some 2 }] "t" =
      .ok ⟨pathJoin TEMP_DIR ("concat_" ++ "t" ++ ".txt"),
           renderEntries (concatEntries clipImageFile effectiveDuration
             [{ path := some "a.jpg", duration := some 3 },
              { path := some "b.jpg", duration := some 2 }])⟩ ∧
    renderEntries (concatEntries clipImageFile effectiveDuration
        [{ path := some "a.jpg", duration := some 3 },
         { path := some "b.jpg", duration := some 2 }]) =
      "file '/uploads/a.jpg'\nduration 3\nfile '/uploads/b.jpg'\nduration 2\n" ++
        "file '/uploads/b.jpg'\n" ∧
    Setting.opt "-vf" (scalePad 640 480) ∈
      imagePlanSettings (fun _ => true) (pathJoin TEMP_DIR ("concat_" ++ "t" ++ ".txt"))
        (strOr none none) (outputPathOf
          { clips := some [{ path := some "a.jpg", duration := some 3 },
                           { path := some "b.jpg", duration := some 2 }],
            width := some 640, height := some 480, fps := some 24 } "t")
        640 480 24 false :=
  have h := image_job_concat_list_and_plan ⟨false, fun _ => true⟩
    { clips := some [{ path := some "a.jpg", duration := some 3 },
                     { path := some "b.jpg", duration := some 2 }],
      width := some 640, height := some 480, fps := some 24 }
    [{ path := some "a.jpg", duration := some 3 }, { path := some "b.jpg", duration := some 2 }]
    "t" rfl (by decide) (by decide) (by decide) (by decide) (by simp)
  ⟨h.1, by decide, (h.2.2.2.2.2 640 480 24 rfl rfl rfl (by decide) (by decide) (by decide)).2.2.1⟩

/-! ### The job id returned and the job id stored -/

/-- The id under which an accepted request is stored: the `jobId` option `addJob` passes is
the `id` of the request body (of its `editSpec`, when it has one) when that is present, and
the generated id only otherwise. -/
theorem postJobs_stored_id (jobId : String) (body : RequestBody) (data : JobData)
    (h : (postJobs jobId body).enqueued = some data) :
    (postJobs jobId body).response = .created jobId ∧
    (addJobOptions data).jobId =
      some ((match body.editSpec with
        | some editSpec => editSpec.fields.id
        | none => body.fields.id).getD jobId) := by
  unfold postJobs at h ⊢
  cases hspec : body.editSpec with
  | some editSpec =>
    simp only [hspec] at h ⊢
    split at h
    · simp at h
    · next hvalid =>
      simp only [hvalid, Option.some.injEq] at h ⊢
      subst h
      exact ⟨by simp, rfl⟩
  | none =>
    simp only [hspec] at h ⊢
    split at h
    · simp at h
    · next hvalid =>
      simp only [hvalid, Option.some.injEq] at h ⊢
      subst h
      exact ⟨by simp, rfl⟩

/-- C26, failing input: the request body `{ id: "my-id", clips: [clip] }` is accepted; the
client is told the generated id, while the job is stored under `my-id`. The same happens with
an `id` inside `editSpec`. -/
theorem postJobs_returns_generated_id_stores_supplied_id :
    (postJobs "generated-id"
        { clips := .array [{ path := some "a.jpg" }], fields := { id := some "my-id" } }).response
      = .created "generated-id" ∧
    ((postJobs "generated-id"
        { clips := .array [{ path := some "a.jpg" }], fields := { id := some "my-id" } }).enqueued.map
      (fun data => (addJobOptions data).jobId)) = some (some "my-id") ∧
    (postJobs "generated-id"
        { editSpec := some { clips := .array [{ path := some "a.jpg" }],
                             fields := { id := some "my-id" } } }).response
      = .created "generated-id" ∧
    ((postJobs "generated-id"
        { editSpec := some { clips := .array [{ path := some "a.jpg" }],
                             fields := { id := some "my-id" } } }).enqueued.map
      (fun data => (addJobOptions data).jobId)) = some (some "my-id") := by
  decide

/-! ### The resolution a result reports -/

/-- The resolution string of a result is built from the defaults 1080 and 1920, whatever the
format of the job. -/
theorem processVideo_resolution (env : WorkerEnv) (jobData : JobData) (tempId : String)
    (run : EncoderRun) (result : RenderResult)
    (h : (processVideo env jobData tempId run).result = .ok result) :
    result.resolution =
      toString (numOr jobData.width 1080) ++ "x" ++ toString (numOr jobData.height 1920) := by
  unfold processVideo at h
  simp only at h
  split at h
  · simp at h
  · split at h
    · simp at h
    · split at h
      · simp at h
      · split at h
        · simp at h
        · simp only [Except.ok.injEq] at h
          rw [← h]

/-- C27, failing input: a layered job without `width` and `height` whose encoder run
succeeds. The plan that was executed scales and pads to 1024x1536, the result reports
`1080x1920`. -/
theorem processVideo_layered_reports_other_resolution :
    (processVideo ⟨false, fun _ => true⟩
        { isEditlyFormat := some true,
          clips := some [{ duration := some 3,
                           layers := some [some { type := some "image", path := some "a.jpg" }] }] }
        "t" ⟨[], .close (some 0), some 1000, 3⟩).spawned =
      [["-f", "concat", "-safe", "0", "-i", "/tmp/editly_video_t.txt", "-c:v", "libx264",
        "-preset", "medium", "-crf", "23", "-b:v", "3000k", "-profile:v", "main",
        "-level", "4.1", "-bf", "3", "-g", "60", "-an",
        "-vf", "scale=1024:1536:force_original_aspect_ratio=decrease,pad=1024:1536:(ow-iw)/2:(oh-ih)/2",
        "-r", "30", "-pix_fmt", "yuv420p", "-movflags", "+faststart", "-y",
        "/outputs/video_t.mp4"]] ∧
    (processVideo ⟨false, fun _ => true⟩
        { isEditlyFormat := some true,
          clips := some [{ duration := some 3,
                           layers := some [some { type := some "image", path := some "a.jpg" }] }] }
        "t" ⟨[], .close (some 0), some 1000, 3⟩).result =
      .ok { outputFile := "video_t.mp4", outputPath := "/outputs/video_t.mp4",
            fileSize := 1000, duration := 3, resolution := "1080x1920", fps := 30,
            useGpu := false, format := "editly" } := by
  decide

/-! ### The two path rules of the layered pipeline -/

theorem startsWith_uploads_of_slash (p : String) (h : startsWith p "/uploads/" = true) :
    startsWith p "/uploads" = true := by
  unfold startsWith at h ⊢
  rw [List.isPrefixOf_iff_prefix] at h ⊢
  exact List.IsPrefix.trans (by decide) h

/-- The two rules agree on the paths that do not start with `uploads/` and that start with
`/uploads` only when they start with `/uploads/`. -/
theorem resolve_rules_agree (p : String) (hrel : startsWith p "uploads/" = false)
    (habs : startsWith p "/uploads" = true → startsWith p "/uploads/" = true) :
    resolveImagePath p = resolveAudioPath p := by
  unfold resolveImagePath resolveAudioPath
  by_cases h1 : startsWith p "/uploads/" = true
  · simp [h1, startsWith_uploads_of_slash p h1]
  · have h2 : ¬ startsWith p "/uploads" = true := fun h => h1 (habs h)
    simp [h1, h2, hrel]

/-- C28, failing input: the layer path `uploads/a.mp3` is resolved to `/uploads/a.mp3` by
the rule for image layers and to `/uploads/uploads/a.mp3` by the rule for audio layers; the
path `/uploadsold/a.mp3` is left as it is by the audio rule and put under `/uploads` by the
image rule. -/
theorem resolve_rules_differ :
    resolveImagePath "uploads/a.mp3" = "/uploads/a.mp3" ∧
    resolveAudioPath "uploads/a.mp3" = "/uploads/uploads/a.mp3" ∧
    resolveImagePath "/uploadsold/a.mp3" = "/uploads/uploadsold/a.mp3" ∧
    resolveAudioPath "/uploadsold/a.mp3" = "/uploadsold/a.mp3" := by
  decide

/-! ### Files outside the uploads root -/

theorem isPlainPath_not_absolute {p : String} (h : isPlainPath p = true) :
    p.data.head? ≠ some '/' := by
  intro hhead
  cases hd : p.data with
  | nil => simp [hd] at hhead
  | cons c cs =>
    rw [hd] at hhead
    simp at hhead
    subst hhead
    have hmem : ([] : List Char) ∈ splitSlash p.data := by
      rw [hd, splitSlash_cons_slash]
      exact List.mem_cons_self _ _
    exact (isPlainPath_segments h [] hmem).1 rfl

theorem not_startsWith_of_not_absolute (p q : String) (hp : p.data.head? ≠ some '/')
    (hq : q.data.head? = some '/') : startsWith p q = false := by
  unfold startsWith
  cases hqd : q.data with
  | nil => simp [hqd] at hq
  | cons c cs =>
    rw [hqd] at hq
    simp at hq
    subst hq
    cases hpd : p.data with
    | nil => rfl
    | cons d ds =>
      rw [hpd] at hp
      have hd : d ≠ '/' := fun h => hp (by simp [h])
      simp [List.isPrefixOf, Ne.symm hd]

/-- Normalisation leaves `/` followed by a plain path as it is. -/
theorem normalizeChars_root_plain (p : String) (h : isPlainPath p = true) :
    normalizeChars ('/' :: p.data) = '/' :: p.data := by
  have hnorm := normalizeChars_absolute p.data (splitSlash p.data)
    (by
      rw [splitSlash_cons_slash]
      intro s hs
      simp only [List.mem_cons] at hs
      rcases hs with rfl | hs
      · exact ⟨by decide, by decide⟩
      · exact (isPlainPath_segments h s hs).2)
    (by
      rw [splitSlash_cons_slash, getLast?_cons_of_ne_nil _ _ (splitSlash_ne_nil _)]
      exact isPlainPath_last h)
    (by
      rw [splitSlash_cons_slash]
      simp only [List.filter_cons]
      rw [isPlainPath_filter h]
      simp)
    (splitSlash_ne_nil _)
  rw [hnorm, intercalate_splitSlash]

/-- For a plain path `pathJoin "/" p` is `/` followed by the path. -/
theorem pathJoin_root_plain (p : String) (h : isPlainPath p = true) :
    pathJoin "/" p = "/" ++ p := by
  have hp := isPlainPath_ne_empty h
  have hnorm := normalizeChars_absolute ('/' :: p.data) (splitSlash p.data)
    (by
      rw [splitSlash_cons_slash, splitSlash_cons_slash]
      intro s hs
      simp only [List.mem_cons] at hs
      rcases hs with rfl | rfl | hs
      · exact ⟨by decide, by decide⟩
      · exact ⟨by decide, by decide⟩
      · exact (isPlainPath_segments h s hs).2)
    (by
      rw [splitSlash_cons_slash, splitSlash_cons_slash, getLast?_cons_of_ne_nil _ _ (by simp),
        getLast?_cons_of_ne_nil _ _ (splitSlash_ne_nil _)]
      exact isPlainPath_last h)
    (by
      rw [splitSlash_cons_slash, splitSlash_cons_slash]
      simp only [List.filter_cons]
      rw [isPlainPath_filter h]
      simp)
    (splitSlash_ne_nil _)
  unfold pathJoin
  rw [if_neg (by decide), if_neg hp]
  have hdata : ("/" : String).data ++ '/' :: p.data = '/' :: '/' :: p.data := rfl
  rw [hdata, hnorm, intercalate_splitSlash]
  rfl

theorem insideUploads_uploads_plain (p : String) (h : isPlainPath p = true) :
    insideUploads ("/uploads/" ++ p) = true := by
  have hjoin := pathJoin_uploads_plain p h
  unfold pathJoin at hjoin
  rw [if_neg (by decide), if_neg (isPlainPath_ne_empty h)] at hjoin
  have hdata : ("/uploads/" ++ p).data = ("/uploads" : String).data ++ '/' :: p.data := by
    rw [String.data_append]
    rfl
  unfold insideUploads
  rw [hdata, hjoin]
  unfold startsWith
  rw [String.data_append, List.isPrefixOf_iff_prefix]
  exact List.prefix_append _ _

/-- A plain path is resolved to a file inside the uploads root by each of the rules of the
synthesizer: the join of the simple pipelines and the image and audio rules of the layered
pipeline. -/
theorem plain_path_inside_uploads (p : String) (h : isPlainPath p = true) :
    insideUploads (pathJoin "/uploads" p) = true ∧
    insideUploads (resolveImagePath p) = true ∧
    insideUploads (resolveAudioPath p) = true := by
  have hrel := isPlainPath_not_absolute h
  have hjoin : insideUploads (pathJoin "/uploads" p) = true := by
    rw [pathJoin_uploads_plain p h]
    exact insideUploads_uploads_plain p h
  refine ⟨hjoin, ?_, ?_⟩
  · unfold resolveImagePath
    rw [not_startsWith_of_not_absolute p "/uploads/" hrel rfl]
    by_cases hup : startsWith p "uploads/" = true
    · simp only [hup, if_true, Bool.false_eq_true, if_false]
      rw [pathJoin_root_plain p h]
      unfold insideUploads
      have hdata : ("/" ++ p).data = '/' :: p.data := by
        rw [String.data_append]
        rfl
      rw [hdata, normalizeChars_root_plain p h]
      unfold startsWith at hup ⊢
      rw [List.isPrefixOf_iff_prefix] at hup ⊢
      obtain ⟨t, ht⟩ := hup
      exact ⟨t, by
        show '/' :: (("uploads/" : String).data ++ t) = '/' :: p.data
        rw [ht]⟩
    · simp only [hup, Bool.false_eq_true, if_false]
      exact hjoin
  · unfold resolveAudioPath
    rw [not_startsWith_of_not_absolute p "/uploads" hrel rfl]
    simp only [Bool.false_eq_true, if_false]
    exact hjoin

/-- C29, failing input: the clip path `../etc/passwd`. The simple pipeline checks and lists
`/etc/passwd`, the video builder hands `/etc/passwd.mp4` to the encoder, and the layered
rules keep `/uploads/../etc/passwd` and `/uploadsold/a.mp3` as they are; none of these files
lies inside the uploads root. -/
theorem synthesizer_reads_outside_uploads :
    createConcatFile (fun file => file == "/etc/passwd") [{ path := some "../etc/passwd" }] "t" =
      .ok ⟨"/tmp/concat_t.txt", "file '/etc/passwd'\nduration 5\nfile '/etc/passwd'\n"⟩ ∧
    insideUploads "/etc/passwd" = false ∧
    (buildVideoFFmpegCommand (fun file => file == "/etc/passwd.mp4")
        [{ path := some "../etc/passwd.mp4" }] none "/outputs/o.mp4" 1080 1920 30 false).map
      (List.take 2) = .ok ["-i", "/etc/passwd.mp4"] ∧
    insideUploads "/etc/passwd.mp4" = false ∧
    resolveImagePath "/uploads/../etc/passwd" = "/uploads/../etc/passwd" ∧
    insideUploads "/uploads/../etc/passwd" = false ∧
    resolveAudioPath "/uploadsold/a.mp3" = "/uploadsold/a.mp3" ∧
    insideUploads "/uploadsold/a.mp3" = false := by
  decide

/-! ### The job's own `gpu` flag -/

theorem processVideo_gpu_irrelevant (env : WorkerEnv) (jobData : JobData) (gpu : Option Bool)
    (tempId : String) (run : EncoderRun) :
    processVideo env { jobData with gpu := gpu } tempId run =
      processVideo env jobData tempId run := rfl

theorem synthesizedArgs_gpu_irrelevant (env : WorkerEnv) (jobData : JobData)
    (gpu : Option Bool) (tempId : String) :
    synthesizedArgs env { jobData with gpu := gpu } tempId =
      synthesizedArgs env jobData tempId := rfl

/-- C30: two job specs that differ only in their `gpu` flag get, on the same worker (the same
`USE_GPU` setting and file system) and with the same temporary id and encoder run, the same
synthesized encoder arguments and the same outcome from `processVideo`: the job's own flag
has no part in the choice between hardware and software encoding. -/
theorem processVideo_independent_of_gpu_flag (env : WorkerEnv) (job₁ job₂ : JobData)
    (tempId : String) (run : EncoderRun)
    (hsame : { job₁ with gpu := none } = { job₂ with gpu := none }) :
    synthesizedArgs env job₁ tempId = synthesizedArgs env job₂ tempId ∧
    processVideo env job₁ tempId run = processVideo env job₂ tempId run := by
  constructor
  · rw [← synthesizedArgs_gpu_irrelevant env job₁ none, hsame,
      synthesizedArgs_gpu_irrelevant env job₂ none]
  · rw [← processVideo_gpu_irrelevant env job₁ none, hsame,
      processVideo_gpu_irrelevant env job₂ none]

/-- Witness for C30: the same image job once with `gpu: true` and once with `gpu: false`. -/
theorem processVideo_independent_of_gpu_flag_witness :
    synthesizedArgs ⟨false, fun _ => true⟩
        { clips := some [{ path := some "a.jpg" }], gpu := some true } "t" =
      synthesizedArgs ⟨false, fun _ => true⟩
        { clips := some [{ path := some "a.jpg" }], gpu := some false } "t" ∧
    processVideo ⟨false, fun _ => true⟩
        { clips := some [{ path := some "a.jpg" }], gpu := some true } "t"
        ⟨[], .close (some 0), some 10, 5⟩ =
      processVideo ⟨false, fun _ => true⟩
        { clips := some [{ path := some "a.jpg" }], gpu := some false } "t"
        ⟨[], .close (some 0), some 10, 5⟩ :=
  processVideo_independent_of_gpu_flag ⟨false, fun _ => true⟩
    { clips := some [{ path := some "a.jpg" }], gpu := some true }
    { clips := some [{ path := some "a.jpg" }], gpu := some false } "t"
    ⟨[], .close (some 0), some 10, 5⟩ rfl

/-- The handler of the worker, unlike `processVideo`, does read the flag: on a worker without
GPU a job with `gpu: true` is refused before `processVideo` is called. -/
theorem processJob_reads_gpu_flag (data : JobData) (existsSync : String → Bool)
    (tempId : String) (run : EncoderRun) (h : data.gpu = some true) :
    (processJob ⟨false, existsSync⟩ data tempId run).result =
        .error (.error "This worker does not support GPU processing") ∧
      (processJob ⟨false, existsSync⟩ data tempId run).spawned = [] := by
  simp [processJob, h]

/-! ### The double arithmetic on known values -/

/-- Known values of double arithmetic: `0.1 + 0.2` is not `0.3`; `90 * 0.7` is below 63, so
its floor is 62; `(2.9 / 10) * 100` is below 29; a whole number below `2 ^ 53` is kept as it
is, while `2 ^ 53 + 1` is rounded to `2 ^ 53`; and a run of 400 digits is `Infinity`. -/
theorem double_arithmetic_examples :
    (parseFloat ['0'] ['1']).add (parseFloat ['0'] ['2']) ≠ parseFloat ['0'] ['3'] ∧
    ((JsNumber.ofNat 90).mul (parseFloat ['0'] ['7'])).floor = JsNumber.ofNat 62 ∧
    (((parseFloat ['2'] ['9']).div (JsNumber.ofNat 10)).mul (JsNumber.ofNat 100)).floor =
      JsNumber.ofNat 28 ∧
    JsNumber.ofNat 9007199254740991 = .finite (9007199254740991 * unitsPerOne) ∧
    JsNumber.ofNat 9007199254740993 = JsNumber.ofNat 9007199254740992 ∧
    parseInt (List.replicate 400 '9') = .infinity := by
  decide

/-- The scaling `Math.floor(progress * 0.7)` of the worker's handler, evaluated in double
arithmetic, is `scaleProgress` for every whole percentage up to 100. -/
theorem scaleProgress_eq_double :
    ∀ p, p ≤ 100 →
      ((JsNumber.ofNat p).mul (parseFloat ['0'] ['7'])).floor =
        JsNumber.ofNat (scaleProgress p) := by
  decide

end VideoEditor
